import Mathlib

/-! # Template loader of `revel` (`src/template.go`)

A shallow embedding of `TemplateLoader.Refresh`, `TemplateLoader.Template`,
`WatchDir`, `WatchFile`, `parseTemplateError` and the template functions
`pluralize`, `layout` and `content`.

Conventions of the embedding

* A Go `string` is the list of its bytes, a byte being written as the
  character of that code (`List Char`, all codes below 256); the texts that
  the theorems evaluate are ASCII.  Lengths and offsets are therefore Go's
  byte lengths and byte offsets, and the functions that Go applies to the
  characters of a text (`strings.TrimSpace`, the regular expressions) decode
  UTF-8 in the embedding as they do in Go.
* The operating system, the Go standard library functions that the loader
  calls and the package-level configuration are the fields of `World`.
* A run-time panic, `log.Fatalln` and exhaustion of the recursion budget are
  explicit results (`Res`).
* `filepath.Walk` is embedded after the Go standard library (`path/filepath`,
  the version that reads the directory before calling the walk function and
  maps a top-level `SkipDir` to `nil`).
* A template set of `html/template` is the list of the templates created by
  `New`, each with the text handed to `Parse` and the error `Parse` returned;
  a method called on the nil set panics, as `Lookup` does in Go.  The
  templates that a parsed text declares with `define` are the field `defined`
  of `Engine`; `Templates` lists them with the templates of the files.
  `Lookup` is called with the names of files only and is embedded for them.
* Go's `int` has 64 bits.
* The execution of a template by `html/template` is a field of `Engine`; the
  template functions are embedded for the loader `MainTemplateLoader`.
* A haml source is described, for the statements about the preprocessing, by
  its cut at the double-quoted literals (`HamlSource`); the regular
  expressions themselves are embedded as matchers on the text.
-/

set_option autoImplicit false

namespace Revel

/-- Go strings, byte by byte. -/
abbrev Str := List Char

/-- Reasons for which the Go run time aborts the current call. -/
inductive Panic where
  | sliceBounds
  | nilDereference
  | typeAssertion
  | explicit (msg : Str)
  | library
  deriving DecidableEq, Repr

/-- Result of running a piece of the program. -/
inductive Res (α : Type) where
  | ok (a : α)
  | panic (p : Panic)
  | fatal
  | outOfFuel
  deriving DecidableEq, Repr

/-- Sequencing of results: everything but `ok` is propagated. -/
def Res.bind {α β : Type} (r : Res α) (f : α → Res β) : Res β :=
  match r with
  | .ok a => f a
  | .panic p => .panic p
  | .fatal => .fatal
  | .outOfFuel => .outOfFuel

/-! ## Strings -/

/-- Go slice expression `s[lo:]`; `none` is the out-of-range panic. -/
def sliceFrom (s : Str) (lo : Nat) : Option Str :=
  if lo ≤ s.length then some (s.drop lo) else none

/-- Go slice expression `s[lo:hi]`; `none` is the out-of-range panic. -/
def slice (s : Str) (lo hi : Nat) : Option Str :=
  if lo ≤ hi ∧ hi ≤ s.length then some ((s.take hi).drop lo) else none

/-- Go `strings.Index(s, ":")` for a one-character needle: offset of the first occurrence. -/
def indexOfChar (c : Char) : Str → Option Nat
  | [] => none
  | d :: t => if d = c then some 0 else (indexOfChar c t).map (· + 1)

/-- The UTF-8 encodings of the characters for which Go `unicode.IsSpace` holds: the six ASCII
ones, U+0085, U+00A0, U+1680, U+2000 to U+200A, U+2028, U+2029, U+202F, U+205F and U+3000. -/
def spaceEncodings : List Str :=
  [[' '], ['\t'], ['\n'], ['\x0b'], ['\x0c'], ['\r'],
   ['\xc2', '\x85'], ['\xc2', '\xa0'], ['\xe1', '\x9a', '\x80'],
   ['\xe2', '\x80', '\x80'], ['\xe2', '\x80', '\x81'], ['\xe2', '\x80', '\x82'],
   ['\xe2', '\x80', '\x83'], ['\xe2', '\x80', '\x84'], ['\xe2', '\x80', '\x85'],
   ['\xe2', '\x80', '\x86'], ['\xe2', '\x80', '\x87'], ['\xe2', '\x80', '\x88'],
   ['\xe2', '\x80', '\x89'], ['\xe2', '\x80', '\x8a'], ['\xe2', '\x80', '\xa8'],
   ['\xe2', '\x80', '\xa9'], ['\xe2', '\x80', '\xaf'], ['\xe2', '\x81', '\x9f'],
   ['\xe3', '\x80', '\x80']]

/-- Drops from the head of a text, as long as there is one, an occurrence of one of the given
byte sequences; the first argument bounds the number of occurrences dropped. -/
def trimLeading (encodings : List Str) : Nat → Str → Str
  | 0, s => s
  | fuel + 1, s =>
    match encodings.find? (fun e => e.isPrefixOf s) with
    | some e => trimLeading encodings fuel (s.drop e.length)
    | none => s

/-- Go `strings.TrimSpace`: the text without the white space characters, in their UTF-8
encoding, at its head and at its end. -/
def trimSpace (s : Str) : Str :=
  let rest := trimLeading spaceEncodings s.length s
  (trimLeading (spaceEncodings.map List.reverse) rest.length rest.reverse).reverse

/-- Go `strings.HasPrefix`. -/
def hasPrefix (s p : Str) : Bool := p.isPrefixOf s

/-- Go `strings.Split(s, sep)` for a one-character separator. -/
def splitChar (sep : Char) : Str → List Str
  | [] => [[]]
  | c :: t =>
    if c = sep then [] :: splitChar sep t
    else
      match splitChar sep t with
      | [] => [[c]]
      | h :: r => (c :: h) :: r

/-- Go `strings.Replace(s, old, new, -1)` for one-character `old` and `new`. -/
def replaceChar (old new : Char) (s : Str) : Str :=
  s.map (fun c => if c = old then new else c)

/-! ## `parseTemplateError` -/

/-- Largest value of Go's `int` (64-bit platforms). -/
def maxInt : Nat := 2 ^ 63 - 1

/-- Value of a decimal digit. -/
def digitVal (c : Char) : Nat := c.toNat - 48

/-- Value of a string of decimal digits. -/
def decimalValue (s : Str) : Nat :=
  s.foldl (fun acc c => 10 * acc + digitVal c) 0

/-- Go `strconv.Atoi` on an unsigned numeral: the value and whether the conversion succeeded.
A numeral too large for `int` yields the largest `int` together with a range error; text that
is not a numeral yields 0 and a syntax error. -/
def atoiDigits (s : Str) : Int × Bool :=
  if s = [] ∨ ¬ s.all Char.isDigit then (0, false)
  else if decimalValue s ≤ maxInt then ((decimalValue s : Int), true)
  else ((maxInt : Int), false)

/-- Go `strconv.Atoi`: an optional sign followed by an unsigned numeral. -/
def atoi (s : Str) : Int × Bool :=
  match s with
  | '+' :: t => atoiDigits t
  | '-' :: t =>
    if t = [] ∨ ¬ t.all Char.isDigit then (0, false)
    else if decimalValue t ≤ maxInt + 1 then (- (decimalValue t : Int), true)
    else (- ((maxInt : Int) + 1), false)
  | _ => atoiDigits s

/-- Length of the match of the regular expression `:\d+:` anchored at the head of `s`. -/
def matchLineMarker (s : Str) : Option Nat :=
  match s with
  | [] => none
  | c :: rest =>
    if c = ':' then
      let ds := rest.takeWhile Char.isDigit
      if ds ≠ [] ∧ (rest.drop ds.length).head? = some ':' then some (ds.length + 2) else none
    else none

/-- Go `regexp.MustCompile(":\\d+:").FindStringIndex(s)`, with `off` the offset of `s` in the
whole text: start and end of the leftmost match. -/
def findLineMarker : Str → Nat → Option (Nat × Nat)
  | [], _ => none
  | c :: t, off =>
    match matchLineMarker (c :: t) with
    | some n => some (off, off + n)
    | none => findLineMarker t (off + 1)

/-- Embedding of `parseTemplateError` applied to an error whose `Error()` text is `msg`. -/
def parseTemplateError (msg : Str) : Res (Str × Int × Str) :=
  match findLineMarker msg 0 with
  | none => .ok ([], 0, msg)
  | some (i0, i1) =>
    match slice msg (i0 + 1) (i1 - 1) with
    | none => .panic .sliceBounds
    | some num =>
      let line := (atoi num).1
      match slice msg 0 i0 with
      | none => .panic .sliceBounds
      | some templateName =>
        let templateName :=
          match indexOfChar ':' templateName with
          | some colon => templateName.drop (colon + 1)
          | none => templateName
        let templateName := trimSpace templateName
        match sliceFrom msg (i1 + 1) with
        | none => .panic .sliceBounds
        | some description => .ok (templateName, line, description)

/-! ## Data model -/

/-- Kind of a directory entry, as reported by `os.FileInfo.Mode()`. -/
inductive FileKind where
  | regular
  | dir
  | symlink
  deriving DecidableEq, Repr

/-- The part of `os.FileInfo` that the loader reads. -/
structure FileInfo where
  name : Str
  kind : FileKind
  deriving DecidableEq, Repr

/-- Go `info.IsDir()`. -/
def FileInfo.isDir (info : FileInfo) : Bool := decide (info.kind = .dir)

/-- Go `info.Mode()&os.ModeSymlink == os.ModeSymlink`. -/
def FileInfo.isSymlink (info : FileInfo) : Bool := decide (info.kind = .symlink)

/-- The fields of revel's `Error` that the loader fills in. -/
structure Error where
  Title : Str
  Path : Str
  Line : Int
  Description : Str
  SourceLines : List Str
  deriving DecidableEq, Repr

/-- Go `error` values met by the loader, by dynamic type: the sentinel `filepath.SkipDir`,
a `*Error` of revel, or any other error with its text. -/
inductive GoError where
  | text (msg : Str)
  | revel (e : Error)
  | skipDir
  deriving DecidableEq, Repr

/-- A template of the `html/template` set: its name, the delimiters in force when it was parsed,
the text handed to `Parse` and the error `Parse` returned. -/
structure Tmpl where
  name : Str
  leftDelim : Str
  rightDelim : Str
  text : Str
  parseError : Option Str
  deriving DecidableEq, Repr

/-- The name space of an `html/template` set; the most recent template of a name is found first. -/
abbrev TemplateSet := List Tmpl

/-- Go `(*template.Template).Lookup` on a non-nil set. -/
def TemplateSet.Lookup (set : TemplateSet) (name : Str) : Option Tmpl :=
  set.find? (fun t => decide (t.name = name))

/-- Go `map[string]string`; the binding met first is the current one. -/
abbrev StrMap := List (Str × Str)

/-- Go `v, ok := m[key]`. -/
def StrMap.get? : StrMap → Str → Option Str
  | [], _ => none
  | (k, v) :: m, key => if key = k then some v else StrMap.get? m key

/-- Go `m[key] = v`. -/
def StrMap.set (m : StrMap) (key v : Str) : StrMap := (key, v) :: m

/-- The operating system, the library functions and the package-level configuration that the
loader depends on. -/
structure World where
  /-- Go `os.PathSeparator`. -/
  pathSeparator : Char
  /-- Go `os.Lstat`. -/
  lstat : Str → Except Str FileInfo
  /-- Go `os.Stat`. -/
  stat : Str → Except Str FileInfo
  /-- Go `filepath.EvalSymlinks`. -/
  evalSymlinks : Str → Except Str Str
  /-- Sorted names of the entries of a directory, as read by `filepath.Walk`. -/
  readDirNames : Str → Except Str (List Str)
  /-- Go `ioutil.ReadFile`. -/
  readFile : Str → Except Str Str
  /-- Go `filepath.Join` of a directory and an entry name. -/
  join : Str → Str → Str
  /-- Go `filepath.Dir`. -/
  dir : Str → Str
  /-- Go `strings.ToLower`. -/
  toLower : Str → Str
  /-- Output of the gohaml engine on a source text; `none` when the engine panics. -/
  gohaml : Str → Option Str
  /-- Value with which `Funcs(TemplateFuncs)` panics, `none` when every entry is acceptable. -/
  funcsPanic : Option Str
  /-- Error returned by `Parse` for the templates already in the set, the left delimiter, the
  right delimiter, the name of the new template and its text. -/
  parse : TemplateSet → Str → Str → Str → Str → Option Str
  /-- Method `Error()` of revel's `*Error`. -/
  errorText : Error → Str
  /-- The configuration value `TemplateDelims`. -/
  TemplateDelims : Str
  /-- The configuration value `ViewsPath`. -/
  ViewsPath : Str

/-- Go `err.Error()`. -/
def GoError.message (w : World) : GoError → Str
  | .text msg => msg
  | .revel e => w.errorText e
  | .skipDir => "skip this directory".toList

/-- Embedding of `TemplateLoader`. -/
structure TemplateLoader where
  templateSet : Option TemplateSet
  compileError : Option Error
  paths : List Str
  templatePaths : StrMap
  templateNames : StrMap
  deriving DecidableEq, Repr

/-- Embedding of `NewTemplateLoader`. -/
def NewTemplateLoader (paths : List Str) : TemplateLoader :=
  { templateSet := none, compileError := none, paths := paths,
    templatePaths := [], templateNames := [] }

/-- The value of interface type `Template` returned by `TemplateLoader.Template`: `nil`, or a
`GoTemplate` wrapping a possibly nil `*template.Template`. -/
inductive TemplateVal where
  | nil
  | goTemplate (tmpl : Option Tmpl)
  deriving DecidableEq, Repr

/-- Embedding of `TemplateLoader.WatchDir`. -/
def WatchDir (info : FileInfo) : Bool := !hasPrefix info.name ['.']

/-- Embedding of `TemplateLoader.WatchFile`. -/
def WatchFile (basename : Str) : Bool := !hasPrefix basename ['.']

/-- Embedding of `TemplateLoader.Template`. -/
def TemplateLoader.Template (w : World) (loader : TemplateLoader) (name : Str) :
    Res (TemplateVal × Option GoError) :=
  let templateName := (loader.templateNames.get? (w.toLower name)).getD []
  match loader.templateSet with
  | none => .panic .nilDereference
  | some set =>
    let tmpl := set.Lookup templateName
    let err : Option GoError := loader.compileError.map GoError.revel
    if tmpl = none ∧ err = none then
      .ok (.nil, some (.text ("Template ".toList ++ name ++ " not found.".toList)))
    else .ok (.goTemplate tmpl, err)

/-! ## Preprocessing of haml files -/

/-- Go `strings.Replace(s, old, new, -1)` for a non-empty `old`; the first argument counts the
characters of the current occurrence that are still to be dropped. -/
def replaceAllAux (old new : Str) : Nat → Str → Str
  | _, [] => []
  | skip + 1, _ :: t => replaceAllAux old new skip t
  | 0, c :: t =>
    if old.isPrefixOf (c :: t) then new ++ replaceAllAux old new (old.length - 1) t
    else c :: replaceAllAux old new 0 t

/-- Go `strings.Replace(s, old, new, -1)` for a non-empty `old`. -/
def replaceAll (old new : Str) (s : Str) : Str := replaceAllAux old new 0 s

/-- Leftmost, non-overlapping replacement of the matches of a pattern that never matches the
empty text: `m s` is the replacement text and the length of the match anchored at the head
of `s`. -/
def replaceMatches (m : Str → Option (Str × Nat)) : Nat → Str → Str
  | _, [] => []
  | skip + 1, _ :: t => replaceMatches m skip t
  | 0, c :: t =>
    match m (c :: t) with
    | some (r, n) => r ++ replaceMatches m (n - 1) t
    | none => c :: replaceMatches m 0 t

/-- A non-greedy repetition `x*?` of characters satisfying `ok`, followed by the rest of the
pattern `k`: the shortest repetition after which `k` matches. -/
def lazyStar {α : Type} (ok : Char → Bool) (k : Str → Option α) : Str → Option α
  | [] => k []
  | c :: t =>
    match k (c :: t) with
    | some r => some r
    | none => if ok c then lazyStar ok k t else none

/-- A literal of the pattern followed by the rest of the pattern `k`. -/
def literal {α : Type} (l : Str) (k : Str → Option α) (s : Str) : Option α :=
  if l.isPrefixOf s then k (s.drop l.length) else none

/-- The pattern character `.`: anything but a line feed. -/
def anyChar (c : Char) : Bool := decide (c ≠ '\n')

/-- The pattern class `[^"]`. -/
def notQuote (c : Char) : Bool := decide (c ≠ '"')

/-- Match of `#{(.*?)}` anchored at the head of `s`: the text of group 1 and what follows the
match. -/
def matchInterpolation (s : Str) : Option (Str × Str) :=
  literal "#\x7b".toList
    (fun body => lazyStar anyChar
      (fun r => match r with
        | '\x7d' :: rest => some (body.take (body.length - r.length), rest)
        | _ => none) body) s

/-- Go `regexp.MustCompile("#{(.*?)}").ReplaceAllString(str, "__7777__${1}__9999__")`. -/
def protectInterpolations (str : Str) : Str :=
  replaceMatches
    (fun s => (matchInterpolation s).map
      (fun (g, rest) => ("__7777__".toList ++ g ++ "__9999__".toList, s.length - rest.length)))
    0 str

/-- Match of `"(.*?)"` anchored at the head of `s`: the matched text and what follows it. -/
def matchQuoted (s : Str) : Option (Str × Str) :=
  match s with
  | '"' :: body =>
    lazyStar anyChar
      (fun r => match r with
        | '"' :: rest => some (s.take (s.length - rest.length), rest)
        | _ => none) body
  | _ => none

/-- The first rewriting of a haml source: inside every match of `"(.*?)"` the interpolations
are replaced by sentinel tokens. -/
def protectQuoted (fileStr : Str) : Str :=
  replaceMatches
    (fun s => (matchQuoted s).map
      (fun (m, rest) => (protectInterpolations m, s.length - rest.length)))
    0 fileStr

/-- Match of `"(.*?__7777__.*?),([^"]*?__9999__.*?)"` anchored at the head of `s`: the texts of
groups 1 and 2 and what follows the match. -/
def matchSplitValue (s : Str) : Option (Str × Str × Str) :=
  match s with
  | '"' :: body =>
    lazyStar anyChar
      (literal "__7777__".toList
        (lazyStar anyChar
          (fun c => match c with
            | ',' :: d =>
              lazyStar notQuote
                (literal "__9999__".toList
                  (lazyStar anyChar
                    (fun g => match g with
                      | '"' :: rest =>
                        some (body.take (body.length - c.length),
                              d.take (d.length - g.length), rest)
                      | _ => none))) d
            | _ => none))) body
  | _ => none

/-- The second rewriting of a haml source:
`ReplaceAllString(fileStr, "\"${1}__888__${2}\"")` for the pattern of `matchSplitValue`. -/
def protectCommas (fileStr : Str) : Str :=
  replaceMatches
    (fun s => (matchSplitValue s).map
      (fun (g1, g2, rest) =>
        ('"' :: g1 ++ "__888__".toList ++ g2 ++ ['"'], s.length - rest.length)))
    0 fileStr

/-- The three `strings.Replace` calls that follow the rendering by gohaml. -/
def restoreSentinels (s : Str) : Str :=
  replaceAll "__888__".toList ",".toList
    (replaceAll "__9999__".toList "\x7d\x7d".toList
      (replaceAll "__7777__".toList "\x7b\x7b".toList s))

/-- The test `len(nameSplit) >= 2 && nameSplit[len(nameSplit)-1] == "haml"` of `addTemplate`. -/
def isHaml (templateName : Str) : Bool :=
  let nameSplit := splitChar '.' templateName
  decide (2 ≤ nameSplit.length ∧ nameSplit.getLast? = some "haml".toList)

/-- The haml branch of `addTemplate`. -/
def hamlPreprocess (w : World) (fileStr : Str) : Res Str :=
  match w.gohaml (protectCommas (protectQuoted fileStr)) with
  | none => .panic .library
  | some out => .ok (restoreSentinels out)

/-! ## `Refresh` -/

/-- The variables of `Refresh` that the walk function reads and writes: the loader's maps and
compile error, the local `templateSet` and the local `fullSrcDir`. -/
structure WalkState where
  templateSet : Option TemplateSet
  compileError : Option Error
  templatePaths : StrMap
  templateNames : StrMap
  fullSrcDir : Str
  deriving DecidableEq, Repr

/-- The variables of `Refresh` that the walk function only reads: the root of the current
iteration and the delimiters split from `TemplateDelims` (`none` is the nil slice). -/
structure RootCtx where
  basePath : Str
  splitDelims : Option (Str × Str)
  deriving DecidableEq, Repr

/-- The delimiters set on the template set before a file is parsed. -/
def delimsFor (w : World) (cx : RootCtx) : Str × Str :=
  match cx.splitDelims with
  | some d => if cx.basePath = w.ViewsPath then d else ([], [])
  | none => ([], [])

/-- The first statement of `addTemplate`: on a platform whose path separator is the backslash,
every backslash of the name becomes a forward slash. -/
def forwardSlashes (w : World) (templateName : Str) : Str :=
  if w.pathSeparator = '\\' then replaceChar '\\' '/' templateName else templateName

/-- Embedding of the closure `addTemplate` for the walk function's current `path`: the error it
returns, the value it leaves in `fileStr` and the new state. -/
def addTemplate (w : World) (cx : RootCtx) (path templateName : Str) (st : WalkState) :
    Res (Option GoError × Str × WalkState) :=
  let templateName := forwardSlashes w templateName
  let lowerTemplateName := w.toLower templateName
  if (st.templateNames.get? lowerTemplateName).isSome then .ok (none, [], st)
  else
    let st := { st with
      templatePaths := st.templatePaths.set templateName path
      templateNames := st.templateNames.set lowerTemplateName templateName }
    match w.readFile path with
    | .error _ => .ok (none, [], st)
    | .ok fileBytes =>
      (if isHaml templateName then hamlPreprocess w fileBytes else .ok fileBytes).bind
        fun fileStr =>
          let d := delimsFor w cx
          match st.templateSet with
          | none =>
            match w.funcsPanic with
            | some v =>
              .ok (some (.revel
                    { Title := "Panic (Template Loader)".toList, Path := [], Line := 0,
                      Description := v ++ ['\n'], SourceLines := [] }),
                   fileStr, st)
            | none =>
              let t : Tmpl :=
                { name := templateName, leftDelim := d.1, rightDelim := d.2, text := fileStr,
                  parseError := w.parse [] d.1 d.2 templateName fileStr }
              .ok (t.parseError.map GoError.text, fileStr, { st with templateSet := some [t] })
          | some set =>
            let t : Tmpl :=
              { name := templateName, leftDelim := d.1, rightDelim := d.2, text := fileStr,
                parseError := w.parse set d.1 d.2 templateName fileStr }
            .ok (t.parseError.map GoError.text, fileStr,
                 { st with templateSet := some (t :: set) })

/-- The walk function `templateWalker` from the comment "Walk into watchable directories" to
its end, for the `path` and `info` in force after the symlink block. -/
def walkerEntry (w : World) (cx : RootCtx) (path : Str) (info : Option FileInfo)
    (st : WalkState) : Res (Option GoError × WalkState) :=
  match info with
  | none => .panic .nilDereference
  | some info =>
    if info.isDir then
      if !WatchDir info then .ok (some .skipDir, st) else .ok (none, st)
    else if !WatchFile info.name then .ok (none, st)
    else
      match sliceFrom path (st.fullSrcDir.length + 1) with
      | none => .panic .sliceBounds
      | some templateName =>
        (addTemplate w cx path templateName st).bind fun (err, fileStr, st) =>
          match err, st.compileError with
          | some e, none =>
            (parseTemplateError (e.message w)).bind fun (_, line, description) =>
              let compileError : Error :=
                { Title := "Template Compilation Error".toList, Path := templateName,
                  Description := description, Line := line,
                  SourceLines := splitChar '\n' fileStr }
              .ok (none, { st with compileError := some compileError })
          | _, _ => .ok (none, st)

/-- The calls of which a walk consists: the walk function, `filepath.Walk`, its helper `walk`
and the loop of `walk` over the remaining names of a directory. -/
inductive Call where
  | templateWalker (path : Str) (info : Option FileInfo) (err : Option GoError)
  | Walk (root : Str)
  | walk (path : Str) (info : FileInfo)
  | walkNames (path : Str) (names : List Str)
  deriving DecidableEq, Repr

/-- Embedding of `templateWalker` and of `filepath.Walk` applied to it.  The first argument
bounds the depth of the calls; a symbolic link to a directory that contains the link makes the
program recurse without end. -/
def run (w : World) (cx : RootCtx) : Nat → Call → WalkState → Res (Option GoError × WalkState)
  | 0, _, _ => .outOfFuel
  | fuel + 1, .templateWalker path info err, st =>
    match err with
    | some _ => .ok (none, st)
    | none =>
      match w.lstat path with
      | .ok link =>
        if link.isSymlink then
          match w.evalSymlinks path with
          | .error e => .ok (some (.text e), st)
          | .ok targetPath =>
            match w.stat targetPath with
            | .error e => .ok (some (.text e), st)
            | .ok targetInfo =>
              let tmp := st.fullSrcDir
              (run w cx fuel (.Walk targetPath) { st with fullSrcDir := w.dir targetPath }).bind
                fun (_, st) =>
                  walkerEntry w cx targetPath (some targetInfo) { st with fullSrcDir := tmp }
        else walkerEntry w cx path info st
      | .error _ => walkerEntry w cx path info st
  | fuel + 1, .Walk root, st =>
    match w.lstat root with
    | .error e =>
      (run w cx fuel (.templateWalker root none (some (.text e))) st).bind fun (err, st) =>
        .ok (if err = some .skipDir then none else err, st)
    | .ok info =>
      (run w cx fuel (.walk root info) st).bind fun (err, st) =>
        .ok (if err = some .skipDir then none else err, st)
  | fuel + 1, .walk path info, st =>
    if !info.isDir then run w cx fuel (.templateWalker path (some info) none) st
    else
      match w.readDirNames path with
      | .error e => run w cx fuel (.templateWalker path (some info) (some (.text e))) st
      | .ok names =>
        (run w cx fuel (.templateWalker path (some info) none) st).bind fun (err1, st) =>
          if err1 ≠ none then .ok (err1, st) else run w cx fuel (.walkNames path names) st
  | _ + 1, .walkNames _ [], st => .ok (none, st)
  | fuel + 1, .walkNames path (name :: rest), st =>
    let filename := w.join path name
    match w.lstat filename with
    | .error e =>
      (run w cx fuel (.templateWalker filename none (some (.text e))) st).bind fun (err, st) =>
        if err ≠ none ∧ err ≠ some .skipDir then .ok (err, st)
        else run w cx fuel (.walkNames path rest) st
    | .ok fileInfo =>
      (run w cx fuel (.walk filename fileInfo) st).bind fun (err, st) =>
        if err ≠ none ∧ (fileInfo.isDir = false ∨ err ≠ some .skipDir) then .ok (err, st)
        else run w cx fuel (.walkNames path rest) st

/-- The `path` and `info` with which the walk function reaches its part after the symlink
block: either what `Lstat` reports for an entry that is not a symbolic link, or the resolved
target of a symbolic link `q` and what `Stat` reports for it. -/
def EntryInfo (w : World) (path : Str) (info : FileInfo) : Prop :=
  (w.lstat path = .ok info ∧ info.isSymlink = false) ∨
  (∃ q l, w.lstat q = .ok l ∧ l.isSymlink = true ∧ w.evalSymlinks q = .ok path ∧
    w.stat path = .ok info)

/-- The calls that `filepath.Walk` makes: the `info` handed to `walk` and, without an error, to
the walk function is the one `Lstat` reports for the path. -/
def Call.Sound (w : World) : Call → Prop
  | .templateWalker path info err => err = none → ∃ i, info = some i ∧ w.lstat path = .ok i
  | .Walk _ => True
  | .walk path info => w.lstat path = .ok info
  | .walkNames _ _ => True

/-- Walking the entry `q` visits the file `p`: `p` is `q` itself or lies below `q` through
directories whose names do not begin with a dot. -/
inductive Reaches (w : World) : Str → Str → Prop where
  | self (p : Str) : Reaches w p p
  | down (d : Str) (i : FileInfo) (names : List Str) (n p : Str) :
      w.lstat d = .ok i → i.isDir = true → WatchDir i = true →
      w.readDirNames d = .ok names → n ∈ names → Reaches w (w.join d n) p → Reaches w d p

/-- The errors a call can return when no entry is a symbolic link: none, or `SkipDir` from the
walk function or `walk` applied to a directory. -/
def Call.Returns : Call → Option GoError → Prop
  | .templateWalker _ info _, r =>
    r = none ∨ (r = some .skipDir ∧ ∃ i, info = some i ∧ i.isDir = true)
  | .Walk _, r => r = none
  | .walk _ info, r => r = none ∨ (r = some .skipDir ∧ info.isDir = true)
  | .walkNames _ _, r => r = none

/-- The files that a call of the walk visits. -/
def Call.Visits (w : World) : Call → Str → Prop
  | .templateWalker path _ err, p => err = none ∧ p = path
  | .Walk root, p => Reaches w root p
  | .walk q _, p => Reaches w q p
  | .walkNames d names, p => ∃ n, n ∈ names ∧ Reaches w (w.join d n) p

/-- The directory from which a root is walked: the root, or its target when the root is a
symbolic link; a link that cannot be resolved makes `Refresh` panic. -/
def rootSrcDir (w : World) (basePath : Str) : Res Str :=
  match w.lstat basePath with
  | .ok f =>
    if f.isSymlink then
      match w.evalSymlinks basePath with
      | .error e => .panic (.explicit e)
      | .ok target => .ok target
    else .ok basePath
  | .error _ => .ok basePath

/-- What is known of a name `c` recorded with the source path `p`, symbolic links included: `c`
is the canonical name of its lower-case form, and `p` is an entry that the walk function
reached, that is not a directory and whose name does not begin with a dot. -/
def Registered (w : World) (names : StrMap) (c p : Str) : Prop :=
  names.get? (w.toLower c) = some c ∧
  ∃ i, EntryInfo w p i ∧ i.isDir = false ∧ WatchFile i.name = true

/-- The root `root` contains the file `p`: `p` is reached from `root` through directories whose
names do not begin with a dot, it is not a directory, its own name does not begin with a dot,
and `name` is `p` without its first `len(root)+1` characters. -/
def Contains (w : World) (root p name : Str) : Prop :=
  Reaches w root p ∧ (∃ i, w.lstat p = .ok i ∧ i.isDir = false ∧ WatchFile i.name = true) ∧
    sliceFrom p (root.length + 1) = some name

/-- The calls made while the directory `A` is walked and no entry is a symbolic link: the path
of the call is reached from `A`. -/
def Call.Within (w : World) (A : Str) : Call → Prop
  | .templateWalker path info err =>
    err = none → (∃ i, info = some i ∧ w.lstat path = .ok i) ∧ Reaches w A path
  | .Walk root => root = A
  | .walk path info => w.lstat path = .ok info ∧ Reaches w A path
  | .walkNames d names =>
    Reaches w A d ∧ ∃ i all, w.lstat d = .ok i ∧ i.isDir = true ∧ WatchDir i = true ∧
      w.readDirNames d = .ok all ∧ ∀ n ∈ names, n ∈ all

/-- The loop of `Refresh` over `loader.paths`.  The boolean of the result tells whether the loop
was left by the `return` that follows a non-nil `funcErr`. -/
def refreshLoop (w : World) (splitDelims : Option (Str × Str)) (fuel : Nat) :
    List Str → WalkState → Res (Bool × WalkState)
  | [], st => .ok (false, st)
  | basePath :: rest, st =>
    (rootSrcDir w basePath).bind fun fullSrcDir =>
      (run w { basePath := basePath, splitDelims := splitDelims } fuel (.Walk fullSrcDir)
          { st with fullSrcDir := fullSrcDir }).bind fun (funcErr, st) =>
        match funcErr with
        | none => refreshLoop w splitDelims fuel rest st
        | some (.revel e) => .ok (true, { st with compileError := some e })
        | some _ => .panic .typeAssertion

/-- The delimiters split from `TemplateDelims`; anything but two fields ends the process. -/
def splitDelims (w : World) : Res (Option (Str × Str)) :=
  if w.TemplateDelims = [] then .ok none
  else
    match splitChar ' ' w.TemplateDelims with
    | [l, r] => .ok (some (l, r))
    | _ => .fatal

/-- The state of the walk at the start of `Refresh`. -/
def initialWalkState : WalkState :=
  { templateSet := none, compileError := none, templatePaths := [], templateNames := [],
    fullSrcDir := [] }

/-- Embedding of `TemplateLoader.Refresh`: the loader after the call and the returned error. -/
def TemplateLoader.Refresh (w : World) (fuel : Nat) (loader : TemplateLoader) :
    Res (TemplateLoader × Option Error) :=
  (splitDelims w).bind fun sd =>
    (refreshLoop w sd fuel loader.paths initialWalkState).bind fun (early, st) =>
      .ok ({ loader with
              templateSet := if early then loader.templateSet else st.templateSet
              compileError := st.compileError
              templatePaths := st.templatePaths
              templateNames := st.templateNames },
           st.compileError)

/-! ## The template functions `pluralize`, `layout` and `content` -/

/-- The argument `items` of `pluralize`, by what `reflect` and the type assertion see of it: a
value of type `int`, a value of a defined type whose underlying type is `int`, a slice with its
length, or any other value. -/
inductive Items where
  | int (n : Int)
  | namedInt (n : Int)
  | slice (len : Nat)
  | other
  deriving DecidableEq, Repr

/-- Embedding of `TemplateFuncs["pluralize"]`. -/
def TemplateFuncs.pluralize (items : Items) (pluralOverrides : List Str) : Res Str :=
  let singular : Str := if 1 ≤ pluralOverrides.length then pluralOverrides.getD 0 [] else []
  let plural : Str :=
    if 1 ≤ pluralOverrides.length ∧ pluralOverrides.length = 2 then pluralOverrides.getD 1 []
    else ['s']
  match items with
  | .int n => if n ≠ 1 then .ok plural else .ok singular
  | .namedInt _ => .panic .typeAssertion
  | .slice len => if len ≠ 1 then .ok plural else .ok singular
  | .other => .ok singular

/-- The values that the template functions store in and read from the render arguments: a
string, a `*Error`, or any other value. -/
inductive Value where
  | str (s : Str)
  | error (e : Error)
  | other (tag : Nat)
  deriving DecidableEq, Repr

/-- The render arguments, a non-nil Go `map[string]interface{}`; the binding met first is the
current one. -/
abbrev RenderArgs := List (Str × Value)

/-- Go `renderArgs[key]`; `none` is the nil interface of a missing key. -/
def RenderArgs.get? : RenderArgs → Str → Option Value
  | [], _ => none
  | (k, v) :: m, key => if key = k then some v else RenderArgs.get? m key

/-- Go `renderArgs[key] = v`. -/
def RenderArgs.set (m : RenderArgs) (key : Str) (v : Value) : RenderArgs := (key, v) :: m

/-- The execution engine of `html/template` and the formatting of the loader by `fmt`. -/
structure Engine where
  /-- Go `(*template.Template).Execute` on a template of the loader's set: the text written,
  the text of the error returned and the render arguments as the execution leaves them. -/
  execute : TemplateLoader → Tmpl → RenderArgs → Res (Str × Option Str × RenderArgs)
  /-- The loader formatted with the verb `%s`. -/
  showLoader : TemplateLoader → Str
  /-- The templates that the text of a parsed template declares with `define`; `Parse` adds
  them to the name space of the set. -/
  defined : Tmpl → List Tmpl

/-- Embedding of `Render` called on a value of interface type `Template`: the method of
`GoTemplate`, which calls `Execute`; a nil interface and a nil `*template.Template` panic. -/
def TemplateVal.Render (g : Engine) (loader : TemplateLoader) :
    TemplateVal → RenderArgs → Res (Str × Option Str × RenderArgs)
  | .nil, _ => .panic .nilDereference
  | .goTemplate none, _ => .panic .nilDereference
  | .goTemplate (some t), renderArgs => g.execute loader t renderArgs

/-- The templates that `New` and a successful `Parse` put into the name space for one file:
the template of the file and the templates that its text declares with `define`. -/
def Engine.parsed (g : Engine) (t : Tmpl) : List Tmpl :=
  t :: (if t.parseError = none then g.defined t else [])

/-- Go `(*template.Template).Templates` on a template of the set: the templates of the name
space, those declared with `define` included; an entry of a name replaces the entries that
earlier files made under that name. -/
def TemplateSet.Templates (g : Engine) : TemplateSet → List Tmpl
  | [] => []
  | t :: set =>
    g.parsed t ++
      (TemplateSet.Templates g set).filter
        (fun u => decide (∀ v ∈ g.parsed t, u.name ≠ v.name))

/-- The loop of `content` over the templates of the layout: the last one whose name is
`name`. -/
def lastNamed (name : Str) : Option Tmpl → List Tmpl → Option Tmpl
  | tpl, [] => tpl
  | tpl, t :: rest => lastNamed name (if t.name = name then some t else tpl) rest

/-- The value `&Error{Title: "Server Error", Description: description}` that `layout` and
`content` build; the other fields keep their zero values. -/
def serverError (description : Str) : Error :=
  { Title := "Server Error".toList, Path := [], Line := 0, Description := description,
    SourceLines := [] }

/-- The fallback that `layout` and `content` share: look up `errors/500.html`, store a
"Server Error" with the given description under the key `Error` and return what the error
page renders; the errors of the lookup and of the rendering are dropped. -/
def renderErrorPage (w : World) (g : Engine) (loader : TemplateLoader) (description : Str)
    (renderArgs : RenderArgs) : Res (Str × RenderArgs) :=
  (loader.Template w "errors/500.html".toList).bind fun (tmpl, _) =>
    let revelError : Error := serverError description
    let renderArgs := renderArgs.set "Error".toList (.error revelError)
    (tmpl.Render g loader renderArgs).bind fun (out, _, renderArgs) => .ok (out, renderArgs)

/-- Embedding of `TemplateFuncs["layout"]` for the loader `MainTemplateLoader`: the HTML
returned and the render arguments after the call. -/
def TemplateFuncs.layout (w : World) (g : Engine) (loader : TemplateLoader)
    (name contentName : Str) (renderArgs : RenderArgs) : Res (Str × RenderArgs) :=
  let renderArgs := renderArgs.set "ContentTemplate".toList (.str contentName)
  let renderArgs := renderArgs.set "LayoutTemplate".toList (.str name)
  (loader.Template w ("layouts/".toList ++ name ++ ".haml".toList)).bind fun (layout, err) =>
    (if err ≠ none then loader.Template w ("layouts/".toList ++ name ++ ".html".toList)
      else .ok (layout, err)).bind fun (layout, err) =>
      if err ≠ none then
        renderErrorPage w g loader ("Missing layout: ".toList ++ name) renderArgs
      else
        (layout.Render g loader renderArgs).bind fun (out, err, renderArgs) =>
          match err with
          | some e => renderErrorPage w g loader e renderArgs
          | none => .ok (out, renderArgs)

/-- Embedding of `TemplateFuncs["content"]` for the loader `MainTemplateLoader`: the HTML
returned and the render arguments after the call. -/
def TemplateFuncs.content (w : World) (g : Engine) (loader : TemplateLoader)
    (renderArgs : RenderArgs) : Res (Str × RenderArgs) :=
  match renderArgs.get? "ContentTemplate".toList with
  | some (.str name) =>
    match renderArgs.get? "LayoutTemplate".toList with
    | some (.str layoutName) =>
      (loader.Template w ("layouts/".toList ++ layoutName ++ ".haml".toList)).bind
        fun (layout, err) =>
          (if err ≠ none then
              loader.Template w ("layouts/".toList ++ layoutName ++ ".html".toList)
            else .ok (layout, err)).bind fun (layout, _) =>
            match layout, loader.templateSet with
            | .nil, _ => .panic .typeAssertion
            | .goTemplate none, _ => .panic .nilDereference
            | .goTemplate (some _), none => .panic .nilDereference
            | .goTemplate (some _), some set =>
              match lastNamed name none (set.Templates g) with
              | none =>
                renderErrorPage w g loader
                  ("Missing template: ".toList ++ name ++ " \n Present templates: ".toList ++
                    g.showLoader loader)
                  renderArgs
              | some tpl =>
                (g.execute loader tpl renderArgs).bind fun (out, err, renderArgs) =>
                  match err with
                  | some e => renderErrorPage w g loader e renderArgs
                  | none => .ok (out, renderArgs)
    | _ => .panic .typeAssertion
  | _ => .panic .typeAssertion

/-- The template that `Template` finds for a name: the template of the set under the
canonical name recorded for the lower-case form of the name. -/
def TemplateLoader.find (w : World) (loader : TemplateLoader) (name : Str) : Option Tmpl :=
  loader.templateSet.bind fun set =>
    set.Lookup ((loader.templateNames.get? (w.toLower name)).getD [])

/-- What `Refresh` is claimed to rebuild: the names, the paths and the compile error. -/
def TemplateLoader.registry (loader : TemplateLoader) : StrMap × StrMap × Option Error :=
  (loader.templateNames, loader.templatePaths, loader.compileError)

/-- The result of a call, seen through a function of its value. -/
def Res.map {α β : Type} (f : α → β) : Res α → Res β
  | .ok a => .ok (f a)
  | .panic p => .panic p
  | .fatal => .fatal
  | .outOfFuel => .outOfFuel

/-! ## Haml sources cut at their double-quoted literals -/

/-- A double-quoted literal of a haml source: the text before its first interpolation, then
each interpolation `#{X}`, as the pair of `X` and the text that follows the interpolation. -/
structure Quoted where
  head : Str
  interps : List (Str × Str)
  deriving DecidableEq, Repr

/-- A haml source cut at its double-quoted literals: the text before the first literal, then
each literal with the text that follows it. -/
structure HamlSource where
  lead : Str
  literals : List (Quoted × Str)
  deriving DecidableEq, Repr

/-- The interpolations of a literal and the texts after them, an interpolation of `X` being
written `o ++ X ++ c`. -/
def renderInterps (o c : Str) : List (Str × Str) → Str
  | [] => []
  | p :: rest => o ++ (p.1 ++ (c ++ (p.2 ++ renderInterps o c rest)))

/-- The text of a literal, quotes included. -/
def Quoted.render (o c : Str) (q : Quoted) : Str :=
  '"' :: (q.head ++ (renderInterps o c q.interps ++ ['"']))

/-- The literals of a source and the texts after them. -/
def renderLiterals (o c : Str) : List (Quoted × Str) → Str
  | [] => []
  | p :: rest => p.1.render o c ++ (p.2 ++ renderLiterals o c rest)

/-- The text of a source when an interpolation of `X` inside a literal is written
`o ++ X ++ c`. -/
def HamlSource.render (o c : Str) (src : HamlSource) : Str :=
  src.lead ++ renderLiterals o c src.literals

/-- The source text: interpolations are written `#{X}`. -/
def HamlSource.sourceText (src : HamlSource) : Str := src.render "#\x7b".toList "\x7d".toList

/-- The text in which every interpolation inside a literal is written `__7777__X__9999__`. -/
def HamlSource.protectedText (src : HamlSource) : Str :=
  src.render "__7777__".toList "__9999__".toList

/-- The text in which every interpolation inside a literal is written `{{X}}`. -/
def HamlSource.restoredText (src : HamlSource) : Str :=
  src.render "\x7b\x7b".toList "\x7d\x7d".toList

/-- No character `a` of the text is directly followed by a character `b`. -/
def noPair (a b : Char) : Str → Bool
  | [] => true
  | c :: t => !(c == a && t.head? == some b) && noPair a b t

/-- The cut of a literal is the one that the patterns `"(.*?)"` and `#{(.*?)}` see: no piece
holds a double quote or a line feed, no text holds `#{` and no interpolated `X` holds a closing
brace. -/
abbrev Quoted.WellCut (q : Quoted) : Prop :=
  ('"' ∉ q.head ∧ '\n' ∉ q.head ∧ noPair '#' '\x7b' q.head = true) ∧
  ∀ p ∈ q.interps,
    ('"' ∉ p.1 ∧ '\n' ∉ p.1 ∧ '\x7d' ∉ p.1) ∧
    ('"' ∉ p.2 ∧ '\n' ∉ p.2 ∧ noPair '#' '\x7b' p.2 = true)

/-- The cut of a source is the one that the pattern `"(.*?)"` sees: the texts outside the
literals hold no double quote and every literal is well cut. -/
abbrev HamlSource.WellCut (src : HamlSource) : Prop :=
  '"' ∉ src.lead ∧ ∀ p ∈ src.literals, p.1.WellCut ∧ '"' ∉ p.2

/-- The texts that, between two interpolations, complete the underscores of the sentinel
tokens around them to a further `__7777__`. -/
def straddles : List Str :=
  ["7777".toList, "_7777".toList, "7777_".toList, "_7777_".toList]

/-- No interpolation of the literal is followed by one of the texts of `straddles` and then by
another interpolation. -/
def noStraddle : List (Str × Str) → Bool
  | [] => true
  | p :: rest => (rest.isEmpty || !straddles.contains p.2) && noStraddle rest

/-- No piece of the literal holds two adjacent underscores, and no interpolation is followed by
a text of `straddles` and another interpolation. -/
abbrev Quoted.Calm (q : Quoted) : Prop :=
  noPair '_' '_' q.head = true ∧
  (∀ p ∈ q.interps, noPair '_' '_' p.1 = true ∧ noPair '_' '_' p.2 = true) ∧
  noStraddle q.interps = true

/-- No piece of the source holds two adjacent underscores, and no interpolation is followed by
a text of `straddles` and another interpolation of the same literal. -/
abbrev HamlSource.Calm (src : HamlSource) : Prop :=
  noPair '_' '_' src.lead = true ∧
  ∀ p ∈ src.literals, p.1.Calm ∧ noPair '_' '_' p.2 = true

/-! ## A small concrete world, for evaluating the embedding -/

/-- An entry of a concrete file system: a readable file, a file that cannot be read, a directory
with its sorted entry names, or a symbolic link with its resolved target (`none`: the target
cannot be resolved). -/
inductive Node where
  | file (content : Str)
  | unreadable
  | dir (names : List Str)
  | link (target : Option Str)
  deriving DecidableEq, Repr

/-- Whether an entry is a symbolic link. -/
def Node.isLink : Node → Bool
  | .link _ => true
  | _ => false

/-- A concrete file system: the entries by absolute, clean path. -/
abbrev FileSystem := List (Str × Node)

/-- The entry at a path. -/
def FileSystem.node? : FileSystem → Str → Option Node
  | [], _ => none
  | (p, n) :: fs, path => if path = p then some n else FileSystem.node? fs path

/-- Last element of a clean path. -/
def baseName (path : Str) : Str := ((splitChar '/' path).getLast?).getD []

/-- All but the last element of a clean absolute path. -/
def parentDir (path : Str) : Str :=
  match ((splitChar '/' path).dropLast).drop 1 with
  | [] => ['/']
  | comps => (comps.map (fun c => '/' :: c)).flatten

/-- The text of the "no such file" error. -/
def noEntry : Str := "no such file or directory".toList

/-- The world over a concrete file system: a Unix platform, ASCII case mapping, the default
delimiters, a gohaml engine `haml`, a parser that rejects exactly the texts beginning with `!`
(reporting line 1) and the function table outcome `funcsPanic`. -/
def demoWorld (fs : FileSystem) (haml : Str → Option Str) (funcsPanic : Option Str) : World :=
  { pathSeparator := '/'
    lstat := fun p =>
      match fs.node? p with
      | some (.dir _) => .ok { name := baseName p, kind := .dir }
      | some (.link _) => .ok { name := baseName p, kind := .symlink }
      | some _ => .ok { name := baseName p, kind := .regular }
      | none => .error noEntry
    stat := fun p =>
      match fs.node? p with
      | some (.dir _) => .ok { name := baseName p, kind := .dir }
      | some (.link _) => .error noEntry
      | some _ => .ok { name := baseName p, kind := .regular }
      | none => .error noEntry
    evalSymlinks := fun p =>
      match fs.node? p with
      | some (.link (some t)) => .ok t
      | some (.link none) => .error noEntry
      | some _ => .ok p
      | none => .error noEntry
    readDirNames := fun p =>
      match fs.node? p with
      | some (.dir names) => .ok names
      | _ => .error noEntry
    readFile := fun p =>
      match fs.node? p with
      | some (.file c) => .ok c
      | _ => .error noEntry
    join := fun d n => d ++ '/' :: n
    dir := parentDir
    toLower := fun s => s.map Char.toLower
    gohaml := haml
    funcsPanic := funcsPanic
    parse := fun _ _ _ name text =>
      if hasPrefix text ['!'] then
        some ("template: ".toList ++ name ++ ":1: unexpected bang".toList)
      else none
    errorText := fun e => e.Title ++ ": ".toList ++ e.Description
    TemplateDelims := []
    ViewsPath := "/app/views".toList }

/-- A template of the default delimiters, from its name, its text and the parse error. -/
def tmplOf (name text : String) (parseError : Option String) : Tmpl :=
  { name := name.toList, leftDelim := [], rightDelim := [], text := text.toList,
    parseError := parseError.map String.toList }

/-- A binding of a map of strings. -/
def entry (k v : String) : Str × Str := (k.toList, v.toList)

/-- Roots `/a` and `/b` both define `x.html`. -/
def fsPriority : FileSystem :=
  [("/a".toList, .dir ["x.html".toList]), ("/a/x.html".toList, .file "A".toList),
   ("/b".toList, .dir ["x.html".toList, "y.html".toList]),
   ("/b/x.html".toList, .file "B".toList), ("/b/y.html".toList, .file "Y".toList)]

/-- The world of `fsPriority`. -/
def worldPriority : World := demoWorld fsPriority some none

/-- The walk state once root `/a` of `fsPriority` has been walked. -/
def afterRootA : WalkState :=
  { templateSet := some [tmplOf "x.html" "A" none], compileError := none,
    templatePaths := [entry "x.html" "/a/x.html"],
    templateNames := [entry "x.html" "x.html"], fullSrcDir := "/a".toList }

/-- The loader after `Refresh` over the roots `/a`, `/b` of `fsPriority`. -/
def loaderPriority : TemplateLoader :=
  { templateSet := some [tmplOf "y.html" "Y" none, tmplOf "x.html" "A" none],
    compileError := none, paths := ["/a".toList, "/b".toList],
    templatePaths := [entry "y.html" "/b/y.html", entry "x.html" "/a/x.html"],
    templateNames := [entry "y.html" "y.html", entry "x.html" "x.html"] }

/-- The walk state once the roots `/a` and `/b` of `fsPriority` have been walked. -/
def afterRootsAB : WalkState :=
  { templateSet := loaderPriority.templateSet, compileError := none,
    templatePaths := loaderPriority.templatePaths,
    templateNames := loaderPriority.templateNames, fullSrcDir := "/b".toList }

/-- Root `/a` defines `Foo.html`, the lower-priority root `/b` defines `foo.html`. -/
def fsCase : FileSystem :=
  [("/a".toList, .dir ["Foo.html".toList]), ("/a/Foo.html".toList, .file "A".toList),
   ("/b".toList, .dir ["foo.html".toList]), ("/b/foo.html".toList, .file "B".toList)]

/-- The world of `fsCase`. -/
def worldCase : World := demoWorld fsCase some none

/-- The loader after `Refresh` over the roots `/a`, `/b` of `fsCase`. -/
def loaderCase : TemplateLoader :=
  { templateSet := some [tmplOf "Foo.html" "A" none], compileError := none,
    paths := ["/a".toList, "/b".toList],
    templatePaths := [entry "Foo.html" "/a/Foo.html"],
    templateNames := [entry "foo.html" "Foo.html"] }

/-- Root `/v` holds three files of which `b.html` does not parse; root `/u` holds one file that
does not parse either. -/
def fsBroken : FileSystem :=
  [("/v".toList, .dir ["a.html".toList, "b.html".toList, "c.html".toList]),
   ("/v/a.html".toList, .file "A".toList), ("/v/b.html".toList, .file "!B\nx".toList),
   ("/v/c.html".toList, .file "C".toList),
   ("/u".toList, .dir ["u.html".toList]), ("/u/u.html".toList, .file "!U".toList)]

/-- The world of `fsBroken` with an acceptable function table. -/
def worldBroken : World := demoWorld fsBroken some none

/-- The compile error built from `b.html` of `fsBroken`. -/
def errorBroken : Error :=
  { Title := "Template Compilation Error".toList, Path := "b.html".toList, Line := 1,
    Description := "unexpected bang".toList, SourceLines := ["!B".toList, "x".toList] }

/-- The walk state before `b.html` of `fsBroken` is reached. -/
def beforeBroken : WalkState :=
  { templateSet := some [tmplOf "a.html" "A" none], compileError := none,
    templatePaths := [entry "a.html" "/v/a.html"],
    templateNames := [entry "a.html" "a.html"], fullSrcDir := "/v".toList }

/-- The walk state once root `/v` of `fsBroken` has been walked. -/
def afterBroken : WalkState :=
  { templateSet := some
      [tmplOf "c.html" "C" none,
       tmplOf "b.html" "!B\nx" (some "template: b.html:1: unexpected bang"),
       tmplOf "a.html" "A" none],
    compileError := some errorBroken,
    templatePaths :=
      [entry "c.html" "/v/c.html", entry "b.html" "/v/b.html", entry "a.html" "/v/a.html"],
    templateNames :=
      [entry "c.html" "c.html", entry "b.html" "b.html", entry "a.html" "a.html"],
    fullSrcDir := "/v".toList }

/-- The loader after `Refresh` over the roots `/v`, `/u` of `fsBroken`. -/
def loaderBroken : TemplateLoader :=
  { templateSet := some
      [tmplOf "u.html" "!U" (some "template: u.html:1: unexpected bang"),
       tmplOf "c.html" "C" none,
       tmplOf "b.html" "!B\nx" (some "template: b.html:1: unexpected bang"),
       tmplOf "a.html" "A" none],
    compileError := some errorBroken, paths := ["/v".toList, "/u".toList],
    templatePaths :=
      [entry "u.html" "/u/u.html", entry "c.html" "/v/c.html", entry "b.html" "/v/b.html",
       entry "a.html" "/v/a.html"],
    templateNames :=
      [entry "u.html" "u.html", entry "c.html" "c.html", entry "b.html" "b.html",
       entry "a.html" "a.html"] }

/-- The walk state once the roots `/v` and `/u` of `fsBroken` have been walked. -/
def afterBrokenAll : WalkState :=
  { templateSet := loaderBroken.templateSet, compileError := some errorBroken,
    templatePaths := loaderBroken.templatePaths, templateNames := loaderBroken.templateNames,
    fullSrcDir := "/u".toList }

/-- Root `/h` holds one haml file whose rendering does not parse. -/
def fsHaml : FileSystem :=
  [("/h".toList, .dir ["e.haml".toList]), ("/h/e.haml".toList, .file "!x".toList)]

/-- The world of `fsHaml`; its gohaml engine appends a line to the source. -/
def worldHaml : World := demoWorld fsHaml (fun s => some (s ++ "\ny".toList)) none

/-- The loader after `Refresh` over the root `/h` of `fsHaml`. -/
def loaderHaml : TemplateLoader :=
  { templateSet := some
      [tmplOf "e.haml" "!x\ny" (some "template: e.haml:1: unexpected bang")],
    compileError := some
      { Title := "Template Compilation Error".toList, Path := "e.haml".toList, Line := 1,
        Description := "unexpected bang".toList, SourceLines := ["!x".toList, "y".toList] },
    paths := ["/h".toList],
    templatePaths := [entry "e.haml" "/h/e.haml"],
    templateNames := [entry "e.haml" "e.haml"] }

/-- The world of `fsBroken` with a function table that `Funcs` rejects. -/
def worldBadFuncs : World := demoWorld fsBroken some (some "boom".toList)

/-- The loader after `Refresh` over the root `/v` in `worldBadFuncs`. -/
def loaderBadFuncs : TemplateLoader :=
  { templateSet := none,
    compileError := some
      { Title := "Template Compilation Error".toList, Path := "a.html".toList, Line := 0,
        Description := "Panic (Template Loader): boom\n".toList, SourceLines := ["A".toList] },
    paths := ["/v".toList],
    templatePaths :=
      [entry "c.html" "/v/c.html", entry "b.html" "/v/b.html", entry "a.html" "/v/a.html"],
    templateNames :=
      [entry "c.html" "c.html", entry "b.html" "b.html", entry "a.html" "a.html"] }

/-- Root `/s` holds a symbolic link `a` whose target cannot be resolved, then a file. -/
def fsDangling : FileSystem :=
  [("/s".toList, .dir ["a".toList, "b.html".toList]), ("/s/a".toList, .link none),
   ("/s/b.html".toList, .file "B".toList)]

/-- The world of `fsDangling`. -/
def worldDangling : World := demoWorld fsDangling some none

/-- Root `/v` reaches the directory `/opt/w` through the symbolic link `shared/widgets`. -/
def fsLinkedDir : FileSystem :=
  [("/v".toList, .dir ["shared".toList]), ("/v/shared".toList, .dir ["widgets".toList]),
   ("/v/shared/widgets".toList, .link (some "/opt/w".toList)),
   ("/opt/w".toList, .dir ["a.html".toList]), ("/opt/w/a.html".toList, .file "W".toList)]

/-- The world of `fsLinkedDir`. -/
def worldLinkedDir : World := demoWorld fsLinkedDir some none

/-- The loader after `Refresh` over the root `/v` of `fsLinkedDir`. -/
def loaderLinkedDir : TemplateLoader :=
  { templateSet := some [tmplOf "w/a.html" "W" none], compileError := none,
    paths := ["/v".toList],
    templatePaths := [entry "w/a.html" "/opt/w/a.html"],
    templateNames := [entry "w/a.html" "w/a.html"] }

/-- Root `/v` holds only the symbolic link `.cache`, whose target is the directory `/opt/pub`. -/
def fsHiddenLink : FileSystem :=
  [("/v".toList, .dir [".cache".toList]), ("/v/.cache".toList, .link (some "/opt/pub".toList)),
   ("/opt/pub".toList, .dir ["y.html".toList]), ("/opt/pub/y.html".toList, .file "Y".toList)]

/-- The world of `fsHiddenLink`. -/
def worldHiddenLink : World := demoWorld fsHiddenLink some none

/-- The loader after `Refresh` over the root `/v` of `fsHiddenLink`. -/
def loaderHiddenLink : TemplateLoader :=
  { templateSet := some [tmplOf "pub/y.html" "Y" none], compileError := none,
    paths := ["/v".toList],
    templatePaths := [entry "pub/y.html" "/opt/pub/y.html"],
    templateNames := [entry "pub/y.html" "pub/y.html"] }

/-- Root `/e` is a directory without entries. -/
def fsEmpty : FileSystem := [("/e".toList, .dir [])]

/-- The world of `fsEmpty`. -/
def worldEmpty : World := demoWorld fsEmpty some none

/-- Root `/v` holds a directory `.git` with a file, and a file `z.html`. -/
def fsHiddenDir : FileSystem :=
  [("/v".toList, .dir [".git".toList, "z.html".toList]),
   ("/v/.git".toList, .dir ["c.html".toList]), ("/v/.git/c.html".toList, .file "C".toList),
   ("/v/z.html".toList, .file "Z".toList)]

/-- The world of `fsHiddenDir`. -/
def worldHiddenDir : World := demoWorld fsHiddenDir some none

/-- The loader after `Refresh` over the root `/v` of `fsHiddenDir`. -/
def loaderHiddenDir : TemplateLoader :=
  { templateSet := some [tmplOf "z.html" "Z" none], compileError := none,
    paths := ["/v".toList],
    templatePaths := [entry "z.html" "/v/z.html"],
    templateNames := [entry "z.html" "z.html"] }

/-- An execution engine for the concrete worlds: a template whose text begins with `?` fails
to render; any other template writes its text, followed by the description of the error
stored under the key `Error` when there is one.  A text that begins with `L` declares one
template with `define`, named `body`, whose text is `B`. -/
def demoEngine : Engine :=
  { execute := fun _ t renderArgs =>
      if hasPrefix t.text ['?'] then
        .ok ([], some ("render failed: ".toList ++ t.name), renderArgs)
      else
        .ok (t.text ++
              (match renderArgs.get? "Error".toList with
                | some (.error e) => e.Description
                | _ => []),
             none, renderArgs)
    showLoader := fun _ => "loader".toList
    defined := fun t =>
      if hasPrefix t.text ['L'] then [{ t with name := "body".toList, text := "B".toList }]
      else [] }

/-- Root `/v` holds the error page, a template `home` and the layouts `bad.html`, which fails
to render, and `base.html`. -/
def fsLayouts : FileSystem :=
  [("/v".toList, .dir ["errors".toList, "home".toList, "layouts".toList]),
   ("/v/errors".toList, .dir ["500.html".toList]),
   ("/v/errors/500.html".toList, .file "E:".toList),
   ("/v/home".toList, .file "H".toList),
   ("/v/layouts".toList, .dir ["bad.html".toList, "base.html".toList]),
   ("/v/layouts/bad.html".toList, .file "?".toList),
   ("/v/layouts/base.html".toList, .file "L".toList)]

/-- The world of `fsLayouts`. -/
def worldLayouts : World := demoWorld fsLayouts some none

/-- The loader after `Refresh` over the root `/v` of `fsLayouts`. -/
def loaderLayouts : TemplateLoader :=
  { templateSet := some
      [tmplOf "layouts/base.html" "L" none, tmplOf "layouts/bad.html" "?" none,
       tmplOf "home" "H" none, tmplOf "errors/500.html" "E:" none],
    compileError := none, paths := ["/v".toList],
    templatePaths :=
      [entry "layouts/base.html" "/v/layouts/base.html",
       entry "layouts/bad.html" "/v/layouts/bad.html", entry "home" "/v/home",
       entry "errors/500.html" "/v/errors/500.html"],
    templateNames :=
      [entry "layouts/base.html" "layouts/base.html",
       entry "layouts/bad.html" "layouts/bad.html", entry "home" "home",
       entry "errors/500.html" "errors/500.html"] }

/-- The file system `fsLayouts` with one more file, `broken.html`, which does not parse. -/
def fsLayoutsBroken : FileSystem :=
  [("/v".toList, .dir ["broken.html".toList, "errors".toList, "home".toList,
      "layouts".toList]),
   ("/v/broken.html".toList, .file "!".toList),
   ("/v/errors".toList, .dir ["500.html".toList]),
   ("/v/errors/500.html".toList, .file "E:".toList),
   ("/v/home".toList, .file "H".toList),
   ("/v/layouts".toList, .dir ["bad.html".toList, "base.html".toList]),
   ("/v/layouts/bad.html".toList, .file "?".toList),
   ("/v/layouts/base.html".toList, .file "L".toList)]

/-- The world of `fsLayoutsBroken`. -/
def worldLayoutsBroken : World := demoWorld fsLayoutsBroken some none

/-- The loader after `Refresh` over the root `/v` of `fsLayoutsBroken`. -/
def loaderLayoutsBroken : TemplateLoader :=
  { templateSet := some
      [tmplOf "layouts/base.html" "L" none, tmplOf "layouts/bad.html" "?" none,
       tmplOf "home" "H" none, tmplOf "errors/500.html" "E:" none,
       tmplOf "broken.html" "!" (some "template: broken.html:1: unexpected bang")],
    compileError := some
      { Title := "Template Compilation Error".toList, Path := "broken.html".toList, Line := 1,
        Description := "unexpected bang".toList, SourceLines := ["!".toList] },
    paths := ["/v".toList],
    templatePaths :=
      [entry "layouts/base.html" "/v/layouts/base.html",
       entry "layouts/bad.html" "/v/layouts/bad.html", entry "home" "/v/home",
       entry "errors/500.html" "/v/errors/500.html", entry "broken.html" "/v/broken.html"],
    templateNames :=
      [entry "layouts/base.html" "layouts/base.html",
       entry "layouts/bad.html" "layouts/bad.html", entry "home" "home",
       entry "errors/500.html" "errors/500.html", entry "broken.html" "broken.html"] }

/-- Root `/v` holds the layout `base.html` and nothing else. -/
def fsOnlyLayout : FileSystem :=
  [("/v".toList, .dir ["layouts".toList]), ("/v/layouts".toList, .dir ["base.html".toList]),
   ("/v/layouts/base.html".toList, .file "L".toList)]

/-- The world of `fsOnlyLayout`. -/
def worldOnlyLayout : World := demoWorld fsOnlyLayout some none

/-- The loader after `Refresh` over the root `/v` of `fsOnlyLayout`. -/
def loaderOnlyLayout : TemplateLoader :=
  { templateSet := some [tmplOf "layouts/base.html" "L" none], compileError := none,
    paths := ["/v".toList],
    templatePaths := [entry "layouts/base.html" "/v/layouts/base.html"],
    templateNames := [entry "layouts/base.html" "layouts/base.html"] }

/-- The render arguments that `layout("base", "home", args)` leaves for an empty `args`. -/
def argsBaseHome : RenderArgs :=
  [("LayoutTemplate".toList, .str "base".toList),
   ("ContentTemplate".toList, .str "home".toList)]

/-- The haml line `"#{x}7777#{y}"`: a literal with two interpolations and the text `7777`
between them. -/
def hamlStraddle : HamlSource :=
  { lead := [],
    literals :=
      [({ head := [], interps := [("x".toList, "7777".toList), ("y".toList, [])] }, [])] }

/-- The haml line `%a{:href => "/u/#{user_id}/x,y"} #{z}`: one literal with one interpolation,
and an interpolation outside the literal. -/
def hamlAttribute : HamlSource :=
  { lead := "%a\x7b:href => ".toList,
    literals :=
      [({ head := "/u/".toList, interps := [("user_id".toList, "/x,y".toList)] },
        "\x7d #\x7bz\x7d".toList)] }

/-- Root `/a` holds a symbolic link to the hidden directory `/opt/.h`, followed by `x.html`;
root `/b` holds `x.html` too. -/
def fsShadowed : FileSystem :=
  [("/a".toList, .dir ["alink".toList, "x.html".toList]),
   ("/a/alink".toList, .link (some "/opt/.h".toList)),
   ("/a/x.html".toList, .file "A".toList),
   ("/b".toList, .dir ["x.html".toList]), ("/b/x.html".toList, .file "B".toList),
   ("/opt/.h".toList, .dir [])]

/-- The world of `fsShadowed`. -/
def worldShadowed : World := demoWorld fsShadowed some none

/-- The loader after `Refresh` over the roots `/a`, `/b` of `fsShadowed`. -/
def loaderShadowed : TemplateLoader :=
  { templateSet := some [tmplOf "x.html" "B" none], compileError := none,
    paths := ["/a".toList, "/b".toList],
    templatePaths := [entry "x.html" "/b/x.html"],
    templateNames := [entry "x.html" "x.html"] }

/-- Root `/v` holds a file that does not parse, a symbolic link to the hidden directory
`/opt/.h` and a second file. -/
def fsBrokenLink : FileSystem :=
  [("/v".toList, .dir ["a.html".toList, "b".toList, "c.html".toList]),
   ("/v/a.html".toList, .file "!A".toList),
   ("/v/b".toList, .link (some "/opt/.h".toList)),
   ("/v/c.html".toList, .file "C".toList),
   ("/opt/.h".toList, .dir [])]

/-- The world of `fsBrokenLink`. -/
def worldBrokenLink : World := demoWorld fsBrokenLink some none

/-- The loader after `Refresh` over the root `/v` of `fsBrokenLink`. -/
def loaderBrokenLink : TemplateLoader :=
  { templateSet := some [tmplOf "a.html" "!A" (some "template: a.html:1: unexpected bang")],
    compileError := some
      { Title := "Template Compilation Error".toList, Path := "a.html".toList, Line := 1,
        Description := "unexpected bang".toList, SourceLines := ["!A".toList] },
    paths := ["/v".toList],
    templatePaths := [entry "a.html" "/v/a.html"],
    templateNames := [entry "a.html" "a.html"] }

/-! ## Results shared by the claims -/

theorem Res.bind_eq_ok {α β : Type} {r : Res α} {f : α → Res β} {b : β} :
    r.bind f = .ok b ↔ ∃ a, r = .ok a ∧ f a = .ok b := by
  cases r <;> simp [Res.bind]

theorem StrMap.get?_set (m : StrMap) (k v key : Str) :
    (m.set k v).get? key = if key = k then some v else m.get? key := by
  simp [StrMap.set, StrMap.get?]

theorem addTemplate_cases (w : World) (cx : RootCtx) (path name : Str) (st st' : WalkState)
    (err : Option GoError) (fileStr : Str)
    (h : addTemplate w cx path name st = .ok (err, fileStr, st')) :
    (st.templateNames.get? (w.toLower (forwardSlashes w name)) ≠ none ∧ st' = st ∧ err = none) ∨
    (st.templateNames.get? (w.toLower (forwardSlashes w name)) = none ∧
      st'.templateNames =
        st.templateNames.set (w.toLower (forwardSlashes w name)) (forwardSlashes w name) ∧
      st'.templatePaths = st.templatePaths.set (forwardSlashes w name) path ∧
      st'.compileError = st.compileError ∧ st'.fullSrcDir = st.fullSrcDir) := by
  unfold addTemplate at h
  simp only at h
  split at h
  · rename_i hreg
    simp only [Res.ok.injEq, Prod.mk.injEq] at h
    left
    refine ⟨?_, h.2.2.symm, h.1.symm⟩
    intro hn
    simp [hn] at hreg
  · rename_i hreg
    right
    have hnone : st.templateNames.get? (w.toLower (forwardSlashes w name)) = none := by
      simpa using hreg
    refine ⟨hnone, ?_⟩
    split at h
    · simp only [Res.ok.injEq, Prod.mk.injEq] at h
      obtain ⟨-, -, rfl⟩ := h
      exact ⟨rfl, rfl, rfl, rfl⟩
    · rw [Res.bind_eq_ok] at h
      obtain ⟨fs, -, h⟩ := h
      split at h
      · split at h
        · simp only [Res.ok.injEq, Prod.mk.injEq] at h
          obtain ⟨-, -, rfl⟩ := h
          exact ⟨rfl, rfl, rfl, rfl⟩
        · simp only [Res.ok.injEq, Prod.mk.injEq] at h
          obtain ⟨-, -, rfl⟩ := h
          exact ⟨rfl, rfl, rfl, rfl⟩
      · simp only [Res.ok.injEq, Prod.mk.injEq] at h
        obtain ⟨-, -, rfl⟩ := h
        exact ⟨rfl, rfl, rfl, rfl⟩

theorem walkerEntry_cases (w : World) (cx : RootCtx) (path : Str) (i : FileInfo)
    (st st' : WalkState) (r : Option GoError)
    (h : walkerEntry w cx path (some i) st = .ok (r, st')) :
    (r = none ∨ r = some .skipDir) ∧ st'.fullSrcDir = st.fullSrcDir ∧
    (∀ e, st.compileError = some e → st'.compileError = some e) ∧
    ((st'.templateNames = st.templateNames ∧ st'.templatePaths = st.templatePaths) ∨
      (i.isDir = false ∧ WatchFile i.name = true ∧
        ∃ name, sliceFrom path (st.fullSrcDir.length + 1) = some name ∧
          st.templateNames.get? (w.toLower (forwardSlashes w name)) = none ∧
          st'.templateNames =
            st.templateNames.set (w.toLower (forwardSlashes w name)) (forwardSlashes w name) ∧
          st'.templatePaths = st.templatePaths.set (forwardSlashes w name) path)) := by
  unfold walkerEntry at h
  simp only at h
  split at h
  · split at h <;>
      · simp only [Res.ok.injEq, Prod.mk.injEq] at h
        obtain ⟨rfl, rfl⟩ := h
        simp
  · rename_i hdir
    split at h
    · simp only [Res.ok.injEq, Prod.mk.injEq] at h
      obtain ⟨rfl, rfl⟩ := h
      simp
    · rename_i hwatch
      split at h
      · exact absurd h (by simp)
      · rename_i name hname
        rw [Res.bind_eq_ok] at h
        obtain ⟨⟨err, fileStr, st1⟩, hadd, h⟩ := h
        have hcases := addTemplate_cases w cx path name st st1 err fileStr hadd
        have hfinal : (r = none ∨ r = some .skipDir) ∧ st'.fullSrcDir = st1.fullSrcDir ∧
            (∀ e, st1.compileError = some e → st'.compileError = some e) ∧
            st'.templateNames = st1.templateNames ∧ st'.templatePaths = st1.templatePaths := by
          simp only at h
          split at h
          · rw [Res.bind_eq_ok] at h
            obtain ⟨⟨_, line, description⟩, -, h⟩ := h
            simp only [Res.ok.injEq, Prod.mk.injEq] at h
            obtain ⟨rfl, rfl⟩ := h
            refine ⟨Or.inl rfl, rfl, ?_, rfl, rfl⟩
            intro e he
            simp_all
          · simp only [Res.ok.injEq, Prod.mk.injEq] at h
            obtain ⟨rfl, rfl⟩ := h
            simp
        obtain ⟨hr, hd, hce, hn, hp⟩ := hfinal
        rcases hcases with ⟨-, rfl, -⟩ | ⟨hnone, hn1, hp1, hce1, hd1⟩
        · exact ⟨hr, hd, hce, Or.inl ⟨hn, hp⟩⟩
        · refine ⟨hr, hd.trans hd1, fun e he => hce e (hce1.trans he), Or.inr ⟨?_, ?_, name, hname,
            hnone, hn.trans hn1, hp.trans hp1⟩⟩
          · simpa using hdir
          · simpa using hwatch

theorem run_invariant (w : World) (cx : RootCtx) (I : WalkState → Prop)
    (hlink : ∀ st q l t, I st → w.lstat q = .ok l → l.isSymlink = true →
      w.evalSymlinks q = .ok t → I { st with fullSrcDir := w.dir t })
    (hback : ∀ st0 st, I st0 → I st → I { st with fullSrcDir := st0.fullSrcDir })
    (hentry : ∀ path i st r st', EntryInfo w path i → I st →
      walkerEntry w cx path (some i) st = .ok (r, st') → I st') :
    ∀ (fuel : Nat) (call : Call) (st st' : WalkState) (r : Option GoError),
      call.Sound w → I st → run w cx fuel call st = .ok (r, st') →
        I st' ∧ ∀ e, r ≠ some (.revel e) := by
  intro fuel
  induction fuel with
  | zero => intro call st st' r _ _ h; simp [run] at h
  | succ fuel ih =>
    intro call st st' r hs hI h
    cases call with
    | templateWalker path info err =>
      cases err with
      | some e =>
        simp only [run, Res.ok.injEq, Prod.mk.injEq] at h
        obtain ⟨rfl, rfl⟩ := h
        exact ⟨hI, by simp⟩
      | none =>
        obtain ⟨i, rfl, hl⟩ := hs rfl
        simp only [run, hl] at h
        split at h
        · rename_i hsym
          split at h
          · simp only [Res.ok.injEq, Prod.mk.injEq] at h
            obtain ⟨rfl, rfl⟩ := h
            exact ⟨hI, by simp⟩
          · rename_i targetPath htarget
            split at h
            · simp only [Res.ok.injEq, Prod.mk.injEq] at h
              obtain ⟨rfl, rfl⟩ := h
              exact ⟨hI, by simp⟩
            · rename_i targetInfo hstat
              rw [Res.bind_eq_ok] at h
              obtain ⟨⟨r1, st1⟩, hwalk, h⟩ := h
              have h1 := (ih (.Walk targetPath) _ st1 r1 trivial
                (hlink st path i targetPath hI hl hsym htarget) hwalk).1
              have h2 := hentry targetPath targetInfo _ r st'
                (Or.inr ⟨path, i, hl, hsym, htarget, hstat⟩) (hback st st1 hI h1) h
              exact ⟨h2, fun e he => by
                have := (walkerEntry_cases w cx _ _ _ _ _ h).1
                rcases this with rfl | rfl <;> simp at he⟩
        · rename_i hsym
          have h2 := hentry path i st r st' (Or.inl ⟨hl, by simpa using hsym⟩) hI h
          exact ⟨h2, fun e he => by
            have := (walkerEntry_cases w cx _ _ _ _ _ h).1
            rcases this with rfl | rfl <;> simp at he⟩
    | Walk root =>
      simp only [run] at h
      split at h
      · rw [Res.bind_eq_ok] at h
        obtain ⟨⟨r1, st1⟩, hrun, h⟩ := h
        have h1 := ih _ st st1 r1 (by simp [Call.Sound]) hI hrun
        simp only [Res.ok.injEq, Prod.mk.injEq] at h
        obtain ⟨rfl, rfl⟩ := h
        refine ⟨h1.1, fun e he => ?_⟩
        split at he
        · simp at he
        · exact h1.2 e he
      · rename_i info hl
        rw [Res.bind_eq_ok] at h
        obtain ⟨⟨r1, st1⟩, hrun, h⟩ := h
        have h1 := ih _ st st1 r1 (by simpa [Call.Sound] using hl) hI hrun
        simp only [Res.ok.injEq, Prod.mk.injEq] at h
        obtain ⟨rfl, rfl⟩ := h
        refine ⟨h1.1, fun e he => ?_⟩
        split at he
        · simp at he
        · exact h1.2 e he
    | walk path info =>
      have hl : w.lstat path = .ok info := hs
      simp only [run] at h
      split at h
      · exact ih _ st st' r (by intro _; exact ⟨info, rfl, hl⟩) hI h
      · split at h
        · exact ih _ st st' r (by intro hc; simp at hc) hI h
        · rw [Res.bind_eq_ok] at h
          obtain ⟨⟨r1, st1⟩, hrun, h⟩ := h
          have h1 := ih _ st st1 r1 (by intro _; exact ⟨info, rfl, hl⟩) hI hrun
          simp only at h
          split at h
          · simp only [Res.ok.injEq, Prod.mk.injEq] at h
            obtain ⟨rfl, rfl⟩ := h
            exact h1
          · exact ih (.walkNames path _) st1 st' r trivial h1.1 h
    | walkNames path names =>
      cases names with
      | nil =>
        simp only [run, Res.ok.injEq, Prod.mk.injEq] at h
        obtain ⟨rfl, rfl⟩ := h
        exact ⟨hI, by simp⟩
      | cons name rest =>
        simp only [run] at h
        split at h
        · rw [Res.bind_eq_ok] at h
          obtain ⟨⟨r1, st1⟩, hrun, h⟩ := h
          have h1 := ih _ st st1 r1 (by intro hc; simp at hc) hI hrun
          simp only at h
          split at h
          · simp only [Res.ok.injEq, Prod.mk.injEq] at h
            obtain ⟨rfl, rfl⟩ := h
            exact h1
          · exact ih (.walkNames path rest) st1 st' r trivial h1.1 h
        · rename_i fileInfo hl
          rw [Res.bind_eq_ok] at h
          obtain ⟨⟨r1, st1⟩, hrun, h⟩ := h
          have h1 := ih (.walk _ fileInfo) st st1 r1 hl hI hrun
          simp only at h
          split at h
          · simp only [Res.ok.injEq, Prod.mk.injEq] at h
            obtain ⟨rfl, rfl⟩ := h
            exact h1
          · exact ih (.walkNames path rest) st1 st' r trivial h1.1 h

theorem refreshLoop_invariant (w : World) (sd : Option (Str × Str)) (I J : WalkState → Prop)
    (hlink : ∀ st q l t, I st → w.lstat q = .ok l → l.isSymlink = true →
      w.evalSymlinks q = .ok t → I { st with fullSrcDir := w.dir t })
    (hback : ∀ st0 st, I st0 → I st → I { st with fullSrcDir := st0.fullSrcDir })
    (hentry : ∀ cx path i st r st', cx.splitDelims = sd → EntryInfo w path i → I st →
      walkerEntry w cx path (some i) st = .ok (r, st') → I st')
    (hout : ∀ st, I st → J st)
    (fuel : Nat) (roots : List Str)
    (hroot : ∀ st basePath d, basePath ∈ roots → rootSrcDir w basePath = .ok d → J st →
      I { st with fullSrcDir := d }) :
    ∀ (st st' : WalkState) (early : Bool), J st →
      refreshLoop w sd fuel roots st = .ok (early, st') → J st' ∧ early = false := by
  induction roots with
  | nil =>
    intro st st' early hJ h
    simp only [refreshLoop, Res.ok.injEq, Prod.mk.injEq] at h
    obtain ⟨rfl, rfl⟩ := h
    exact ⟨hJ, rfl⟩
  | cons basePath rest ih =>
    intro st st' early hJ h
    simp only [refreshLoop] at h
    rw [Res.bind_eq_ok] at h
    obtain ⟨d, hd, h⟩ := h
    rw [Res.bind_eq_ok] at h
    obtain ⟨⟨funcErr, st1⟩, hrun, h⟩ := h
    have h1 := run_invariant w _ I hlink hback
      (fun path i st r st' => hentry _ path i st r st' rfl) fuel (.Walk d) _ st1 funcErr trivial
      (hroot st basePath d (by simp) hd hJ) hrun
    simp only at h
    split at h
    · exact ih (fun st b d hb => hroot st b d (by simp [hb])) st1 st' early (hout _ h1.1) h
    · exact absurd rfl (h1.2 _)
    · exact absurd h (by simp)

theorem refreshLoop_append (w : World) (sd : Option (Str × Str)) (fuel : Nat)
    (higher lower : List Str) (st : WalkState) :
    refreshLoop w sd fuel (higher ++ lower) st =
      (refreshLoop w sd fuel higher st).bind fun (early, st1) =>
        if early then .ok (true, st1) else refreshLoop w sd fuel lower st1 := by
  induction higher generalizing st with
  | nil => simp [refreshLoop, Res.bind]
  | cons basePath rest ih =>
    simp only [List.cons_append, refreshLoop]
    cases rootSrcDir w basePath with
    | ok d =>
      simp only [Res.bind]
      cases run w { basePath := basePath, splitDelims := sd } fuel (.Walk d)
          { st with fullSrcDir := d } with
      | ok a =>
        obtain ⟨funcErr, st1⟩ := a
        simp only []
        cases funcErr with
        | none => exact ih st1
        | some e => cases e <;> simp
      | _ => rfl
    | _ => rfl

/-- The registration recorded for `c` is never overwritten by a later entry. -/
theorem kept_by_entry (w : World) (cx : RootCtx) (c p path : Str) (i : FileInfo)
    (st st' : WalkState) (r : Option GoError)
    (hI : st.templateNames.get? (w.toLower c) = some c ∧ st.templatePaths.get? c = some p)
    (h : walkerEntry w cx path (some i) st = .ok (r, st')) :
    st'.templateNames.get? (w.toLower c) = some c ∧ st'.templatePaths.get? c = some p := by
  obtain ⟨-, -, -, hcase⟩ := walkerEntry_cases w cx path i st st' r h
  rcases hcase with ⟨hn, hp⟩ | ⟨-, -, name, -, hnone, hn, hp⟩
  · rw [hn, hp]; exact hI
  · have hne : w.toLower c ≠ w.toLower (forwardSlashes w name) := by
      intro heq
      rw [heq, hnone] at hI
      exact absurd hI.1 (by simp)
    have hne2 : c ≠ forwardSlashes w name := fun heq => hne (by rw [heq])
    rw [hn, hp, StrMap.get?_set, StrMap.get?_set, if_neg hne, if_neg hne2]
    exact hI

theorem addTemplate_parse_failure (w : World) (cx : RootCtx) (path name bytes text msg : Str)
    (st : WalkState)
    (hnew : st.templateNames.get? (w.toLower (forwardSlashes w name)) = none)
    (hread : w.readFile path = .ok bytes)
    (htext : (if isHaml (forwardSlashes w name) then hamlPreprocess w bytes else .ok bytes) =
      .ok text)
    (hfuncs : st.templateSet = none → w.funcsPanic = none)
    (hparse : w.parse (st.templateSet.getD []) (delimsFor w cx).1 (delimsFor w cx).2
      (forwardSlashes w name) text = some msg) :
    ∃ st1, addTemplate w cx path name st = .ok (some (.text msg), text, st1) ∧
      st1.compileError = st.compileError ∧ st1.fullSrcDir = st.fullSrcDir ∧
      st1.templateNames =
        st.templateNames.set (w.toLower (forwardSlashes w name)) (forwardSlashes w name) ∧
      st1.templatePaths = st.templatePaths.set (forwardSlashes w name) path ∧
      st1.templateSet = some
        ({ name := forwardSlashes w name, leftDelim := (delimsFor w cx).1,
           rightDelim := (delimsFor w cx).2, text := text, parseError := some msg } ::
          (st.templateSet.getD [])) := by
  unfold addTemplate
  simp only [hnew, Option.isSome_none, Bool.false_eq_true, if_false, hread, htext, Res.bind]
  cases hset : st.templateSet with
  | none =>
    rw [hset] at hparse
    simp only [Option.getD_none] at hparse
    simp only [hfuncs hset, hparse, Option.map_some']
    exact ⟨_, rfl, rfl, rfl, rfl, rfl, rfl⟩
  | some set =>
    rw [hset] at hparse
    simp only [Option.getD_some] at hparse
    simp only [hparse, Option.map_some']
    exact ⟨_, rfl, rfl, rfl, rfl, rfl, rfl⟩

theorem registered_by_entry (w : World) (cx : RootCtx) (path : Str)
    (i : FileInfo) (st st' : WalkState) (r : Option GoError)
    (hinfo : EntryInfo w path i)
    (hI : ∀ c p, st.templatePaths.get? c = some p → Registered w st.templateNames c p)
    (h : walkerEntry w cx path (some i) st = .ok (r, st')) :
    ∀ c p, st'.templatePaths.get? c = some p → Registered w st'.templateNames c p := by
  obtain ⟨-, -, -, hcase⟩ := walkerEntry_cases w cx path i st st' r h
  rcases hcase with ⟨hn, hp⟩ | ⟨hdir, hwatch, name, hslice, hnone, hn, hp⟩
  · rw [hn, hp]; exact hI
  · intro c p hc
    rw [hp, StrMap.get?_set] at hc
    rw [hn]
    by_cases hcn : c = forwardSlashes w name
    · rw [if_pos hcn] at hc
      cases hc
      subst hcn
      exact ⟨by rw [StrMap.get?_set, if_pos rfl], i, hinfo, hdir, hwatch⟩
    · rw [if_neg hcn] at hc
      obtain ⟨hreg, hrest⟩ := hI c p hc
      refine ⟨?_, hrest⟩
      have hne : w.toLower c ≠ w.toLower (forwardSlashes w name) := by
        intro heq
        rw [heq, hnone] at hreg
        exact absurd hreg (by simp)
      rw [StrMap.get?_set, if_neg hne]
      exact hreg

theorem refresh_registered (w : World) (fuel : Nat) (loader loader' : TemplateLoader)
    (ret : Option Error) (hR : loader.Refresh w fuel = .ok (loader', ret)) :
    ∀ c p, loader'.templatePaths.get? c = some p →
      Registered w loader'.templateNames c p := by
  unfold TemplateLoader.Refresh at hR
  rw [Res.bind_eq_ok] at hR
  obtain ⟨sd, -, hR⟩ := hR
  rw [Res.bind_eq_ok] at hR
  obtain ⟨⟨early, st⟩, hloop, hR⟩ := hR
  simp only [Res.ok.injEq, Prod.mk.injEq] at hR
  obtain ⟨rfl, -⟩ := hR
  exact (refreshLoop_invariant w sd
    (fun s => ∀ c p, s.templatePaths.get? c = some p → Registered w s.templateNames c p)
    (fun s => ∀ c p, s.templatePaths.get? c = some p → Registered w s.templateNames c p)
    (fun _ _ _ _ hI _ _ _ => hI)
    (fun _ _ _ hI => hI)
    (fun cx path i s r s' _ hinfo hI h => registered_by_entry w cx path i s s' r hinfo hI h)
    (fun _ h => h) fuel loader.paths
    (fun _ _ _ _ _ hJ => hJ)
    initialWalkState st early (by intro c p h; simp [initialWalkState, StrMap.get?] at h) hloop).1

theorem refresh_after_roots (w : World) (fuel : Nat) (loader loader' : TemplateLoader)
    (higher lower : List Str) (sd : Option (Str × Str)) (stA : WalkState) (ret : Option Error)
    (hpaths : loader.paths = higher ++ lower)
    (hsd : splitDelims w = .ok sd)
    (hA : refreshLoop w sd fuel higher initialWalkState = .ok (false, stA))
    (hR : loader.Refresh w fuel = .ok (loader', ret)) :
    ∃ early st, refreshLoop w sd fuel lower stA = .ok (early, st) ∧
      loader'.templateNames = st.templateNames ∧ loader'.templatePaths = st.templatePaths ∧
      loader'.compileError = st.compileError ∧ ret = st.compileError := by
  unfold TemplateLoader.Refresh at hR
  rw [Res.bind_eq_ok] at hR
  obtain ⟨sd1, hsd1, hR⟩ := hR
  rw [hsd] at hsd1
  cases hsd1
  rw [Res.bind_eq_ok] at hR
  obtain ⟨⟨early, st⟩, hloop, hR⟩ := hR
  simp only [Res.ok.injEq, Prod.mk.injEq] at hR
  obtain ⟨rfl, rfl⟩ := hR
  rw [hpaths, refreshLoop_append, Res.bind_eq_ok] at hloop
  obtain ⟨⟨e1, s1⟩, h1, hloop⟩ := hloop
  rw [hA] at h1
  cases h1
  simp only [Bool.false_eq_true, if_false] at hloop
  exact ⟨early, st, hloop, rfl, rfl, rfl, rfl⟩

theorem rootSrcDir_of_no_links (w : World) (b d : Str)
    (hno : ∀ q l, w.lstat q = .ok l → l.isSymlink = false)
    (h : rootSrcDir w b = .ok d) : d = b := by
  unfold rootSrcDir at h
  split at h
  · rename_i f hf
    rw [hno b f hf] at h
    simp only [Bool.false_eq_true, if_false, Res.ok.injEq] at h
    exact h.symm
  · simp only [Res.ok.injEq] at h
    exact h.symm

theorem node_mem (fs : FileSystem) (q : Str) (n : Node) (h : fs.node? q = some n) :
    (q, n) ∈ fs := by
  induction fs with
  | nil => simp [FileSystem.node?] at h
  | cons e fs ih =>
    obtain ⟨p, m⟩ := e
    simp only [FileSystem.node?] at h
    split at h
    · rename_i hq
      cases h
      simp [hq]
    · exact List.mem_cons_of_mem _ (ih h)

theorem demoWorld_no_links (fs : FileSystem) (haml : Str → Option Str) (fp : Option Str)
    (hfs : fs.all (fun e => !e.2.isLink) = true) :
    ∀ q l, (demoWorld fs haml fp).lstat q = .ok l → l.isSymlink = false := by
  intro q l h
  simp only [demoWorld] at h
  split at h
  · cases h; rfl
  · rename_i t hn
    have := List.all_eq_true.mp hfs _ (node_mem fs q _ hn)
    simp [Node.isLink] at this
  · cases h; rfl
  · exact absurd h (by simp)

theorem walkerEntry_skipDir (w : World) (cx : RootCtx) (path : Str) (i : FileInfo)
    (st st' : WalkState) (r : Option GoError)
    (h : walkerEntry w cx path (some i) st = .ok (r, st')) :
    r = none ∨ (r = some .skipDir ∧ i.isDir = true) := by
  rcases (walkerEntry_cases w cx path i st st' r h).1 with hr | hr
  · exact Or.inl hr
  · right
    refine ⟨hr, ?_⟩
    subst hr
    unfold walkerEntry at h
    simp only at h
    split at h
    · rename_i hd; exact hd
    · split at h
      · simp at h
      · split at h
        · simp at h
        · rw [Res.bind_eq_ok] at h
          obtain ⟨⟨err, fileStr, st1⟩, -, h⟩ := h
          simp only at h
          split at h
          · rw [Res.bind_eq_ok] at h
            obtain ⟨_, -, h⟩ := h
            simp at h
          · simp at h

theorem walkerEntry_file (w : World) (cx : RootCtx) (path : Str) (i : FileInfo)
    (st st' : WalkState) (r : Option GoError)
    (hdir : i.isDir = false) (hwatch : WatchFile i.name = true)
    (h : walkerEntry w cx path (some i) st = .ok (r, st')) :
    ∃ name err fileStr st1, sliceFrom path (st.fullSrcDir.length + 1) = some name ∧
      addTemplate w cx path name st = .ok (err, fileStr, st1) ∧
      st'.templateNames = st1.templateNames ∧ st'.templatePaths = st1.templatePaths ∧
      r = none := by
  unfold walkerEntry at h
  simp only [hdir, hwatch, Bool.false_eq_true, if_false, Bool.not_true] at h
  split at h
  · simp at h
  · rename_i name hname
    rw [Res.bind_eq_ok] at h
    obtain ⟨⟨err, fileStr, st1⟩, hadd, h⟩ := h
    refine ⟨name, err, fileStr, st1, hname, hadd, ?_⟩
    simp only at h
    split at h
    · rw [Res.bind_eq_ok] at h
      obtain ⟨⟨_, line, description⟩, -, h⟩ := h
      simp only [Res.ok.injEq, Prod.mk.injEq] at h
      obtain ⟨rfl, rfl⟩ := h
      exact ⟨rfl, rfl, rfl⟩
    · simp only [Res.ok.injEq, Prod.mk.injEq] at h
      obtain ⟨rfl, rfl⟩ := h
      exact ⟨rfl, rfl, rfl⟩

theorem walkerEntry_registers (w : World) (cx : RootCtx) (path : Str) (i : FileInfo)
    (st st' : WalkState) (r : Option GoError)
    (hdir : i.isDir = false) (hwatch : WatchFile i.name = true)
    (h : walkerEntry w cx path (some i) st = .ok (r, st')) :
    ∃ name, sliceFrom path (st.fullSrcDir.length + 1) = some name ∧
      (st'.templateNames.get? (w.toLower (forwardSlashes w name))).isSome = true := by
  obtain ⟨name, err, fileStr, st1, hname, hadd, hn, -, -⟩ :=
    walkerEntry_file w cx path i st st' r hdir hwatch h
  refine ⟨name, hname, ?_⟩
  rw [hn]
  rcases addTemplate_cases w cx path name st st1 err fileStr hadd with
    ⟨hsome, rfl, -⟩ | ⟨-, hn1, -, -, -⟩
  · cases hg : st1.templateNames.get? (w.toLower (forwardSlashes w name)) with
    | none => exact absurd hg hsome
    | some v => rfl
  · rw [hn1, StrMap.get?_set, if_pos rfl]
    rfl

theorem run_returns_of_no_links (w : World) (cx : RootCtx)
    (hno : ∀ q l, w.lstat q = .ok l → l.isSymlink = false) :
    ∀ (fuel : Nat) (call : Call) (st st' : WalkState) (r : Option GoError),
      call.Sound w → run w cx fuel call st = .ok (r, st') → call.Returns r := by
  intro fuel
  induction fuel with
  | zero => intro call st st' r _ h; simp [run] at h
  | succ fuel ih =>
    intro call st st' r hs h
    cases call with
    | templateWalker path info err =>
      cases err with
      | some e =>
        simp only [run, Res.ok.injEq, Prod.mk.injEq] at h
        exact Or.inl h.1.symm
      | none =>
        obtain ⟨i, rfl, hl⟩ := hs rfl
        simp only [run, hl, hno path i hl, Bool.false_eq_true, if_false] at h
        rcases walkerEntry_skipDir w cx path i st st' r h with hr | ⟨hr, hd⟩
        · exact Or.inl hr
        · exact Or.inr ⟨hr, i, rfl, hd⟩
    | Walk root =>
      simp only [run] at h
      split at h
      · rw [Res.bind_eq_ok] at h
        obtain ⟨⟨r1, st1⟩, hrun, h⟩ := h
        have h1 := ih (.templateWalker root none _) st st1 r1 (by simp [Call.Sound]) hrun
        simp only [Res.ok.injEq, Prod.mk.injEq] at h
        obtain ⟨rfl, rfl⟩ := h
        rcases h1 with rfl | ⟨rfl, -⟩ <;> simp [Call.Returns]
      · rename_i info hl
        rw [Res.bind_eq_ok] at h
        obtain ⟨⟨r1, st1⟩, hrun, h⟩ := h
        have h1 := ih (.walk root info) st st1 r1 hl hrun
        simp only [Res.ok.injEq, Prod.mk.injEq] at h
        obtain ⟨rfl, rfl⟩ := h
        rcases h1 with rfl | ⟨rfl, -⟩ <;> simp [Call.Returns]
    | walk path info =>
      have hl : w.lstat path = .ok info := hs
      simp only [run] at h
      split at h
      · rename_i hnd
        rcases ih (.templateWalker path (some info) none) st st' r
          (by intro _; exact ⟨info, rfl, hl⟩) h with hr | ⟨-, i, hi, hd⟩
        · exact Or.inl hr
        · cases hi
          simp [hd] at hnd
      · split at h
        · rcases ih (.templateWalker path (some info) (some _)) st st' r
            (by intro hc; simp at hc) h with hr | ⟨hr, i, hi, hd⟩
          · exact Or.inl hr
          · cases hi
            exact Or.inr ⟨hr, hd⟩
        · rw [Res.bind_eq_ok] at h
          obtain ⟨⟨r1, st1⟩, hrun, h⟩ := h
          have h1 := ih (.templateWalker path (some info) none) st st1 r1
            (by intro _; exact ⟨info, rfl, hl⟩) hrun
          simp only at h
          split at h
          · simp only [Res.ok.injEq, Prod.mk.injEq] at h
            obtain ⟨rfl, rfl⟩ := h
            rcases h1 with hr | ⟨hr, i, hi, hd⟩
            · exact Or.inl hr
            · cases hi
              exact Or.inr ⟨hr, hd⟩
          · exact Or.inl (ih (.walkNames path _) st1 st' r trivial h)
    | walkNames path names =>
      cases names with
      | nil =>
        simp only [run, Res.ok.injEq, Prod.mk.injEq] at h
        exact h.1.symm
      | cons name rest =>
        simp only [run] at h
        split at h
        · rw [Res.bind_eq_ok] at h
          obtain ⟨⟨r1, st1⟩, hrun, h⟩ := h
          have h1 := ih (.templateWalker _ none (some _)) st st1 r1 (by intro hc; simp at hc) hrun
          simp only at h
          split at h
          · rename_i hab
            rcases h1 with hr | ⟨hr, -⟩
            · exact absurd hr hab.1
            · exact absurd hr hab.2
          · exact ih (.walkNames path rest) st1 st' r trivial h
        · rename_i fileInfo hl
          rw [Res.bind_eq_ok] at h
          obtain ⟨⟨r1, st1⟩, hrun, h⟩ := h
          have h1 := ih (.walk _ fileInfo) st st1 r1 hl hrun
          simp only at h
          split at h
          · rename_i hab
            rcases h1 with hr | ⟨hr, hd⟩
            · exact absurd hr hab.1
            · rcases hab.2 with hnd | hns
              · rw [hd] at hnd; exact absurd hnd (by simp)
              · exact absurd hr hns
          · exact ih (.walkNames path rest) st1 st' r trivial h

theorem run_keeps_registered (w : World) (cx : RootCtx) (k : Str) (fuel : Nat) (call : Call)
    (st st' : WalkState) (r : Option GoError) (hs : call.Sound w)
    (hk : (st.templateNames.get? k).isSome = true)
    (h : run w cx fuel call st = .ok (r, st')) :
    (st'.templateNames.get? k).isSome = true := by
  refine (run_invariant w cx (fun s => (s.templateNames.get? k).isSome = true)
    (fun _ _ _ _ h _ _ _ => h) (fun _ _ _ h => h) ?_ fuel call st st' r hs hk h).1
  intro path i s r s' _ hI hrun
  rcases (walkerEntry_cases w cx path i s s' r hrun).2.2.2 with ⟨hn, -⟩ | ⟨-, -, name, -, -, hn, -⟩
  · rw [hn]; exact hI
  · rw [hn, StrMap.get?_set]
    split
    · rfl
    · exact hI

theorem run_keeps_fullSrcDir (w : World) (cx : RootCtx)
    (hno : ∀ q l, w.lstat q = .ok l → l.isSymlink = false) (fuel : Nat) (call : Call)
    (st st' : WalkState) (r : Option GoError) (hs : call.Sound w)
    (h : run w cx fuel call st = .ok (r, st')) : st'.fullSrcDir = st.fullSrcDir := by
  refine (run_invariant w cx (fun s => s.fullSrcDir = st.fullSrcDir) ?_ ?_ ?_
    fuel call st st' r hs rfl h).1
  · intro s q l t _ hl hsym _
    rw [hno q l hl] at hsym
    exact absurd hsym (by simp)
  · intro s0 s h0 _
    exact h0
  · intro path i s r s' _ hI hrun
    exact (walkerEntry_cases w cx path i s s' r hrun).2.1.trans hI

theorem reaches_lstat (w : World) (q p : Str) (i : FileInfo) (h : Reaches w q p)
    (hp : w.lstat p = .ok i) : ∃ j, w.lstat q = .ok j := by
  cases h with
  | self => exact ⟨i, hp⟩
  | down _ _ _ _ _ hl _ _ _ _ _ => exact ⟨_, hl⟩

theorem run_walker_error (w : World) (cx : RootCtx) (fuel : Nat) (path : Str)
    (info : Option FileInfo) (e : GoError) (st st' : WalkState) (r : Option GoError)
    (h : run w cx fuel (.templateWalker path info (some e)) st = .ok (r, st')) :
    r = none ∧ st' = st := by
  cases fuel with
  | zero => simp [run] at h
  | succ n =>
    simp only [run, Res.ok.injEq, Prod.mk.injEq] at h
    exact ⟨h.1.symm, h.2.symm⟩

theorem run_walker_dir (w : World) (cx : RootCtx) (fuel : Nat) (path : Str) (info : FileInfo)
    (st st' : WalkState) (r : Option GoError)
    (hl : w.lstat path = .ok info) (hsym : info.isSymlink = false) (hdir : info.isDir = true)
    (hwatch : WatchDir info = true)
    (h : run w cx fuel (.templateWalker path (some info) none) st = .ok (r, st')) :
    r = none ∧ st' = st := by
  cases fuel with
  | zero => simp [run] at h
  | succ n =>
    simp only [run, hl, hsym, Bool.false_eq_true, if_false, walkerEntry, hdir, hwatch,
      Bool.not_true, if_true, Res.ok.injEq, Prod.mk.injEq] at h
    exact ⟨h.1.symm, h.2.symm⟩

theorem run_visits (w : World) (cx : RootCtx)
    (hno : ∀ q l, w.lstat q = .ok l → l.isSymlink = false) :
    ∀ (fuel : Nat) (call : Call) (st st' : WalkState) (r : Option GoError),
      call.Sound w → run w cx fuel call st = .ok (r, st') →
      ∀ p i, w.lstat p = .ok i → i.isDir = false → WatchFile i.name = true →
        call.Visits w p →
        ∃ name, sliceFrom p (st.fullSrcDir.length + 1) = some name ∧
          (st'.templateNames.get? (w.toLower (forwardSlashes w name))).isSome = true := by
  intro fuel
  induction fuel with
  | zero => intro call st st' r _ h; simp [run] at h
  | succ fuel ih =>
    intro call st st' r hs h p i hp hnd hwatch hv
    cases call with
    | templateWalker path info err =>
      obtain ⟨rfl, rfl⟩ := hv
      obtain ⟨j, rfl, hl⟩ := hs rfl
      rw [hp] at hl
      cases hl
      simp only [run, hp, hno p i hp, Bool.false_eq_true, if_false] at h
      exact walkerEntry_registers w cx p i st st' r hnd hwatch h
    | Walk root =>
      have hv : Reaches w root p := hv
      obtain ⟨j, hj⟩ := reaches_lstat w root p i hv hp
      simp only [run, hj] at h
      rw [Res.bind_eq_ok] at h
      obtain ⟨⟨r1, st1⟩, hrun, h⟩ := h
      simp only [Res.ok.injEq, Prod.mk.injEq] at h
      obtain ⟨-, rfl⟩ := h
      exact ih (.walk root j) st st1 r1 hj hrun p i hp hnd hwatch hv
    | walk q info =>
      have hl : w.lstat q = .ok info := hs
      have hv : Reaches w q p := hv
      simp only [run] at h
      split at h
      · rename_i hfile
        cases hv with
        | self =>
          exact ih (.templateWalker p (some info) none) st st' r
            (by intro _; exact ⟨info, rfl, hl⟩) h p i hp hnd hwatch ⟨rfl, rfl⟩
        | down _ _ _ _ _ hl2 hd2 _ _ _ _ =>
          rw [hl] at hl2
          cases hl2
          simp [hd2] at hfile
      · rename_i hdir
        have hdir : info.isDir = true := by simpa using hdir
        cases hv with
        | self =>
          rw [hp] at hl
          cases hl
          rw [hnd] at hdir
          exact absurd hdir (by simp)
        | down _ _ _ _ _ hl2 hd2 hw2 hnames hn hrest =>
          rw [hl] at hl2
          cases hl2
          simp only [hnames] at h
          rw [Res.bind_eq_ok] at h
          obtain ⟨⟨r1, st1⟩, hrun, h⟩ := h
          obtain ⟨rfl, rfl⟩ := run_walker_dir w cx fuel q info st st1 r1 hl (hno q info hl)
            hd2 hw2 hrun
          simp only [ne_eq, not_true_eq_false, if_false] at h
          exact ih (.walkNames q _) _ st' r trivial h p i hp hnd hwatch ⟨_, hn, hrest⟩
    | walkNames d names =>
      obtain ⟨n, hn, hreach⟩ := hv
      cases names with
      | nil => simp at hn
      | cons n0 rest =>
        simp only [run] at h
        split at h
        · rename_i e he
          rw [Res.bind_eq_ok] at h
          obtain ⟨⟨r1, st1⟩, hrun, h⟩ := h
          obtain ⟨rfl, rfl⟩ := run_walker_error w cx fuel _ _ _ st st1 r1 hrun
          simp only [ne_eq, not_true_eq_false, false_and, if_false] at h
          rcases List.mem_cons.mp hn with rfl | hn
          · obtain ⟨j, hj⟩ := reaches_lstat w _ p i hreach hp
            rw [hj] at he
            exact absurd he (by simp)
          · exact ih (.walkNames d rest) _ st' r trivial h p i hp hnd hwatch ⟨n, hn, hreach⟩
        · rename_i fileInfo hl
          rw [Res.bind_eq_ok] at h
          obtain ⟨⟨r1, st1⟩, hrun, h⟩ := h
          have hret := run_returns_of_no_links w cx hno fuel (.walk _ fileInfo) st st1 r1 hl hrun
          have hfs := run_keeps_fullSrcDir w cx hno fuel (.walk _ fileInfo) st st1 r1 hl hrun
          simp only at h
          split at h
          · rename_i hab
            rcases hret with hr | ⟨hr, hd⟩
            · exact absurd hr hab.1
            · rcases hab.2 with hnd2 | hns
              · rw [hd] at hnd2; exact absurd hnd2 (by simp)
              · exact absurd hr hns
          · rcases List.mem_cons.mp hn with rfl | hn
            · obtain ⟨name, hname, hreg⟩ :=
                ih (.walk _ fileInfo) st st1 r1 hl hrun p i hp hnd hwatch hreach
              exact ⟨name, hname, run_keeps_registered w cx _ fuel (.walkNames d rest) st1 st' r
                trivial hreg h⟩
            · have := ih (.walkNames d rest) st1 st' r trivial h p i hp hnd hwatch
                ⟨n, hn, hreach⟩
              rw [hfs] at this
              exact this

theorem refreshLoop_keeps_registered (w : World) (sd : Option (Str × Str)) (k : Str)
    (fuel : Nat) (roots : List Str) (st st' : WalkState) (early : Bool)
    (hk : (st.templateNames.get? k).isSome = true)
    (h : refreshLoop w sd fuel roots st = .ok (early, st')) :
    (st'.templateNames.get? k).isSome = true := by
  refine (refreshLoop_invariant w sd (fun s => (s.templateNames.get? k).isSome = true)
    (fun s => (s.templateNames.get? k).isSome = true)
    (fun _ _ _ _ h _ _ _ => h) (fun _ _ _ h => h) ?_ (fun _ h => h) fuel roots
    (fun _ _ _ _ _ h => h) st st' early hk h).1
  intro cx path i s r s' _ _ hI hrun
  rcases (walkerEntry_cases w cx path i s s' r hrun).2.2.2 with ⟨hn, -⟩ | ⟨-, -, name, -, -, hn, -⟩
  · rw [hn]; exact hI
  · rw [hn, StrMap.get?_set]
    split
    · rfl
    · exact hI

theorem refreshLoop_registers_reachable (w : World) (sd : Option (Str × Str))
    (hno : ∀ q l, w.lstat q = .ok l → l.isSymlink = false) (fuel : Nat) (b p : Str)
    (i : FileInfo) (hreach : Reaches w b p) (hp : w.lstat p = .ok i)
    (hnd : i.isDir = false) (hwatch : WatchFile i.name = true) :
    ∀ (roots : List Str) (st st' : WalkState) (early : Bool), b ∈ roots →
      refreshLoop w sd fuel roots st = .ok (early, st') →
      ∃ name, sliceFrom p (b.length + 1) = some name ∧
        (st'.templateNames.get? (w.toLower (forwardSlashes w name))).isSome = true := by
  intro roots
  induction roots with
  | nil => intro st st' early hb; simp at hb
  | cons basePath rest ih =>
    intro st st' early hb h
    simp only [refreshLoop] at h
    rw [Res.bind_eq_ok] at h
    obtain ⟨d, hd, h⟩ := h
    have hdb := rootSrcDir_of_no_links w basePath d hno hd
    subst hdb
    rw [Res.bind_eq_ok] at h
    obtain ⟨⟨funcErr, st1⟩, hrun, h⟩ := h
    have hret : funcErr = none :=
      run_returns_of_no_links w _ hno fuel (.Walk d) _ st1 funcErr trivial hrun
    subst hret
    simp only at h
    rcases List.mem_cons.mp hb with rfl | hb
    · obtain ⟨name, hname, hreg⟩ :=
        run_visits w _ hno fuel (.Walk b) _ st1 none trivial hrun p i hp hnd hwatch hreach
      exact ⟨name, hname, refreshLoop_keeps_registered w sd _ fuel rest st1 st' early hreg h⟩
    · exact ih st1 st' early hb h

/-- When no entry is a symbolic link and `Refresh` returns, every file below a root, through
directories whose names do not begin with a dot, is registered. -/
theorem refresh_registers_reachable (w : World)
    (hno : ∀ q l, w.lstat q = .ok l → l.isSymlink = false) (fuel : Nat)
    (loader loader' : TemplateLoader) (ret : Option Error) (b p : Str) (i : FileInfo)
    (hR : loader.Refresh w fuel = .ok (loader', ret)) (hb : b ∈ loader.paths)
    (hreach : Reaches w b p) (hp : w.lstat p = .ok i) (hnd : i.isDir = false)
    (hwatch : WatchFile i.name = true) :
    ∃ name, sliceFrom p (b.length + 1) = some name ∧
      (loader'.templateNames.get? (w.toLower (forwardSlashes w name))).isSome = true := by
  unfold TemplateLoader.Refresh at hR
  rw [Res.bind_eq_ok] at hR
  obtain ⟨sd, -, hR⟩ := hR
  rw [Res.bind_eq_ok] at hR
  obtain ⟨⟨early, st⟩, hloop, hR⟩ := hR
  simp only [Res.ok.injEq, Prod.mk.injEq] at hR
  obtain ⟨rfl, -⟩ := hR
  exact refreshLoop_registers_reachable w sd hno fuel b p i hreach hp hnd hwatch loader.paths
    initialWalkState st early hb hloop

/-- Every canonical name recorded in `templateNames` is recorded under its own lower-case
form and has a source path in `templatePaths`. -/
theorem refreshLoop_names_linked (w : World) (sd : Option (Str × Str)) (fuel : Nat)
    (roots : List Str) (st' : WalkState) (early : Bool)
    (h : refreshLoop w sd fuel roots initialWalkState = .ok (early, st')) :
    ∀ k c, st'.templateNames.get? k = some c →
      k = w.toLower c ∧ ∃ p, st'.templatePaths.get? c = some p := by
  refine (refreshLoop_invariant w sd
    (fun s => ∀ k c, s.templateNames.get? k = some c →
      k = w.toLower c ∧ ∃ p, s.templatePaths.get? c = some p)
    (fun s => ∀ k c, s.templateNames.get? k = some c →
      k = w.toLower c ∧ ∃ p, s.templatePaths.get? c = some p)
    (fun _ _ _ _ h _ _ _ => h) (fun _ _ _ h => h) ?_ (fun _ h => h) fuel roots
    (fun _ _ _ _ _ h => h) initialWalkState st' early ?_ h).1
  · intro cx path i s r s' _ _ hI hrun
    rcases (walkerEntry_cases w cx path i s s' r hrun).2.2.2 with
      ⟨hn, hp⟩ | ⟨-, -, name, -, -, hn, hp⟩
    · rw [hn, hp]; exact hI
    · intro k c hk
      rw [hn, StrMap.get?_set] at hk
      rw [hp]
      split at hk
      · rename_i hkn
        cases hk
        exact ⟨hkn, path, by rw [StrMap.get?_set, if_pos rfl]⟩
      · obtain ⟨hkc, p, hpc⟩ := hI k c hk
        refine ⟨hkc, ?_⟩
        rw [StrMap.get?_set]
        split
        · exact ⟨path, rfl⟩
        · exact ⟨p, hpc⟩
  · intro k c hk
    simp [initialWalkState, StrMap.get?] at hk

theorem findLineMarker_skip (pre s : Str) (off : Nat)
    (h : ∀ k, k < pre.length → matchLineMarker ((pre ++ s).drop k) = none) :
    findLineMarker (pre ++ s) off = findLineMarker s (off + pre.length) := by
  induction pre generalizing off with
  | nil => simp
  | cons a pre ih =>
    have h0 := h 0 (by simp)
    simp only [List.drop_zero, List.cons_append] at h0
    have hrest : ∀ k, k < pre.length → matchLineMarker ((pre ++ s).drop k) = none := by
      intro k hk
      have := h (k + 1) (by simp only [List.length_cons]; omega)
      simpa using this
    rw [List.cons_append, findLineMarker]
    simp only [h0]
    rw [ih (off + 1) hrest, List.length_cons,
      show off + 1 + pre.length = off + (pre.length + 1) by omega]

theorem takeWhile_digits_append (L rest : Str) (hdig : ∀ c ∈ L, c.isDigit = true) :
    (L ++ ':' :: rest).takeWhile Char.isDigit = L := by
  induction L with
  | nil => simp [List.takeWhile]
  | cons c L ih =>
    have hc : c.isDigit = true := hdig c (by simp)
    have := ih (fun d hd => hdig d (by simp [hd]))
    simp [List.takeWhile, hc, this]

theorem matchLineMarker_numeral (L rest : Str) (hL : L ≠ [])
    (hdig : ∀ c ∈ L, c.isDigit = true) :
    matchLineMarker (':' :: (L ++ ':' :: rest)) = some (L.length + 2) := by
  simp [matchLineMarker, takeWhile_digits_append L rest hdig, hL]

theorem indexOfChar_append (P N : Str) (hP : ':' ∉ P) :
    indexOfChar ':' (P ++ ':' :: N) = some P.length := by
  induction P with
  | nil => simp [indexOfChar]
  | cons c P ih =>
    have hc : c ≠ ':' := fun h => hP (by simp [h])
    have := ih (fun h => hP (by simp [h]))
    simp [indexOfChar, hc, this]

theorem atoi_numeral (L : Str) (hL : L ≠ []) (hdig : ∀ c ∈ L, c.isDigit = true)
    (hfit : decimalValue L ≤ maxInt) : atoi L = ((decimalValue L : Int), true) := by
  have hall : L.all Char.isDigit = true := by simpa using hdig
  have hd : atoiDigits L = ((decimalValue L : Int), true) := by
    simp [atoiDigits, hL, hall, hfit]
  cases L with
  | nil => exact absurd rfl hL
  | cons c t =>
    have hc : c.isDigit = true := hdig c (by simp)
    have h1 : c ≠ '+' := by rintro rfl; revert hc; decide
    have h2 : c ≠ '-' := by rintro rfl; revert hc; decide
    unfold atoi
    split
    · rename_i heq; cases heq; exact absurd rfl h1
    · rename_i heq; cases heq; exact absurd rfl h2
    · exact hd

/-- What the roots walked first registered for a name is what the loader holds after the
whole `Refresh`. -/
theorem refresh_retains (w : World) (fuel : Nat) (loader loader' : TemplateLoader)
    (higher lower : List Str) (sd : Option (Str × Str)) (stA : WalkState) (ret : Option Error)
    (c p : Str) (hpaths : loader.paths = higher ++ lower) (hsd : splitDelims w = .ok sd)
    (hA : refreshLoop w sd fuel higher initialWalkState = .ok (false, stA))
    (hname : stA.templateNames.get? (w.toLower c) = some c)
    (hpath : stA.templatePaths.get? c = some p)
    (hR : loader.Refresh w fuel = .ok (loader', ret)) :
    loader'.templateNames.get? (w.toLower c) = some c ∧
      loader'.templatePaths.get? c = some p := by
  obtain ⟨early, st, hloop, hn, hp, -, -⟩ :=
    refresh_after_roots w fuel loader loader' higher lower sd stA ret hpaths hsd hA hR
  rw [hn, hp]
  exact (refreshLoop_invariant w sd
    (fun s => s.templateNames.get? (w.toLower c) = some c ∧ s.templatePaths.get? c = some p)
    (fun s => s.templateNames.get? (w.toLower c) = some c ∧ s.templatePaths.get? c = some p)
    (fun _ _ _ _ h _ _ _ => h) (fun _ _ _ h => h)
    (fun cx path i s r s' _ _ hI h => kept_by_entry w cx c p path i s s' r hI h)
    (fun _ h => h) fuel lower (fun _ _ _ _ _ h => h) stA st early ⟨hname, hpath⟩ hloop).1

/-- The loop of `Refresh` is never left by the `return` that follows a non-nil `funcErr`. -/
theorem refreshLoop_not_early (w : World) (sd : Option (Str × Str)) (fuel : Nat)
    (roots : List Str) (st st' : WalkState) (early : Bool)
    (h : refreshLoop w sd fuel roots st = .ok (early, st')) : early = false :=
  (refreshLoop_invariant w sd (fun _ => True) (fun _ => True) (fun _ _ _ _ _ _ _ _ => trivial)
    (fun _ _ _ _ => trivial) (fun _ _ _ _ _ _ _ _ _ _ => trivial) (fun _ _ => trivial) fuel
    roots (fun _ _ _ _ _ _ => trivial) st st' early trivial h).2

theorem reaches_trans (w : World) (a b c : Str) (h1 : Reaches w a b) (h2 : Reaches w b c) :
    Reaches w a c := by
  induction h1 with
  | self p => exact h2
  | down d i names n p hl hd hw hr hn _ ih => exact Reaches.down d i names n c hl hd hw hr hn (ih h2)

/-- An invariant of the walk of the directory `A` when no entry is a symbolic link: it is
enough that the walk function keeps it at the entries reached from `A`. -/
theorem run_within (w : World) (cx : RootCtx) (A : Str) (I : WalkState → Prop)
    (hno : ∀ q l, w.lstat q = .ok l → l.isSymlink = false)
    (hentry : ∀ path i st r st', Reaches w A path → w.lstat path = .ok i → I st →
      walkerEntry w cx path (some i) st = .ok (r, st') → I st') :
    ∀ (fuel : Nat) (call : Call) (st st' : WalkState) (r : Option GoError),
      call.Within w A → I st → run w cx fuel call st = .ok (r, st') → I st' := by
  intro fuel
  induction fuel with
  | zero => intro call st st' r _ _ h; simp [run] at h
  | succ fuel ih =>
    intro call st st' r hs hI h
    cases call with
    | templateWalker path info err =>
      cases err with
      | some e =>
        simp only [run, Res.ok.injEq, Prod.mk.injEq] at h
        obtain ⟨rfl, rfl⟩ := h
        exact hI
      | none =>
        obtain ⟨⟨i, rfl, hl⟩, hreach⟩ := hs rfl
        simp only [run, hl, hno path i hl, Bool.false_eq_true, if_false] at h
        exact hentry path i st r st' hreach hl hI h
    | Walk root =>
      have hroot : root = A := hs
      subst hroot
      simp only [run] at h
      split at h
      · rw [Res.bind_eq_ok] at h
        obtain ⟨⟨r1, st1⟩, hrun, h⟩ := h
        have h1 := ih _ st st1 r1 (by intro hc; simp at hc) hI hrun
        simp only [Res.ok.injEq, Prod.mk.injEq] at h
        obtain ⟨-, rfl⟩ := h
        exact h1
      · rename_i info hl
        rw [Res.bind_eq_ok] at h
        obtain ⟨⟨r1, st1⟩, hrun, h⟩ := h
        have h1 := ih (.walk root info) st st1 r1 ⟨hl, Reaches.self root⟩ hI hrun
        simp only [Res.ok.injEq, Prod.mk.injEq] at h
        obtain ⟨-, rfl⟩ := h
        exact h1
    | walk path info =>
      obtain ⟨hl, hreach⟩ := hs
      simp only [run] at h
      split at h
      · exact ih (.templateWalker path (some info) none) st st' r
          (fun _ => ⟨⟨info, rfl, hl⟩, hreach⟩) hI h
      · rename_i hdir
        have hdir' : info.isDir = true := by simpa using hdir
        split at h
        · exact ih _ st st' r (by intro hc; simp at hc) hI h
        · rename_i names hnames
          rw [Res.bind_eq_ok] at h
          obtain ⟨⟨r1, st1⟩, hrun, h⟩ := h
          have h1 := ih (.templateWalker path (some info) none) st st1 r1
            (fun _ => ⟨⟨info, rfl, hl⟩, hreach⟩) hI hrun
          simp only at h
          split at h
          · simp only [Res.ok.injEq, Prod.mk.injEq] at h
            obtain ⟨-, rfl⟩ := h
            exact h1
          · rename_i hr1
            have hr1' : r1 = none := by simpa using hr1
            subst hr1'
            have hwatch : WatchDir info = true := by
              cases fuel with
              | zero => simp [run] at hrun
              | succ m =>
                simp only [run, hl, hno path info hl, Bool.false_eq_true, if_false,
                  walkerEntry, hdir', if_true] at hrun
                by_contra hw
                simp [hw] at hrun
            exact ih (.walkNames path names) st1 st' r
              ⟨hreach, info, names, hl, hdir', hwatch, hnames, fun n hn => hn⟩ h1 h
    | walkNames path names =>
      obtain ⟨hreach, i, all, hl, hdir, hwatch, hall, hsub⟩ := hs
      cases names with
      | nil =>
        simp only [run, Res.ok.injEq, Prod.mk.injEq] at h
        obtain ⟨-, rfl⟩ := h
        exact hI
      | cons name rest =>
        have hrest : Call.Within w A (.walkNames path rest) :=
          ⟨hreach, i, all, hl, hdir, hwatch, hall, fun n hn => hsub n (by simp [hn])⟩
        simp only [run] at h
        split at h
        · rw [Res.bind_eq_ok] at h
          obtain ⟨⟨r1, st1⟩, hrun, h⟩ := h
          have h1 := ih _ st st1 r1 (by intro hc; simp at hc) hI hrun
          simp only at h
          split at h
          · simp only [Res.ok.injEq, Prod.mk.injEq] at h
            obtain ⟨-, rfl⟩ := h
            exact h1
          · exact ih (.walkNames path rest) st1 st' r hrest h1 h
        · rename_i fileInfo hlf
          rw [Res.bind_eq_ok] at h
          obtain ⟨⟨r1, st1⟩, hrun, h⟩ := h
          have hreach' : Reaches w A (w.join path name) :=
            reaches_trans w A path _ hreach
              (Reaches.down path i all name _ hl hdir hwatch hall (hsub name (by simp))
                (Reaches.self _))
          have h1 := ih (.walk _ fileInfo) st st1 r1 ⟨hlf, hreach'⟩ hI hrun
          simp only at h
          split at h
          · simp only [Res.ok.injEq, Prod.mk.injEq] at h
            obtain ⟨-, rfl⟩ := h
            exact h1
          · exact ih (.walkNames path rest) st1 st' r hrest h1 h

/-- The walk function, called on an entry reached from the root `b` while names are cut
relative to `b`, keeps the property that every recorded name belongs to a file that one of
`roots` contains. -/
theorem from_roots_by_entry (w : World) (roots : List Str) (b : Str) (hb : b ∈ roots)
    (cx : RootCtx) (path : Str) (i : FileInfo) (st st' : WalkState) (r : Option GoError)
    (hreach : Reaches w b path) (hl : w.lstat path = .ok i)
    (hI : (∀ k c, st.templateNames.get? k = some c →
        k = w.toLower c ∧ ∃ a p name, a ∈ roots ∧ Contains w a p name ∧
          c = forwardSlashes w name ∧ st.templatePaths.get? c = some p) ∧
      st.fullSrcDir = b)
    (h : walkerEntry w cx path (some i) st = .ok (r, st')) :
    (∀ k c, st'.templateNames.get? k = some c →
        k = w.toLower c ∧ ∃ a p name, a ∈ roots ∧ Contains w a p name ∧
          c = forwardSlashes w name ∧ st'.templatePaths.get? c = some p) ∧
      st'.fullSrcDir = b := by
  obtain ⟨-, hd, -, hcase⟩ := walkerEntry_cases w cx path i st st' r h
  refine ⟨?_, hd.trans hI.2⟩
  rcases hcase with ⟨hn, hp⟩ | ⟨hdir, hwatch, name, hslice, hnone, hn, hp⟩
  · rw [hn, hp]; exact hI.1
  · intro k c hk
    rw [hn, StrMap.get?_set] at hk
    rw [hp]
    by_cases hkn : k = w.toLower (forwardSlashes w name)
    · rw [if_pos hkn] at hk
      cases hk
      refine ⟨hkn, b, path, name, hb, ⟨hreach, ⟨i, hl, hdir, hwatch⟩, ?_⟩, rfl, ?_⟩
      · rw [← hI.2]; exact hslice
      · rw [StrMap.get?_set, if_pos rfl]
    · rw [if_neg hkn] at hk
      obtain ⟨hkc, a, p, nm, ha, hcont, hc, hpath⟩ := hI.1 k c hk
      refine ⟨hkc, a, p, nm, ha, hcont, hc, ?_⟩
      have hne : c ≠ forwardSlashes w name := by
        intro heq
        exact hkn (by rw [hkc, heq])
      rw [StrMap.get?_set, if_neg hne]
      exact hpath

/-- When no entry is a symbolic link, the walk of some of the roots keeps the property that
every recorded name belongs to a file that one of `roots` contains. -/
theorem refreshLoop_from_roots (w : World) (sd : Option (Str × Str))
    (hno : ∀ q l, w.lstat q = .ok l → l.isSymlink = false) (fuel : Nat) (roots : List Str) :
    ∀ (walked : List Str) (st st' : WalkState) (early : Bool),
      (∀ b ∈ walked, b ∈ roots) →
      (∀ k c, st.templateNames.get? k = some c →
        k = w.toLower c ∧ ∃ a p name, a ∈ roots ∧ Contains w a p name ∧
          c = forwardSlashes w name ∧ st.templatePaths.get? c = some p) →
      refreshLoop w sd fuel walked st = .ok (early, st') →
      ∀ k c, st'.templateNames.get? k = some c →
        k = w.toLower c ∧ ∃ a p name, a ∈ roots ∧ Contains w a p name ∧
          c = forwardSlashes w name ∧ st'.templatePaths.get? c = some p := by
  intro walked
  induction walked with
  | nil =>
    intro st st' early _ hJ h
    simp only [refreshLoop, Res.ok.injEq, Prod.mk.injEq] at h
    obtain ⟨-, rfl⟩ := h
    exact hJ
  | cons basePath rest ih =>
    intro st st' early hsub hJ h
    simp only [refreshLoop] at h
    rw [Res.bind_eq_ok] at h
    obtain ⟨d, hd, h⟩ := h
    have hdb := rootSrcDir_of_no_links w basePath d hno hd
    subst hdb
    rw [Res.bind_eq_ok] at h
    obtain ⟨⟨funcErr, st1⟩, hrun, h⟩ := h
    have h1 := run_within w _ d
      (fun s => (∀ k c, s.templateNames.get? k = some c →
        k = w.toLower c ∧ ∃ a p name, a ∈ roots ∧ Contains w a p name ∧
          c = forwardSlashes w name ∧ s.templatePaths.get? c = some p) ∧ s.fullSrcDir = d)
      hno
      (fun path i s r s' hreach hl hI hw =>
        from_roots_by_entry w roots d (hsub d (by simp)) _ path i s s' r hreach hl hI hw)
      fuel (.Walk d) { st with fullSrcDir := d } st1 funcErr rfl ⟨hJ, rfl⟩ hrun
    simp only at h
    split at h
    · exact ih st1 st' early (fun b hb => hsub b (by simp [hb])) h1.1 h
    · simp only [Res.ok.injEq, Prod.mk.injEq] at h
      obtain ⟨-, rfl⟩ := h
      exact h1.1
    · exact absurd h (by simp)

/-- The normalization of a name: on a platform whose separator is the backslash every
backslash becomes a forward slash and none remains; elsewhere the name is left as it is. -/
theorem forwardSlashes_spec (w : World) (name : Str) :
    (w.pathSeparator = '\\' →
      forwardSlashes w name = name.map (fun c => if c = '\\' then '/' else c) ∧
      '\\' ∉ forwardSlashes w name) ∧
    (w.pathSeparator ≠ '\\' → forwardSlashes w name = name) := by
  constructor
  · intro h
    have h1 : forwardSlashes w name = name.map (fun c => if c = '\\' then '/' else c) := by
      simp [forwardSlashes, h, replaceChar]
    refine ⟨h1, ?_⟩
    rw [h1]
    intro hmem
    obtain ⟨c, -, hc⟩ := List.mem_map.mp hmem
    by_cases hcb : c = '\\'
    · rw [if_pos hcb] at hc
      exact absurd hc (by decide)
    · rw [if_neg hcb] at hc
      exact hcb hc
  · intro h
    simp [forwardSlashes, h]

/-- When no entry is a symbolic link, every name that `Refresh` records is the name, relative
to a root and with separators normalized, of a file that this root contains, and the path
recorded for it is the path of that file. -/
theorem refresh_names_from_roots (w : World)
    (hno : ∀ q l, w.lstat q = .ok l → l.isSymlink = false) (fuel : Nat)
    (loader loader' : TemplateLoader) (ret : Option Error)
    (hR : loader.Refresh w fuel = .ok (loader', ret)) :
    ∀ k c, loader'.templateNames.get? k = some c →
      k = w.toLower c ∧ ∃ a p name, a ∈ loader.paths ∧ Contains w a p name ∧
        c = forwardSlashes w name ∧ loader'.templatePaths.get? c = some p := by
  unfold TemplateLoader.Refresh at hR
  rw [Res.bind_eq_ok] at hR
  obtain ⟨sd, -, hR⟩ := hR
  rw [Res.bind_eq_ok] at hR
  obtain ⟨⟨early, st⟩, hloop, hR⟩ := hR
  simp only [Res.ok.injEq, Prod.mk.injEq] at hR
  obtain ⟨rfl, -⟩ := hR
  exact refreshLoop_from_roots w sd hno fuel loader.paths loader.paths initialWalkState st early
    (fun b hb => hb) (by intro k c h; simp [initialWalkState, StrMap.get?] at h) hloop

/-- When no entry is a symbolic link and `Refresh` returns, the name recorded for the
lower-case form of a file's name is the name of a file of the first root that contains a file
of that lower-case name, and the path recorded is the path of that file. -/
theorem refresh_first_root (w : World)
    (hno : ∀ q l, w.lstat q = .ok l → l.isSymlink = false)
    (fuel : Nat) (loader loader' : TemplateLoader) (ret : Option Error)
    (pre : List Str) (A : Str) (post : List Str) (p name : Str)
    (hpaths : loader.paths = pre ++ A :: post)
    (hR : loader.Refresh w fuel = .ok (loader', ret))
    (hpre : ∀ b ∈ pre, ∀ q n, Contains w b q n →
      w.toLower (forwardSlashes w n) ≠ w.toLower (forwardSlashes w name))
    (hA : Contains w A p name) :
    ∃ c p' name', loader'.templateNames.get? (w.toLower (forwardSlashes w name)) = some c ∧
      loader'.templatePaths.get? c = some p' ∧ Contains w A p' name' ∧
      c = forwardSlashes w name' ∧ w.toLower c = w.toLower (forwardSlashes w name) := by
  have hR' := hR
  unfold TemplateLoader.Refresh at hR
  rw [Res.bind_eq_ok] at hR
  obtain ⟨sd, hsd, hR⟩ := hR
  rw [Res.bind_eq_ok] at hR
  obtain ⟨⟨early, st⟩, hloop, -⟩ := hR
  have hpaths' : loader.paths = (pre ++ [A]) ++ post := by rw [hpaths]; simp
  rw [hpaths', refreshLoop_append, Res.bind_eq_ok] at hloop
  obtain ⟨⟨e1, stA⟩, hloopA, -⟩ := hloop
  have he1 := refreshLoop_not_early w sd fuel _ _ stA e1 hloopA
  subst he1
  have hloopA' := hloopA
  rw [refreshLoop_append, Res.bind_eq_ok] at hloopA'
  obtain ⟨⟨e0, st0⟩, hloop0, hloop1⟩ := hloopA'
  have he0 := refreshLoop_not_early w sd fuel _ _ st0 e0 hloop0
  subst he0
  obtain ⟨hreach, ⟨i, hl, hdir, hwatch⟩, hslice⟩ := hA
  -- the walk of `A` leaves a registration under the lower-case name
  obtain ⟨nm, hnm, hsome⟩ := refreshLoop_registers_reachable w sd hno fuel A p i hreach hl hdir
    hwatch (pre ++ [A]) initialWalkState stA false (by simp) hloopA
  rw [hslice] at hnm
  cases hnm
  cases hc : stA.templateNames.get? (w.toLower (forwardSlashes w name)) with
  | none => rw [hc] at hsome; exact absurd hsome (by simp)
  | some c =>
    obtain ⟨hkc, a, p', name', ha, hcont, hcn, hpath⟩ :=
      refreshLoop_from_roots w sd hno fuel (pre ++ [A]) (pre ++ [A]) initialWalkState stA false
        (fun b hb => hb) (by intro k c h; simp [initialWalkState, StrMap.get?] at h) hloopA _ c hc
    have haA : a = A := by
      rcases List.mem_append.mp ha with hin | hin
      · exfalso
        apply hpre a hin p' name' hcont
        rw [← hcn, ← hkc]
      · simpa using hin
    subst haA
    have hcc : stA.templateNames.get? (w.toLower c) = some c := by rw [← hkc]; exact hc
    have hfin := refresh_retains w fuel loader loader' (pre ++ [a]) post sd stA ret c p'
      hpaths' hsd hloopA hcc hpath hR'
    exact ⟨c, p', name', by rw [hkc]; exact hfin.1, hfin.2, hcont, hcn, hkc.symm⟩

/-- The outcomes of `addTemplate` when the function table is accepted: nil, or the text of
the parse error of a file that was not yet registered, was read and, after the haml
preprocessing when its name ends in `.haml`, handed to the parser. -/
theorem addTemplate_error (w : World) (cx : RootCtx) (path name : Str) (st st' : WalkState)
    (err : Option GoError) (fileStr : Str) (hf : w.funcsPanic = none)
    (h : addTemplate w cx path name st = .ok (err, fileStr, st')) :
    err = none ∨
    (∃ bytes msg,
      st.templateNames.get? (w.toLower (forwardSlashes w name)) = none ∧
      w.readFile path = .ok bytes ∧
      (if isHaml (forwardSlashes w name) then hamlPreprocess w bytes else .ok bytes) =
        .ok fileStr ∧
      w.parse (st.templateSet.getD []) (delimsFor w cx).1 (delimsFor w cx).2
        (forwardSlashes w name) fileStr = some msg ∧
      err = some (.text msg)) := by
  unfold addTemplate at h
  simp only at h
  split at h
  · simp only [Res.ok.injEq, Prod.mk.injEq] at h
    exact Or.inl h.1.symm
  · rename_i hreg
    have hnone : st.templateNames.get? (w.toLower (forwardSlashes w name)) = none := by
      simpa using hreg
    split at h
    · simp only [Res.ok.injEq, Prod.mk.injEq] at h
      exact Or.inl h.1.symm
    · rename_i bytes hread
      rw [Res.bind_eq_ok] at h
      obtain ⟨fs, hpre, h⟩ := h
      split at h
      · rename_i hset
        simp only [hf] at h
        simp only [Res.ok.injEq, Prod.mk.injEq] at h
        obtain ⟨herr, hfs, -⟩ := h
        subst hfs
        cases hp : w.parse [] (delimsFor w cx).1 (delimsFor w cx).2 (forwardSlashes w name) fs with
        | none => left; rw [← herr, hp]; rfl
        | some msg =>
          right
          refine ⟨bytes, msg, hnone, hread, hpre, ?_, ?_⟩
          · rw [hset]; exact hp
          · rw [← herr, hp]; rfl
      · rename_i set hset
        simp only [Res.ok.injEq, Prod.mk.injEq] at h
        obtain ⟨herr, hfs, -⟩ := h
        subst hfs
        cases hp : w.parse set (delimsFor w cx).1 (delimsFor w cx).2 (forwardSlashes w name) fs with
        | none => left; rw [← herr, hp]; rfl
        | some msg =>
          right
          refine ⟨bytes, msg, hnone, hread, hpre, ?_, ?_⟩
          · rw [hset]; exact hp
          · rw [← herr, hp]; rfl

/-- What the walk function does to the compile error when the function table is accepted: it
leaves it as it is, unless none is held and the entry is a file, not yet registered, that is
read and whose text, after the haml preprocessing when the name ends in `.haml`, does not
parse; the error is then built from that file. -/
theorem walkerEntry_compile_error (w : World) (cx : RootCtx) (path : Str) (i : FileInfo)
    (st st' : WalkState) (r : Option GoError) (hf : w.funcsPanic = none)
    (h : walkerEntry w cx path (some i) st = .ok (r, st')) :
    st'.compileError = st.compileError ∨
    (st.compileError = none ∧ i.isDir = false ∧ WatchFile i.name = true ∧
      ∃ name bytes text msg tn line desc,
        sliceFrom path (st.fullSrcDir.length + 1) = some name ∧
        st.templateNames.get? (w.toLower (forwardSlashes w name)) = none ∧
        w.readFile path = .ok bytes ∧
        (if isHaml (forwardSlashes w name) then hamlPreprocess w bytes else .ok bytes) =
          .ok text ∧
        w.parse (st.templateSet.getD []) (delimsFor w cx).1 (delimsFor w cx).2
          (forwardSlashes w name) text = some msg ∧
        parseTemplateError msg = .ok (tn, line, desc) ∧
        st'.compileError = some
          { Title := "Template Compilation Error".toList, Path := name, Line := line,
            Description := desc, SourceLines := splitChar '\n' text }) := by
  unfold walkerEntry at h
  simp only at h
  split at h
  · split at h <;>
      · simp only [Res.ok.injEq, Prod.mk.injEq] at h
        obtain ⟨-, rfl⟩ := h
        exact Or.inl rfl
  · rename_i hdir
    split at h
    · simp only [Res.ok.injEq, Prod.mk.injEq] at h
      obtain ⟨-, rfl⟩ := h
      exact Or.inl rfl
    · rename_i hwatch
      split at h
      · exact absurd h (by simp)
      · rename_i name hname
        rw [Res.bind_eq_ok] at h
        obtain ⟨⟨err, fileStr, st1⟩, hadd, h⟩ := h
        have hce := addTemplate_cases w cx path name st st1 err fileStr hadd
        have hce1 : st1.compileError = st.compileError := by
          rcases hce with ⟨-, rfl, -⟩ | ⟨-, -, -, hc, -⟩
          · rfl
          · exact hc
        rcases addTemplate_error w cx path name st st1 err fileStr hf hadd with rfl | hparse
        · simp only [Res.ok.injEq, Prod.mk.injEq] at h
          obtain ⟨-, rfl⟩ := h
          exact Or.inl hce1
        · obtain ⟨bytes, msg, hnone, hread, hpre, hparse, rfl⟩ := hparse
          cases hst : st.compileError with
          | some e0 =>
            rw [hst] at hce1
            simp only [hce1, Res.ok.injEq, Prod.mk.injEq] at h
            obtain ⟨-, rfl⟩ := h
            exact Or.inl hce1
          | none =>
            rw [hst] at hce1
            simp only [hce1] at h
            rw [Res.bind_eq_ok] at h
            obtain ⟨⟨tn, line, desc⟩, hpte, h⟩ := h
            simp only [Res.ok.injEq, Prod.mk.injEq] at h
            obtain ⟨-, rfl⟩ := h
            right
            refine ⟨rfl, by simpa using hdir, by simpa using hwatch, name, bytes, fileStr, msg,
              tn, line, desc, hname, hnone, hread, hpre, hparse, hpte, rfl⟩

/-- The walk function on a file, not yet registered, whose text does not parse: the file is
registered, nil is returned, and the compile error is the one already held or else the one
built from the file. -/
theorem walkerEntry_parse_failure (w : World) (cx : RootCtx)
    (path name bytes text msg tn desc : Str) (line : Int) (i : FileInfo) (st : WalkState)
    (hdir : i.isDir = false) (hwatch : WatchFile i.name = true)
    (hslice : sliceFrom path (st.fullSrcDir.length + 1) = some name)
    (hnew : st.templateNames.get? (w.toLower (forwardSlashes w name)) = none)
    (hread : w.readFile path = .ok bytes)
    (htext : (if isHaml (forwardSlashes w name) then hamlPreprocess w bytes else .ok bytes) =
      .ok text)
    (hfuncs : st.templateSet = none → w.funcsPanic = none)
    (hparse : w.parse (st.templateSet.getD []) (delimsFor w cx).1 (delimsFor w cx).2
      (forwardSlashes w name) text = some msg)
    (hpte : parseTemplateError msg = .ok (tn, line, desc)) :
    ∃ st', walkerEntry w cx path (some i) st = .ok (none, st') ∧
      st'.compileError = some (st.compileError.getD
        { Title := "Template Compilation Error".toList, Path := name, Line := line,
          Description := desc, SourceLines := splitChar '\n' text }) ∧
      st'.templateNames.get? (w.toLower (forwardSlashes w name)) =
        some (forwardSlashes w name) ∧
      st'.templatePaths.get? (forwardSlashes w name) = some path := by
  obtain ⟨st1, hadd, hce, -, hn, hp, -⟩ :=
    addTemplate_parse_failure w cx path name bytes text msg st hnew hread htext hfuncs hparse
  unfold walkerEntry
  simp only [hdir, hwatch, hslice, hadd, Res.bind, Bool.false_eq_true, if_false,
    Bool.not_true]
  cases hst : st.compileError with
  | some e0 =>
    rw [hst] at hce
    simp only [hce]
    exact ⟨st1, rfl, by simp [hce], by rw [hn, StrMap.get?_set, if_pos rfl],
      by rw [hp, StrMap.get?_set, if_pos rfl]⟩
  | none =>
    rw [hst] at hce
    simp only [hce, GoError.message, hpte]
    exact ⟨_, rfl, by simp, by simp only [hn, StrMap.get?_set, if_pos],
      by simp only [hp, StrMap.get?_set, if_pos]⟩

/-- When the function table is accepted, the compile error that `Refresh` leaves was built
from a file that `Refresh` registered and read and whose text, after the haml preprocessing
when the name ends in `.haml`, did not parse. -/
theorem refresh_compile_error_origin (w : World) (hf : w.funcsPanic = none) (fuel : Nat)
    (loader loader' : TemplateLoader) (ret : Option Error) (e : Error)
    (hR : loader.Refresh w fuel = .ok (loader', ret))
    (he : loader'.compileError = some e) :
    ∃ path name bytes text set l r msg tn line desc,
      w.readFile path = .ok bytes ∧
      (if isHaml (forwardSlashes w name) then hamlPreprocess w bytes else .ok bytes) =
        .ok text ∧
      w.parse set l r (forwardSlashes w name) text = some msg ∧
      parseTemplateError msg = .ok (tn, line, desc) ∧
      e = { Title := "Template Compilation Error".toList, Path := name, Line := line,
            Description := desc, SourceLines := splitChar '\n' text } ∧
      loader'.templateNames.get? (w.toLower (forwardSlashes w name)) =
        some (forwardSlashes w name) ∧
      loader'.templatePaths.get? (forwardSlashes w name) = some path := by
  unfold TemplateLoader.Refresh at hR
  rw [Res.bind_eq_ok] at hR
  obtain ⟨sd, -, hR⟩ := hR
  rw [Res.bind_eq_ok] at hR
  obtain ⟨⟨early, st⟩, hloop, hR⟩ := hR
  simp only [Res.ok.injEq, Prod.mk.injEq] at hR
  obtain ⟨rfl, -⟩ := hR
  have hinv := (refreshLoop_invariant w sd
    (fun s => ∀ e, s.compileError = some e →
      ∃ path name bytes text set l r msg tn line desc,
        w.readFile path = .ok bytes ∧
        (if isHaml (forwardSlashes w name) then hamlPreprocess w bytes else .ok bytes) =
          .ok text ∧
        w.parse set l r (forwardSlashes w name) text = some msg ∧
        parseTemplateError msg = .ok (tn, line, desc) ∧
        e = { Title := "Template Compilation Error".toList, Path := name, Line := line,
              Description := desc, SourceLines := splitChar '\n' text } ∧
        s.templateNames.get? (w.toLower (forwardSlashes w name)) =
          some (forwardSlashes w name) ∧
        s.templatePaths.get? (forwardSlashes w name) = some path)
    (fun s => ∀ e, s.compileError = some e →
      ∃ path name bytes text set l r msg tn line desc,
        w.readFile path = .ok bytes ∧
        (if isHaml (forwardSlashes w name) then hamlPreprocess w bytes else .ok bytes) =
          .ok text ∧
        w.parse set l r (forwardSlashes w name) text = some msg ∧
        parseTemplateError msg = .ok (tn, line, desc) ∧
        e = { Title := "Template Compilation Error".toList, Path := name, Line := line,
              Description := desc, SourceLines := splitChar '\n' text } ∧
        s.templateNames.get? (w.toLower (forwardSlashes w name)) =
          some (forwardSlashes w name) ∧
        s.templatePaths.get? (forwardSlashes w name) = some path)
    (fun _ _ _ _ h _ _ _ => h) (fun _ _ _ h => h)
    ?_ (fun _ h => h) fuel loader.paths (fun _ _ _ _ _ h => h) initialWalkState st early
    (by intro e h; simp [initialWalkState] at h) hloop).1
  · exact hinv e he
  · intro cx path i s r s' _ _ hI hw e' he'
    rcases walkerEntry_compile_error w cx path i s s' r hf hw with hsame | hnew
    · rw [hsame] at he'
      obtain ⟨p0, name, bytes, text, set, l, r0, msg, tn, line, desc, h1, h2, h3, h4, h5, h6, h7⟩ :=
        hI e' he'
      have hk := kept_by_entry w cx (forwardSlashes w name) p0 path i s s' r ⟨h6, h7⟩ hw
      exact ⟨p0, name, bytes, text, set, l, r0, msg, tn, line, desc, h1, h2, h3, h4, h5, hk.1,
        hk.2⟩
    · obtain ⟨hnone, hdir, hwatch, name, bytes, text, msg, tn, line, desc, hslice, hnew', hread,
        hpre, hparse, hpte, hce⟩ := hnew
      obtain ⟨s2, hw2, -, hn2, hp2⟩ := walkerEntry_parse_failure w cx path name bytes text msg tn
        desc line i s hdir hwatch hslice hnew' hread hpre (fun _ => hf) hparse hpte
      rw [hw] at hw2
      simp only [Res.ok.injEq, Prod.mk.injEq] at hw2
      obtain ⟨-, rfl⟩ := hw2
      rw [hce] at he'
      cases he'
      exact ⟨path, name, bytes, text, _, _, _, msg, tn, line, desc, hread, hpre, hparse, hpte, rfl,
        hn2, hp2⟩

/-! ## The claims -/

/-- C1, counterexample: root `/a` of `fsShadowed` contains `x.html`, but the walk of `/a` meets
a symbolic link to a hidden directory first and skips the rest of `/a`; `Refresh` records
`x.html` with the path of the file of the lower-priority root `/b`. -/
theorem first_root_shadowed_by_link :
    worldShadowed.readDirNames "/a".toList = .ok ["alink".toList, "x.html".toList] ∧
    worldShadowed.readFile "/a/x.html".toList = .ok "A".toList ∧
    (NewTemplateLoader ["/a".toList, "/b".toList]).Refresh worldShadowed 16 =
      .ok (loaderShadowed, none) ∧
    loaderShadowed.templateNames.get? "x.html".toList = some "x.html".toList ∧
    loaderShadowed.templatePaths.get? "x.html".toList = some "/b/x.html".toList :=
  ⟨rfl, rfl, by decide, by decide, by decide⟩

/-- C1, amended: (1) let `higher` be the roots walked first and `stA` the state once they are
walked: a name `c` that they registered with path `p` is recorded with the same canonical name
and the same path after the whole `Refresh`.  (2) In every state that holds `c`, registering a
name with the same lower-case form returns nil and leaves the state (templateNames,
templatePaths, the template set and the compile error) as it was, for `addTemplate` and for
the walk function alike.  (3) When no entry is a symbolic link: if root `A` contains a file
named `name` relative to it and no root walked before `A` contains a file whose name has the
same lower-case form, then the name that `Refresh` records under that lower-case form is the
name, relative to `A` and with separators normalized, of a file that `A` contains, and the
path recorded for it is the path of that file. -/
theorem refresh_keeps_first_registration (w : World) :
    (∀ (fuel : Nat) (loader loader' : TemplateLoader) (higher lower : List Str)
        (sd : Option (Str × Str)) (stA : WalkState) (ret : Option Error) (c p : Str),
      loader.paths = higher ++ lower → splitDelims w = .ok sd →
      refreshLoop w sd fuel higher initialWalkState = .ok (false, stA) →
      stA.templateNames.get? (w.toLower c) = some c → stA.templatePaths.get? c = some p →
      loader.Refresh w fuel = .ok (loader', ret) →
      loader'.templateNames.get? (w.toLower c) = some c ∧
        loader'.templatePaths.get? c = some p) ∧
    (∀ (c : Str) (cx : RootCtx) (path name : Str) (i : FileInfo) (st : WalkState),
      st.templateNames.get? (w.toLower c) = some c →
      w.toLower (forwardSlashes w name) = w.toLower c →
      addTemplate w cx path name st = .ok (none, [], st) ∧
      (i.isDir = false → WatchFile i.name = true →
        sliceFrom path (st.fullSrcDir.length + 1) = some name →
        walkerEntry w cx path (some i) st = .ok (none, st))) ∧
    ((∀ q l, w.lstat q = .ok l → l.isSymlink = false) →
      ∀ (fuel : Nat) (loader loader' : TemplateLoader) (ret : Option Error)
        (pre : List Str) (A : Str) (post : List Str) (p name : Str),
      loader.paths = pre ++ A :: post →
      loader.Refresh w fuel = .ok (loader', ret) →
      (∀ b ∈ pre, ∀ q n, Contains w b q n →
        w.toLower (forwardSlashes w n) ≠ w.toLower (forwardSlashes w name)) →
      Contains w A p name →
      ∃ c p' name',
        loader'.templateNames.get? (w.toLower (forwardSlashes w name)) = some c ∧
        loader'.templatePaths.get? c = some p' ∧ Contains w A p' name' ∧
        c = forwardSlashes w name' ∧
        w.toLower c = w.toLower (forwardSlashes w name)) := by
  refine ⟨?_, ?_, ?_⟩
  · intro fuel loader loader' higher lower sd stA ret c p hpaths hsd hA hname hpath hR
    exact refresh_retains w fuel loader loader' higher lower sd stA ret c p hpaths hsd hA
      hname hpath hR
  · intro c cx path name i st hreg hlow
    have hadd : addTemplate w cx path name st = .ok (none, [], st) := by
      unfold addTemplate
      simp [hlow, hreg]
    refine ⟨hadd, fun hdir hwatch hslice => ?_⟩
    unfold walkerEntry
    simp [hdir, hwatch, hslice, hadd, Res.bind]
  · intro hno fuel loader loader' ret pre A post p name hpaths hR hpre hA
    exact refresh_first_root w hno fuel loader loader' ret pre A post p name hpaths hR hpre hA

/-- C1, witness: in `fsPriority` the roots `/a` and `/b` both define `x.html`; after `Refresh`
the name is recorded with the path of `/a`, registering the file of `/b` changes nothing, and
what is recorded for `x.html` is a file of `/a`, the first root that contains it. -/
theorem refresh_keeps_first_registration_witness :
    (loaderPriority.templateNames.get? (worldPriority.toLower "x.html".toList) =
        some "x.html".toList ∧
      loaderPriority.templatePaths.get? "x.html".toList = some "/a/x.html".toList) ∧
    addTemplate worldPriority { basePath := "/b".toList, splitDelims := none }
        "/b/x.html".toList "x.html".toList { afterRootA with fullSrcDir := "/b".toList } =
      .ok (none, [], { afterRootA with fullSrcDir := "/b".toList }) ∧
    (∃ c p' name',
      loaderPriority.templateNames.get?
        (worldPriority.toLower (forwardSlashes worldPriority "x.html".toList)) = some c ∧
      loaderPriority.templatePaths.get? c = some p' ∧
      Contains worldPriority "/a".toList p' name' ∧
      c = forwardSlashes worldPriority name' ∧
      worldPriority.toLower c =
        worldPriority.toLower (forwardSlashes worldPriority "x.html".toList)) :=
  have h := refresh_keeps_first_registration worldPriority
  ⟨h.1 8 (NewTemplateLoader ["/a".toList, "/b".toList]) loaderPriority ["/a".toList]
      ["/b".toList] none afterRootA none "x.html".toList "/a/x.html".toList rfl (by decide)
      (by decide) (by decide) (by decide) (by decide),
   (h.2.1 "x.html".toList { basePath := "/b".toList, splitDelims := none } "/b/x.html".toList
      "x.html".toList { name := "x.html".toList, kind := .regular }
      { afterRootA with fullSrcDir := "/b".toList } (by decide) (by decide)).1,
   h.2.2 (demoWorld_no_links fsPriority some none (by decide)) 8
      (NewTemplateLoader ["/a".toList, "/b".toList]) loaderPriority none [] "/a".toList
      ["/b".toList] "/a/x.html".toList "x.html".toList rfl (by decide)
      (fun b hb => absurd hb (List.not_mem_nil b))
      ⟨Reaches.down "/a".toList { name := "a".toList, kind := .dir } ["x.html".toList]
          "x.html".toList "/a/x.html".toList rfl rfl rfl rfl (by decide) (Reaches.self _),
        ⟨{ name := "x.html".toList, kind := .regular }, rfl, rfl, rfl⟩, by decide⟩⟩

/-- C2, counterexample: two spellings of a name that is not registered have the same lower-case
form, yet `Template` returns two different errors, each quoting the spelling it was given. -/
theorem template_not_found_error_differs :
    (NewTemplateLoader ["/a".toList, "/b".toList]).Refresh worldCase 8 = .ok (loaderCase, none) ∧
    worldCase.toLower "BAR.html".toList = worldCase.toLower "bar.html".toList ∧
    loaderCase.Template worldCase "BAR.html".toList =
      .ok (.nil, some (.text "Template BAR.html not found.".toList)) ∧
    loaderCase.Template worldCase "bar.html".toList =
      .ok (.nil, some (.text "Template bar.html not found.".toList)) ∧
    loaderCase.Template worldCase "BAR.html".toList ≠
      loaderCase.Template worldCase "bar.html".toList := by
  decide

/-- C2, amended: for every loader state and all names `n1`, `n2` with the same lower-case form,
`Template` returns the same template, and the same error unless the name is not found while no
compile error is active: then both calls return a nil template and a not-found error that
quotes the name as it was given.  In `fsCase` (`Foo.html` under `/a`, `foo.html` under the
lower-priority `/b`), `Template("FOO.HTML")` returns the template of `/a`. -/
theorem template_lookup_ignores_case (w : World) (loader : TemplateLoader) (n1 n2 : Str)
    (h : w.toLower n1 = w.toLower n2) :
    (loader.Template w n1 = loader.Template w n2 ∨
      (loader.Template w n1 =
          .ok (.nil, some (.text ("Template ".toList ++ n1 ++ " not found.".toList))) ∧
        loader.Template w n2 =
          .ok (.nil, some (.text ("Template ".toList ++ n2 ++ " not found.".toList))))) ∧
    ((NewTemplateLoader ["/a".toList, "/b".toList]).Refresh worldCase 8 =
        .ok (loaderCase, none) ∧
      loaderCase.Template worldCase "FOO.HTML".toList =
        .ok (.goTemplate (some (tmplOf "Foo.html" "A" none)), none)) := by
  refine ⟨?_, by decide⟩
  unfold TemplateLoader.Template
  rw [h]
  cases loader.templateSet with
  | none => left; rfl
  | some set =>
    simp only
    split
    · right; exact ⟨rfl, rfl⟩
    · left; rfl

/-- C2, witness: `FOO.HTML` and `foo.html` in the loader of `fsCase`. -/
theorem template_lookup_ignores_case_witness :
    (loaderCase.Template worldCase "FOO.HTML".toList =
        loaderCase.Template worldCase "foo.html".toList ∨
      (loaderCase.Template worldCase "FOO.HTML".toList =
          .ok (.nil, some (.text ("Template ".toList ++ "FOO.HTML".toList ++
            " not found.".toList))) ∧
        loaderCase.Template worldCase "foo.html".toList =
          .ok (.nil, some (.text ("Template ".toList ++ "foo.html".toList ++
            " not found.".toList))))) ∧
    ((NewTemplateLoader ["/a".toList, "/b".toList]).Refresh worldCase 8 =
        .ok (loaderCase, none) ∧
      loaderCase.Template worldCase "FOO.HTML".toList =
        .ok (.goTemplate (some (tmplOf "Foo.html" "A" none)), none)) :=
  template_lookup_ignores_case worldCase loaderCase "FOO.HTML".toList "foo.html".toList
    (by decide)

/-- C3: with a function table that `Funcs` rejects, `Refresh` over root `/v` of `fsBroken`
returns normally and leaves a compile error and a nil template set; `Template` then panics on
the nil set instead of returning the compile error. -/
theorem template_panics_with_compile_error :
    (NewTemplateLoader ["/v".toList]).Refresh worldBadFuncs 8 =
      .ok (loaderBadFuncs, loaderBadFuncs.compileError) ∧
    loaderBadFuncs.compileError ≠ none ∧
    loaderBadFuncs.Template worldBadFuncs "errors/500.html".toList = .panic .nilDereference ∧
    loaderBadFuncs.Template worldBadFuncs "a.html".toList = .panic .nilDereference := by
  decide

/-- C4: after `Refresh` over a root without files the template set is nil and there is no
compile error; `Template("errors/500.html")` panics instead of returning the not-found
error. -/
theorem template_panics_on_empty_registry :
    (NewTemplateLoader ["/e".toList]).Refresh worldEmpty 8 =
      .ok (NewTemplateLoader ["/e".toList], none) ∧
    (NewTemplateLoader ["/e".toList]).compileError = none ∧
    (NewTemplateLoader ["/e".toList]).templateNames.get?
      (worldEmpty.toLower "errors/500.html".toList) = none ∧
    (NewTemplateLoader ["/e".toList]).Template worldEmpty "errors/500.html".toList =
      .panic .nilDereference := by
  decide

/-- With a template set, `Template` does not panic: it returns the compile error when one is
active, together with the template found under the canonical name, and the not-found error
when there is neither a compile error nor a template. -/
theorem template_of_set (w : World) (loader : TemplateLoader) (set : TemplateSet) (name : Str)
    (hset : loader.templateSet = some set) :
    (∀ e, loader.compileError = some e →
      loader.Template w name =
        .ok (.goTemplate (set.Lookup ((loader.templateNames.get? (w.toLower name)).getD [])),
          some (.revel e))) ∧
    (loader.compileError = none →
      set.Lookup ((loader.templateNames.get? (w.toLower name)).getD []) = none →
      loader.Template w name =
        .ok (.nil, some (.text ("Template ".toList ++ name ++ " not found.".toList)))) := by
  constructor
  · intro e he
    simp [TemplateLoader.Template, hset, he]
  · intro he hl
    simp [TemplateLoader.Template, hset, he, hl]

/-- C5, counterexample: (1) the file `e.haml` of `fsHaml` holds the single line `!x`; its
rendering by the haml engine does not parse, and the compile error left by `Refresh` carries
the two lines of the rendering, not the line of the file.  (2) Root `/v` of `fsBrokenLink`
holds `a.html`, which does not parse, a symbolic link to a hidden directory and `c.html`;
`Refresh` returns with the error of `a.html`, and `c.html` is not registered. -/
theorem compile_error_lines_and_skipped_file :
    ((NewTemplateLoader ["/h".toList]).Refresh worldHaml 8 =
        .ok (loaderHaml, loaderHaml.compileError) ∧
      worldHaml.readFile "/h/e.haml".toList = .ok "!x".toList ∧
      loaderHaml.compileError.map (fun e => e.SourceLines) =
        some ["!x".toList, "y".toList] ∧
      loaderHaml.compileError.map (fun e => e.SourceLines) ≠
        some (splitChar '\n' "!x".toList)) ∧
    ((NewTemplateLoader ["/v".toList]).Refresh worldBrokenLink 16 =
        .ok (loaderBrokenLink, loaderBrokenLink.compileError) ∧
      worldBrokenLink.readDirNames "/v".toList =
        .ok ["a.html".toList, "b".toList, "c.html".toList] ∧
      worldBrokenLink.readFile "/v/c.html".toList = .ok "C".toList ∧
      loaderBrokenLink.compileError.map (fun e => e.Path) = some "a.html".toList ∧
      loaderBrokenLink.templateNames.get? "c.html".toList = none ∧
      loaderBrokenLink.templatePaths.get? "c.html".toList = none) :=
  ⟨⟨by decide, rfl, by decide, by decide⟩, by decide, rfl, rfl, by decide, by decide, by decide⟩

/-- C5, amended, the function table being accepted: (1) when a file that is not yet registered
is read and the text handed to the parser (the file's text, or its haml preprocessing when the
name ends in `.haml`) does not parse, the walk function registers the file, returns nil so
that the walk goes on, and leaves as compile error the one already held or else the error
titled "Template Compilation Error" with the file's name relative to the walked directory as
Path, the line and description extracted by `parseTemplateError` and the lines of the text
handed to the parser as SourceLines.  (2, 3) A compile error once held is kept by every later
call of the walk and is the one the loader holds and `Refresh` returns.  (4) When no entry is
a symbolic link and `Refresh` returns, every file below a root, through directories whose
names do not begin with a dot, is registered, whatever files failed to parse.  (5) The walk
function changes the compile error in no other case than that of (1) with no error held; in
particular a file that cannot be read leaves it alone.  (6) The compile error that `Refresh`
leaves was built, as in (1), from a file that `Refresh` registered and whose text did not
parse. -/
theorem first_compile_error_is_kept (w : World) :
    (∀ (cx : RootCtx) (path name bytes text msg tn desc : Str) (line : Int) (i : FileInfo)
        (st : WalkState),
      i.isDir = false → WatchFile i.name = true →
      sliceFrom path (st.fullSrcDir.length + 1) = some name →
      st.templateNames.get? (w.toLower (forwardSlashes w name)) = none →
      w.readFile path = .ok bytes →
      (if isHaml (forwardSlashes w name) then hamlPreprocess w bytes else .ok bytes) =
        .ok text →
      (st.templateSet = none → w.funcsPanic = none) →
      w.parse (st.templateSet.getD []) (delimsFor w cx).1 (delimsFor w cx).2
        (forwardSlashes w name) text = some msg →
      parseTemplateError msg = .ok (tn, line, desc) →
      ∃ st', walkerEntry w cx path (some i) st = .ok (none, st') ∧
        st'.compileError = some (st.compileError.getD
          { Title := "Template Compilation Error".toList, Path := name, Line := line,
            Description := desc, SourceLines := splitChar '\n' text }) ∧
        st'.templateNames.get? (w.toLower (forwardSlashes w name)) =
          some (forwardSlashes w name) ∧
        st'.templatePaths.get? (forwardSlashes w name) = some path) ∧
    (∀ (cx : RootCtx) (fuel : Nat) (call : Call) (st st' : WalkState) (r : Option GoError)
        (e : Error),
      call.Sound w → st.compileError = some e → run w cx fuel call st = .ok (r, st') →
      st'.compileError = some e) ∧
    (∀ (fuel : Nat) (loader loader' : TemplateLoader) (ret : Option Error)
        (higher lower : List Str) (sd : Option (Str × Str)) (stA : WalkState) (e : Error),
      loader.paths = higher ++ lower → splitDelims w = .ok sd →
      refreshLoop w sd fuel higher initialWalkState = .ok (false, stA) →
      stA.compileError = some e → loader.Refresh w fuel = .ok (loader', ret) →
      loader'.compileError = some e ∧ ret = some e) ∧
    ((∀ q l, w.lstat q = .ok l → l.isSymlink = false) →
      ∀ (fuel : Nat) (loader loader' : TemplateLoader) (ret : Option Error) (b p : Str)
        (i : FileInfo),
      loader.Refresh w fuel = .ok (loader', ret) → b ∈ loader.paths → Reaches w b p →
      w.lstat p = .ok i → i.isDir = false → WatchFile i.name = true →
      ∃ name, sliceFrom p (b.length + 1) = some name ∧
        (loader'.templateNames.get? (w.toLower (forwardSlashes w name))).isSome = true) ∧
    (w.funcsPanic = none →
      ∀ (cx : RootCtx) (path : Str) (i : FileInfo) (st st' : WalkState) (r : Option GoError),
      walkerEntry w cx path (some i) st = .ok (r, st') →
      st'.compileError = st.compileError ∨
      (st.compileError = none ∧ i.isDir = false ∧ WatchFile i.name = true ∧
        ∃ name bytes text msg tn line desc,
          sliceFrom path (st.fullSrcDir.length + 1) = some name ∧
          st.templateNames.get? (w.toLower (forwardSlashes w name)) = none ∧
          w.readFile path = .ok bytes ∧
          (if isHaml (forwardSlashes w name) then hamlPreprocess w bytes else .ok bytes) =
            .ok text ∧
          w.parse (st.templateSet.getD []) (delimsFor w cx).1 (delimsFor w cx).2
            (forwardSlashes w name) text = some msg ∧
          parseTemplateError msg = .ok (tn, line, desc) ∧
          st'.compileError = some
            { Title := "Template Compilation Error".toList, Path := name, Line := line,
              Description := desc, SourceLines := splitChar '\n' text })) ∧
    (w.funcsPanic = none →
      ∀ (fuel : Nat) (loader loader' : TemplateLoader) (ret : Option Error) (e : Error),
      loader.Refresh w fuel = .ok (loader', ret) → loader'.compileError = some e →
      ∃ path name bytes text set l r msg tn line desc,
        w.readFile path = .ok bytes ∧
        (if isHaml (forwardSlashes w name) then hamlPreprocess w bytes else .ok bytes) =
          .ok text ∧
        w.parse set l r (forwardSlashes w name) text = some msg ∧
        parseTemplateError msg = .ok (tn, line, desc) ∧
        e = { Title := "Template Compilation Error".toList, Path := name, Line := line,
              Description := desc, SourceLines := splitChar '\n' text } ∧
        loader'.templateNames.get? (w.toLower (forwardSlashes w name)) =
          some (forwardSlashes w name) ∧
        loader'.templatePaths.get? (forwardSlashes w name) = some path) := by
  refine ⟨?_, ?_, ?_, ?_, ?_, ?_⟩
  · intro cx path name bytes text msg tn desc line i st hdir hwatch hslice hnew hread htext
      hfuncs hparse hpte
    exact walkerEntry_parse_failure w cx path name bytes text msg tn desc line i st hdir hwatch
      hslice hnew hread htext hfuncs hparse hpte
  · intro cx fuel call st st' r e hs hce h
    exact (run_invariant w cx (fun s => s.compileError = some e)
      (fun _ _ _ _ h _ _ _ => h) (fun _ _ _ h => h)
      (fun path i s r s' _ hI h => (walkerEntry_cases w cx path i s s' r h).2.2.1 e hI)
      fuel call st st' r hs hce h).1
  · intro fuel loader loader' ret higher lower sd stA e hpaths hsd hA hce hR
    obtain ⟨early, st, hloop, -, -, hc, hret⟩ :=
      refresh_after_roots w fuel loader loader' higher lower sd stA ret hpaths hsd hA hR
    have := (refreshLoop_invariant w sd (fun s => s.compileError = some e)
      (fun s => s.compileError = some e)
      (fun _ _ _ _ h _ _ _ => h) (fun _ _ _ h => h)
      (fun cx path i s r s' _ _ hI h => (walkerEntry_cases w cx path i s s' r h).2.2.1 e hI)
      (fun _ h => h) fuel lower (fun _ _ _ _ _ h => h) stA st early hce hloop).1
    exact ⟨hc.trans this, hret.trans this⟩
  · intro hno fuel loader loader' ret b p i hR hb hreach hp hnd hwatch
    exact refresh_registers_reachable w hno fuel loader loader' ret b p i hR hb hreach hp hnd
      hwatch
  · intro hf cx path i st st' r h
    exact walkerEntry_compile_error w cx path i st st' r hf h
  · intro hf fuel loader loader' ret e hR he
    exact refresh_compile_error_origin w hf fuel loader loader' ret e hR he

/-- C5, witness: of the three files of root `/v` of `fsBroken` only `b.html` does not parse;
the error built from it survives the walk of root `/u`, whose file does not parse either, and
it is the error that `Refresh` leaves. -/
theorem first_compile_error_is_kept_witness :
    (∃ st', walkerEntry worldBroken { basePath := "/v".toList, splitDelims := none }
        "/v/b.html".toList (some { name := "b.html".toList, kind := .regular }) beforeBroken =
          .ok (none, st') ∧
      st'.compileError = some (beforeBroken.compileError.getD
        { Title := "Template Compilation Error".toList, Path := "b.html".toList, Line := 1,
          Description := "unexpected bang".toList,
          SourceLines := splitChar '\n' "!B\nx".toList }) ∧
      st'.templateNames.get?
          (worldBroken.toLower (forwardSlashes worldBroken "b.html".toList)) =
        some (forwardSlashes worldBroken "b.html".toList) ∧
      st'.templatePaths.get? (forwardSlashes worldBroken "b.html".toList) =
        some "/v/b.html".toList) ∧
    afterBrokenAll.compileError = some errorBroken ∧
    (loaderBroken.compileError = some errorBroken ∧ some errorBroken = some errorBroken) ∧
    (∃ name, sliceFrom "/v/c.html".toList ("/v".toList.length + 1) = some name ∧
      (loaderBroken.templateNames.get?
        (worldBroken.toLower (forwardSlashes worldBroken name))).isSome = true) ∧
    (afterBrokenAll.compileError =
        ({ afterBroken with fullSrcDir := "/u".toList } : WalkState).compileError ∨
      (({ afterBroken with fullSrcDir := "/u".toList } : WalkState).compileError = none ∧
        ({ name := "u.html".toList, kind := .regular } : FileInfo).isDir = false ∧
        WatchFile ({ name := "u.html".toList, kind := .regular } : FileInfo).name = true ∧
        ∃ name bytes text msg tn line desc,
          sliceFrom "/u/u.html".toList
            (({ afterBroken with fullSrcDir := "/u".toList } : WalkState).fullSrcDir.length
              + 1) = some name ∧
          ({ afterBroken with fullSrcDir := "/u".toList } : WalkState).templateNames.get?
            (worldBroken.toLower (forwardSlashes worldBroken name)) = none ∧
          worldBroken.readFile "/u/u.html".toList = .ok bytes ∧
          (if isHaml (forwardSlashes worldBroken name) then hamlPreprocess worldBroken bytes
            else .ok bytes) = .ok text ∧
          worldBroken.parse
            (({ afterBroken with fullSrcDir := "/u".toList } : WalkState).templateSet.getD [])
            (delimsFor worldBroken { basePath := "/u".toList, splitDelims := none }).1
            (delimsFor worldBroken { basePath := "/u".toList, splitDelims := none }).2
            (forwardSlashes worldBroken name) text = some msg ∧
          parseTemplateError msg = .ok (tn, line, desc) ∧
          afterBrokenAll.compileError = some
            { Title := "Template Compilation Error".toList, Path := name, Line := line,
              Description := desc, SourceLines := splitChar '\n' text })) ∧
    (∃ path name bytes text set l r msg tn line desc,
      worldBroken.readFile path = .ok bytes ∧
      (if isHaml (forwardSlashes worldBroken name) then hamlPreprocess worldBroken bytes
        else .ok bytes) = .ok text ∧
      worldBroken.parse set l r (forwardSlashes worldBroken name) text = some msg ∧
      parseTemplateError msg = .ok (tn, line, desc) ∧
      errorBroken =
        { Title := "Template Compilation Error".toList, Path := name, Line := line,
          Description := desc, SourceLines := splitChar '\n' text } ∧
      loaderBroken.templateNames.get? (worldBroken.toLower (forwardSlashes worldBroken name)) =
        some (forwardSlashes worldBroken name) ∧
      loaderBroken.templatePaths.get? (forwardSlashes worldBroken name) = some path) :=
  have h := first_compile_error_is_kept worldBroken
  ⟨h.1 { basePath := "/v".toList, splitDelims := none } "/v/b.html".toList "b.html".toList
      "!B\nx".toList "!B\nx".toList "template: b.html:1: unexpected bang".toList
      "b.html".toList "unexpected bang".toList 1 { name := "b.html".toList, kind := .regular }
      beforeBroken (by decide) (by decide) (by decide) (by decide) rfl (by decide) (by decide)
      (by decide) (by decide),
   h.2.1 { basePath := "/u".toList, splitDelims := none } 8 (.Walk "/u".toList)
      { afterBroken with fullSrcDir := "/u".toList } afterBrokenAll none errorBroken trivial
      (by decide) (by decide),
   h.2.2.1 8 (NewTemplateLoader ["/v".toList, "/u".toList]) loaderBroken (some errorBroken)
      ["/v".toList] ["/u".toList] none afterBroken errorBroken rfl (by decide) (by decide)
      (by decide) (by decide),
   h.2.2.2.1 (demoWorld_no_links fsBroken some none (by decide)) 8
      (NewTemplateLoader ["/v".toList, "/u".toList]) loaderBroken (some errorBroken)
      "/v".toList "/v/c.html".toList { name := "c.html".toList, kind := .regular } (by decide)
      (by decide)
      (Reaches.down "/v".toList { name := "v".toList, kind := .dir }
        ["a.html".toList, "b.html".toList, "c.html".toList] "c.html".toList
        "/v/c.html".toList rfl rfl rfl rfl (by decide) (Reaches.self _))
      rfl rfl rfl,
   h.2.2.2.2.1 rfl { basePath := "/u".toList, splitDelims := none } "/u/u.html".toList
      { name := "u.html".toList, kind := .regular }
      { afterBroken with fullSrcDir := "/u".toList } afterBrokenAll none (by decide),
   h.2.2.2.2.2 rfl 8 (NewTemplateLoader ["/v".toList, "/u".toList]) loaderBroken
      (some errorBroken) errorBroken (by decide) (by decide)⟩

/-- C6, counterexample: the message has the stated form with `L = 9223372036854775808`, a
numeral beyond the range of `int`; the line returned is the largest `int`, not the value
of `L`. -/
theorem parseTemplateError_line_out_of_range :
    "template:a.html:9223372036854775808: boom".toList =
      ("template".toList ++ ':' :: "a.html".toList) ++
        ':' :: ("9223372036854775808".toList ++ ':' :: ' ' :: "boom".toList) ∧
    findLineMarker "template:a.html:9223372036854775808: boom".toList 0 = some (15, 36) ∧
    decimalValue "9223372036854775808".toList = 9223372036854775808 ∧
    parseTemplateError "template:a.html:9223372036854775808: boom".toList =
      .ok ("a.html".toList, 9223372036854775807, "boom".toList) := by
  decide

/-- C6, amended: for every message `P:N:L: D` where `P` has no colon, `L` is a non-empty
decimal numeral whose value fits Go's `int` (at most 2^63 - 1) and no `:<digits>:` occurs
before the one formed with `L`, `parseTemplateError` returns the name `N` trimmed of white
space, the value of `L` as line and `D` as description. -/
theorem parseTemplateError_wellFormed (P N L D : Str)
    (hP : ':' ∉ P) (hL : L ≠ []) (hdig : ∀ c ∈ L, c.isDigit = true)
    (hfit : decimalValue L ≤ maxInt)
    (hfirst : ∀ k, k < (P ++ ':' :: N).length →
      matchLineMarker (((P ++ ':' :: N) ++ ':' :: (L ++ ':' :: ' ' :: D)).drop k) = none) :
    parseTemplateError ((P ++ ':' :: N) ++ ':' :: (L ++ ':' :: ' ' :: D)) =
      .ok (trimSpace N, (decimalValue L : Int), D) := by
  have hfind : findLineMarker ((P ++ ':' :: N) ++ ':' :: (L ++ ':' :: ' ' :: D)) 0 =
      some ((P ++ ':' :: N).length, (P ++ ':' :: N).length + (L.length + 2)) := by
    rw [findLineMarker_skip _ _ 0 hfirst]
    simp only [findLineMarker, matchLineMarker_numeral L (' ' :: D) hL hdig, Nat.zero_add]
  generalize hpre : P ++ ':' :: N = pre at *
  have hnum : slice (pre ++ ':' :: (L ++ ':' :: ' ' :: D))
      (pre.length + 1) (pre.length + (L.length + 2) - 1) = some L := by
    have e1 : pre.length + (L.length + 2) - 1 = (pre ++ ':' :: L).length := by
      simp only [List.length_append, List.length_cons]; omega
    have e2 : pre ++ ':' :: (L ++ ':' :: ' ' :: D) = (pre ++ ':' :: L) ++ (':' :: ' ' :: D) := by simp
    have e3 : pre.length + 1 = (pre ++ [':']).length := by simp
    have e4 : pre ++ ':' :: L = (pre ++ [':']) ++ L := by simp
    rw [slice, if_pos (by simp only [List.length_append, List.length_cons]; omega), e1, e2,
      List.take_left, e3, e4, List.drop_left]
  have hname : slice (pre ++ ':' :: (L ++ ':' :: ' ' :: D)) 0 pre.length = some pre := by
    rw [slice, if_pos (by simp), List.take_left, List.drop_zero]
  have hdesc : sliceFrom (pre ++ ':' :: (L ++ ':' :: ' ' :: D))
      (pre.length + (L.length + 2) + 1) = some D := by
    have e1 : pre.length + (L.length + 2) + 1 = (pre ++ ':' :: (L ++ [':', ' '])).length := by
      simp only [List.length_append, List.length_cons, List.length_nil]; omega
    have e2 : pre ++ ':' :: (L ++ ':' :: ' ' :: D) = (pre ++ ':' :: (L ++ [':', ' '])) ++ D := by
      simp
    rw [sliceFrom, if_pos (by simp only [List.length_append, List.length_cons]; omega), e1, e2,
      List.drop_left]
  simp only [parseTemplateError, hfind, hnum, hname, hdesc, atoi_numeral L hL hdig hfit]
  subst hpre
  simp [indexOfChar_append P N hP]

/-- C6, witness: the message of the comment above `parseTemplateError`. -/
theorem parseTemplateError_wellFormed_witness :
    parseTemplateError
        "html/template:Application/Register.html:36: no such template \"footer.html\"".toList =
      .ok ("Application/Register.html".toList, 36,
        "no such template \"footer.html\"".toList) :=
  parseTemplateError_wellFormed "html/template".toList "Application/Register.html".toList
    "36".toList "no such template \"footer.html\"".toList (by decide) (by decide) (by decide)
    (by decide) (by decide)

/-- C7: with a function table that `Funcs` rejects, `Refresh` over root `/v` of `fsBroken`
stores an error titled "Template Compilation Error", not "Panic (Template Loader)", and goes
on to register the files `b.html` and `c.html` that follow the first one. -/
theorem bad_funcs_stored_as_compile_error :
    (NewTemplateLoader ["/v".toList]).Refresh worldBadFuncs 8 =
      .ok (loaderBadFuncs, loaderBadFuncs.compileError) ∧
    loaderBadFuncs.compileError.map (fun e => e.Title) =
      some "Template Compilation Error".toList ∧
    loaderBadFuncs.templateNames.get? "b.html".toList = some "b.html".toList ∧
    loaderBadFuncs.templateNames.get? "c.html".toList = some "c.html".toList := by
  decide

/-- C8: root `/s` of `fsDangling` holds a symbolic link whose target cannot be resolved,
followed by the file `b.html`; `Refresh` panics at the type assertion on the error returned
by the walk. -/
theorem dangling_symlink_panics :
    worldDangling.evalSymlinks "/s/a".toList = .error noEntry ∧
    worldDangling.readFile "/s/b.html".toList = .ok "B".toList ∧
    (NewTemplateLoader ["/s".toList]).Refresh worldDangling 8 = .panic .typeAssertion :=
  ⟨rfl, rfl, by decide⟩

/-- C9: root `/v` of `fsLinkedDir` reaches `/opt/w/a.html` through the symbolic link
`/v/shared/widgets`; the file is registered as `w/a.html`, its path relative to the parent of
the link's target, nothing is registered under its path relative to the root,
`shared/widgets/a.html`, and `Template` does not find that name. -/
theorem linked_dir_name_not_relative_to_root :
    worldLinkedDir.evalSymlinks "/v/shared/widgets".toList = .ok "/opt/w".toList ∧
    (NewTemplateLoader ["/v".toList]).Refresh worldLinkedDir 16 = .ok (loaderLinkedDir, none) ∧
    loaderLinkedDir.templatePaths.get? "w/a.html".toList = some "/opt/w/a.html".toList ∧
    loaderLinkedDir.templateNames.get? "shared/widgets/a.html".toList = none ∧
    loaderLinkedDir.templatePaths.get? "shared/widgets/a.html".toList = none ∧
    loaderLinkedDir.Template worldLinkedDir "shared/widgets/a.html".toList =
      .ok (.nil, some (.text "Template shared/widgets/a.html not found.".toList)) :=
  ⟨rfl, by decide, by decide, by decide, by decide, by decide⟩

/-- C10, counterexample: root `/v` of `fsHiddenLink` holds only the symbolic link `.cache`;
the walk follows it and `Refresh` registers the file `y.html` of its target. -/
theorem hidden_link_followed :
    worldHiddenLink.readDirNames "/v".toList = .ok [".cache".toList] ∧
    worldHiddenLink.lstat "/v/.cache".toList =
      .ok { name := ".cache".toList, kind := .symlink } ∧
    WatchFile ".cache".toList = false ∧
    (NewTemplateLoader ["/v".toList]).Refresh worldHiddenLink 16 =
      .ok (loaderHiddenLink, none) ∧
    loaderHiddenLink.templatePaths.get? "pub/y.html".toList = some "/opt/pub/y.html".toList :=
  ⟨rfl, rfl, by decide, by decide, by decide⟩

/-- C10, amended: `WatchDir` and `WatchFile` return false exactly for names that begin with a
dot; the walk of a directory whose name begins with a dot returns at once and leaves the state
as it was, so that nothing below it is registered; and every source path that `Refresh`
records is an entry that is not a directory and whose own name, as `Lstat` reports it for an
entry that is not a symbolic link and as `Stat` reports it for the resolved target of a
symbolic link, does not begin with a dot. -/
theorem hidden_entries_not_registered (w : World) :
    (∀ info : FileInfo, WatchDir info = false ↔ ∃ t, info.name = '.' :: t) ∧
    (∀ basename : Str, WatchFile basename = false ↔ ∃ t, basename = '.' :: t) ∧
    (∀ (cx : RootCtx) (fuel : Nat) (path : Str) (info : FileInfo) (st : WalkState),
      w.lstat path = .ok info → info.isDir = true → WatchDir info = false →
      ∃ r, run w cx (fuel + 2) (.walk path info) st = .ok (r, st)) ∧
    (∀ (fuel : Nat) (loader loader' : TemplateLoader) (ret : Option Error) (c p : Str),
      loader.Refresh w fuel = .ok (loader', ret) → loader'.templatePaths.get? c = some p →
      ∃ i, EntryInfo w p i ∧ i.isDir = false ∧ WatchFile i.name = true ∧
        ∀ t, i.name ≠ '.' :: t) := by
  have hfile : ∀ basename : Str, WatchFile basename = false ↔ ∃ t, basename = '.' :: t := by
    intro b
    cases b with
    | nil => simp [WatchFile, hasPrefix, List.isPrefixOf]
    | cons c t =>
      simp [WatchFile, hasPrefix, List.isPrefixOf]
      exact eq_comm
  refine ⟨fun info => hfile info.name, hfile, ?_, ?_⟩
  · intro cx fuel path info st hl hdir hwatch
    have hsym : info.isSymlink = false := by
      simp only [FileInfo.isDir, decide_eq_true_eq] at hdir
      simp [FileInfo.isSymlink, hdir]
    have hentry : walkerEntry w cx path (some info) st = .ok (some .skipDir, st) := by
      simp [walkerEntry, hdir, hwatch]
    have hwalker : ∀ n, run w cx (n + 1) (.templateWalker path (some info) none) st =
        .ok (some .skipDir, st) := by
      intro n
      simp only [run, hl, hsym, Bool.false_eq_true, if_false, hentry]
    have hstep : ∀ m, run w cx (m + 1) (.walk path info) st =
        match w.readDirNames path with
        | .error e => run w cx m (.templateWalker path (some info) (some (.text e))) st
        | .ok names =>
          (run w cx m (.templateWalker path (some info) none) st).bind fun (err1, st) =>
            if err1 ≠ none then .ok (err1, st) else run w cx m (.walkNames path names) st := by
      intro m
      simp only [run, hdir, Bool.not_true, Bool.false_eq_true, if_false]
    rw [hstep (fuel + 1)]
    cases w.readDirNames path with
    | error e => exact ⟨none, by simp only [run]⟩
    | ok names =>
      simp only [hwalker fuel, Res.bind]
      exact ⟨some .skipDir, by simp⟩
  · intro fuel loader loader' ret c p hR hc
    obtain ⟨-, i, hinfo, hdir, hwatch⟩ :=
      refresh_registered w fuel loader loader' ret hR c p hc
    refine ⟨i, hinfo, hdir, hwatch, fun t ht => ?_⟩
    have := (hfile i.name).mpr ⟨t, ht⟩
    rw [hwatch] at this
    exact absurd this (by simp)

/-- C10, witness: root `/v` of `fsHiddenDir` holds the directory `.git` with a file, and the
file `z.html`; the walk of `.git` changes nothing and only `z.html` is registered. -/
theorem hidden_entries_not_registered_witness :
    (WatchDir { name := ".git".toList, kind := .dir } = false ↔
      ∃ t, (".git".toList : Str) = '.' :: t) ∧
    (WatchFile ".git".toList = false ↔ ∃ t, (".git".toList : Str) = '.' :: t) ∧
    (∃ r, run worldHiddenDir { basePath := "/v".toList, splitDelims := none } (0 + 2)
      (.walk "/v/.git".toList { name := ".git".toList, kind := .dir })
      { initialWalkState with fullSrcDir := "/v".toList } =
        .ok (r, { initialWalkState with fullSrcDir := "/v".toList })) ∧
    (∃ i, EntryInfo worldHiddenDir "/v/z.html".toList i ∧ i.isDir = false ∧
      WatchFile i.name = true ∧ ∀ t, i.name ≠ '.' :: t) ∧
    (NewTemplateLoader ["/v".toList]).Refresh worldHiddenDir 8 = .ok (loaderHiddenDir, none) ∧
    loaderHiddenDir.templateNames.get? ".git/c.html".toList = none :=
  have h := hidden_entries_not_registered worldHiddenDir
  ⟨h.1 { name := ".git".toList, kind := .dir }, h.2.1 ".git".toList,
   h.2.2.1 { basePath := "/v".toList, splitDelims := none } 0 "/v/.git".toList
     { name := ".git".toList, kind := .dir }
     { initialWalkState with fullSrcDir := "/v".toList } rfl (by decide) (by decide),
   h.2.2.2 8 (NewTemplateLoader ["/v".toList]) loaderHiddenDir none "z.html".toList
     "/v/z.html".toList (by decide) (by decide),
   by decide, by decide⟩

/-- C11: for two loader states with the same roots, `Refresh` in the same world ends the same
way and, when it returns, leaves the same templateNames, templatePaths and compile error and
returns the same error; and a second `Refresh` of the loader it left returns that very loader
and the same error. -/
theorem refresh_rebuilds_from_scratch (w : World) (fuel : Nat) (l1 l2 : TemplateLoader)
    (h : l1.paths = l2.paths) :
    Res.map (fun r => (r.1.registry, r.2)) (l1.Refresh w fuel) =
      Res.map (fun r => (r.1.registry, r.2)) (l2.Refresh w fuel) ∧
    (∀ l' e, l1.Refresh w fuel = .ok (l', e) →
      l'.Refresh w fuel = .ok (l', e) ∧ l'.paths = l1.paths ∧ e = l'.compileError) := by
  constructor
  · unfold TemplateLoader.Refresh
    rw [h]
    cases splitDelims w with
    | ok sd =>
      simp only [Res.bind]
      cases refreshLoop w sd fuel l2.paths initialWalkState with
      | ok a => rfl
      | _ => rfl
    | _ => rfl
  · intro l' e hR
    have hR' := hR
    unfold TemplateLoader.Refresh at hR
    rw [Res.bind_eq_ok] at hR
    obtain ⟨sd, hsd, hR⟩ := hR
    rw [Res.bind_eq_ok] at hR
    obtain ⟨⟨early, st⟩, hloop, hR⟩ := hR
    have hearly := refreshLoop_not_early w sd fuel l1.paths initialWalkState st early hloop
    subst hearly
    simp only [Res.ok.injEq, Prod.mk.injEq] at hR
    obtain ⟨rfl, rfl⟩ := hR
    refine ⟨?_, rfl, rfl⟩
    unfold TemplateLoader.Refresh
    simp only [hsd, Res.bind, hloop]
    rfl

/-- C11, witness: in `fsPriority`, `Refresh` of the fresh loader and `Refresh` of the loader
that a first `Refresh` left give the same names, paths and compile error. -/
theorem refresh_rebuilds_from_scratch_witness :
    Res.map (fun r => (r.1.registry, r.2))
        ((NewTemplateLoader ["/a".toList, "/b".toList]).Refresh worldPriority 8) =
      Res.map (fun r => (r.1.registry, r.2)) (loaderPriority.Refresh worldPriority 8) ∧
    (loaderPriority.Refresh worldPriority 8 = .ok (loaderPriority, none) ∧
      loaderPriority.paths = (NewTemplateLoader ["/a".toList, "/b".toList]).paths ∧
      none = loaderPriority.compileError) :=
  have h := refresh_rebuilds_from_scratch worldPriority 8
    (NewTemplateLoader ["/a".toList, "/b".toList]) loaderPriority rfl
  ⟨h.1, h.2 loaderPriority none (by decide)⟩

theorem lastNamed_of_absent (name : Str) (tpl : Option Tmpl) (l : List Tmpl)
    (h : ∀ t ∈ l, t.name ≠ name) : lastNamed name tpl l = tpl := by
  induction l generalizing tpl with
  | nil => rfl
  | cons t rest ih =>
    have ht : t.name ≠ name := h t (by simp)
    simp only [lastNamed, if_neg ht]
    exact ih tpl (fun u hu => h u (by simp [hu]))

/-- The template that the loop of `content` finds, when it was not found before the loop, is a
template of the list that has the name. -/
theorem lastNamed_mem (name : Str) (tpl0 : Option Tmpl) (l : List Tmpl) (tpl : Tmpl)
    (h : lastNamed name tpl0 l = some tpl) :
    (tpl ∈ l ∧ tpl.name = name) ∨ tpl0 = some tpl := by
  induction l generalizing tpl0 with
  | nil => exact Or.inr h
  | cons t rest ih =>
    simp only [lastNamed] at h
    rcases ih _ h with hm | h0
    · exact Or.inl ⟨by simp [hm.1], hm.2⟩
    · by_cases ht : t.name = name
      · rw [if_pos ht] at h0
        cases h0
        exact Or.inl ⟨by simp, ht⟩
      · rw [if_neg ht] at h0
        exact Or.inr h0

/-- What `Template` returns when no compile error is active and the name is found. -/
theorem template_found (w : World) (loader : TemplateLoader) (name : Str) (t : Tmpl)
    (hce : loader.compileError = none) (h : loader.find w name = some t) :
    loader.Template w name = .ok (.goTemplate (some t), none) := by
  unfold TemplateLoader.find at h
  cases hset : loader.templateSet with
  | none => simp [hset] at h
  | some set =>
    simp only [hset, Option.some_bind] at h
    simp [TemplateLoader.Template, hset, hce, h]

/-- What `Template` returns when no compile error is active and the name is not found. -/
theorem template_missing (w : World) (loader : TemplateLoader) (set : TemplateSet) (name : Str)
    (hset : loader.templateSet = some set) (hce : loader.compileError = none)
    (h : loader.find w name = none) :
    loader.Template w name =
      .ok (.nil, some (.text ("Template ".toList ++ name ++ " not found.".toList))) := by
  unfold TemplateLoader.find at h
  simp only [hset, Option.some_bind] at h
  simp [TemplateLoader.Template, hset, hce, h]

/-- What `Template` returns while a compile error is active. -/
theorem template_degraded (w : World) (loader : TemplateLoader) (set : TemplateSet) (name : Str)
    (e : Error) (hset : loader.templateSet = some set) (hce : loader.compileError = some e) :
    loader.Template w name = .ok (.goTemplate (loader.find w name), some (.revel e)) := by
  simp [TemplateLoader.Template, TemplateLoader.find, hset, hce]

/-- The fallback renders the error page when it is registered. -/
theorem renderErrorPage_found (w : World) (g : Engine) (loader : TemplateLoader)
    (description out : Str) (renderArgs a : RenderArgs) (e : Tmpl) (err : Option Str)
    (hfind : loader.find w "errors/500.html".toList = some e)
    (hexec : g.execute loader e
      (renderArgs.set "Error".toList (.error (serverError description))) = .ok (out, err, a)) :
    renderErrorPage w g loader description renderArgs = .ok (out, a) := by
  have hset : ∃ set, loader.templateSet = some set := by
    unfold TemplateLoader.find at hfind
    cases h : loader.templateSet with
    | none => simp [h] at hfind
    | some set => exact ⟨set, rfl⟩
  obtain ⟨set, hset⟩ := hset
  unfold renderErrorPage
  cases hce : loader.compileError with
  | none =>
    rw [template_found w loader _ e hce hfind]
    simp only [Res.bind, TemplateVal.Render, hexec]
  | some ce =>
    rw [template_degraded w loader set _ ce hset hce, hfind]
    simp only [Res.bind, TemplateVal.Render, hexec]


/-- C12, counterexample: after `Refresh` found a template that does not parse, the layout
`layouts/base.html` is registered and renders `L` without an error, yet `layout("base", "home",
args)` returns the render of the error page, with the description `Missing layout: base`. -/
theorem layout_ignored_under_compile_error :
    (NewTemplateLoader ["/v".toList]).Refresh worldLayoutsBroken 12 =
      .ok (loaderLayoutsBroken, loaderLayoutsBroken.compileError) ∧
    loaderLayoutsBroken.compileError ≠ none ∧
    loaderLayoutsBroken.find worldLayoutsBroken "layouts/base.html".toList =
      some (tmplOf "layouts/base.html" "L" none) ∧
    demoEngine.execute loaderLayoutsBroken (tmplOf "layouts/base.html" "L" none) argsBaseHome =
      .ok ("L".toList, none, argsBaseHome) ∧
    TemplateFuncs.layout worldLayoutsBroken demoEngine loaderLayoutsBroken "base".toList
        "home".toList [] =
      .ok ("E:Missing layout: base".toList,
        argsBaseHome.set "Error".toList (.error (serverError "Missing layout: base".toList))) := by
  decide

/-- C12, amended: `layout` stores `contentName` under `ContentTemplate` and `name` under
`LayoutTemplate` before anything else; and when no compile error is active, the layout that
resolves (`layouts/<name>.haml`, and `layouts/<name>.html` only when the former is not found)
is executed on these arguments, and if it renders `out` without an error then `layout`
returns exactly `out`. -/
theorem layout_renders_resolved (w : World) (g : Engine) (loader : TemplateLoader)
    (name contentName : Str) (renderArgs : RenderArgs) (t : Tmpl) (out : Str) (a : RenderArgs)
    (hce : loader.compileError = none)
    (hfind : loader.find w ("layouts/".toList ++ name ++ ".haml".toList) = some t ∨
      (loader.find w ("layouts/".toList ++ name ++ ".haml".toList) = none ∧
        loader.find w ("layouts/".toList ++ name ++ ".html".toList) = some t))
    (hexec : g.execute loader t
      ((renderArgs.set "ContentTemplate".toList (.str contentName)).set "LayoutTemplate".toList
        (.str name)) = .ok (out, none, a)) :
    ((renderArgs.set "ContentTemplate".toList (.str contentName)).set "LayoutTemplate".toList
        (.str name)).get? "ContentTemplate".toList = some (.str contentName) ∧
    ((renderArgs.set "ContentTemplate".toList (.str contentName)).set "LayoutTemplate".toList
        (.str name)).get? "LayoutTemplate".toList = some (.str name) ∧
    TemplateFuncs.layout w g loader name contentName renderArgs = .ok (out, a) := by
  refine ⟨by simp [RenderArgs.get?, RenderArgs.set], by simp [RenderArgs.get?, RenderArgs.set],
    ?_⟩
  unfold TemplateFuncs.layout
  rcases hfind with h | ⟨h1, h2⟩
  · rw [template_found w loader _ t hce h]
    simp only [Res.bind, TemplateVal.Render, ne_eq, not_true_eq_false, if_false, hexec]
  · have hset : ∃ set, loader.templateSet = some set := by
      unfold TemplateLoader.find at h2
      cases h : loader.templateSet with
      | none => simp [h] at h2
      | some set => exact ⟨set, rfl⟩
    obtain ⟨set, hset⟩ := hset
    rw [template_missing w loader set _ hset hce h1]
    simp only [Res.bind, ne_eq, not_false_eq_true, if_true, reduceCtorEq]
    rw [template_found w loader _ t hce h2]
    simp only [Res.bind, TemplateVal.Render, ne_eq, not_true_eq_false, if_false, hexec]

/-- C12, witness: over the loader of `fsLayouts`, `layout("base", "home", args)` returns the
render `L` of `layouts/base.html`, found under its second name. -/
theorem layout_renders_resolved_witness :
    argsBaseHome.get? "ContentTemplate".toList = some (.str "home".toList) ∧
    argsBaseHome.get? "LayoutTemplate".toList = some (.str "base".toList) ∧
    TemplateFuncs.layout worldLayouts demoEngine loaderLayouts "base".toList "home".toList [] =
      .ok ("L".toList, argsBaseHome) :=
  layout_renders_resolved worldLayouts demoEngine loaderLayouts "base".toList "home".toList []
    (tmplOf "layouts/base.html" "L" none) "L".toList argsBaseHome (by decide)
    (Or.inr (by decide)) (by decide)

/-- C13, counterexample: the loader of `fsPriority` has no `errors/500.html` and no layout
`base`; `layout("base", "home", args)` drops the error of the lookup of the error page, calls
`Render` on the nil template that the lookup returned, and the panic reaches the caller. -/
theorem layout_panics_without_error_page :
    (NewTemplateLoader ["/a".toList, "/b".toList]).Refresh worldPriority 8 =
      .ok (loaderPriority, none) ∧
    loaderPriority.Template worldPriority "errors/500.html".toList =
      .ok (.nil, some (.text "Template errors/500.html not found.".toList)) ∧
    TemplateFuncs.layout worldPriority demoEngine loaderPriority "base".toList "home".toList [] =
      .panic .nilDereference := by
  decide

/-- C13, amended: let `errors/500.html` be registered. If a compile error is active or neither
`layouts/<name>.haml` nor `layouts/<name>.html` is found, `layout` returns what the error page
writes for the arguments in which `Error` is a "Server Error" described as `Missing layout:
<name>`; if the layout that resolves fails to render with the text `msg`, `layout` returns
what the error page writes for a "Server Error" described as `msg`. In both cases the call
returns whenever the execution of the error page returns, whatever error that execution
reports. -/
theorem layout_falls_back_to_error_page (w : World) (g : Engine) (loader : TemplateLoader)
    (name contentName : Str) (renderArgs : RenderArgs) (e : Tmpl)
    (herr : loader.find w "errors/500.html".toList = some e) :
    (∀ out err a,
      (loader.compileError ≠ none ∨
        (loader.find w ("layouts/".toList ++ name ++ ".haml".toList) = none ∧
          loader.find w ("layouts/".toList ++ name ++ ".html".toList) = none)) →
      g.execute loader e
        (((renderArgs.set "ContentTemplate".toList (.str contentName)).set
          "LayoutTemplate".toList (.str name)).set "Error".toList
            (.error (serverError ("Missing layout: ".toList ++ name)))) = .ok (out, err, a) →
      TemplateFuncs.layout w g loader name contentName renderArgs = .ok (out, a)) ∧
    (∀ t written msg a1 out err a,
      loader.compileError = none →
      (loader.find w ("layouts/".toList ++ name ++ ".haml".toList) = some t ∨
        (loader.find w ("layouts/".toList ++ name ++ ".haml".toList) = none ∧
          loader.find w ("layouts/".toList ++ name ++ ".html".toList) = some t)) →
      g.execute loader t
        ((renderArgs.set "ContentTemplate".toList (.str contentName)).set
          "LayoutTemplate".toList (.str name)) = .ok (written, some msg, a1) →
      g.execute loader e (a1.set "Error".toList (.error (serverError msg))) =
        .ok (out, err, a) →
      TemplateFuncs.layout w g loader name contentName renderArgs = .ok (out, a)) := by
  have hset : ∃ set, loader.templateSet = some set := by
    unfold TemplateLoader.find at herr
    cases h : loader.templateSet with
    | none => simp [h] at herr
    | some set => exact ⟨set, rfl⟩
  obtain ⟨set, hset⟩ := hset
  constructor
  · intro out err a hmiss hexec
    have hpage := renderErrorPage_found w g loader _ out _ a e err herr hexec
    unfold TemplateFuncs.layout
    cases hce : loader.compileError with
    | some ce =>
      rw [template_degraded w loader set _ ce hset hce]
      simp only [Res.bind, ne_eq, not_false_eq_true, if_true, reduceCtorEq]
      rw [template_degraded w loader set _ ce hset hce]
      simp only [Res.bind, ne_eq, not_false_eq_true, if_true, reduceCtorEq]
      exact hpage
    | none =>
      rcases hmiss with h | ⟨h1, h2⟩
      · exact absurd hce h
      · rw [template_missing w loader set _ hset hce h1]
        simp only [Res.bind, ne_eq, not_false_eq_true, if_true, reduceCtorEq]
        rw [template_missing w loader set _ hset hce h2]
        simp only [Res.bind, ne_eq, not_false_eq_true, if_true, reduceCtorEq]
        exact hpage
  · intro t written msg a1 out err a hce hfind hexec hexec2
    have hpage := renderErrorPage_found w g loader _ out _ a e err herr hexec2
    unfold TemplateFuncs.layout
    rcases hfind with h | ⟨h1, h2⟩
    · rw [template_found w loader _ t hce h]
      simp only [Res.bind, TemplateVal.Render, ne_eq, not_true_eq_false, if_false, hexec, hpage]
    · rw [template_missing w loader set _ hset hce h1]
      simp only [Res.bind, ne_eq, not_false_eq_true, if_true, reduceCtorEq]
      rw [template_found w loader _ t hce h2]
      simp only [Res.bind, TemplateVal.Render, ne_eq, not_true_eq_false, if_false, hexec, hpage]

/-- C13, witness: over the loader of `fsLayouts`, which registers `errors/500.html`, the missing
layout `nope` gives the error page for `Missing layout: nope`, and the layout `bad`,
which fails to render, gives the error page for the text of its error. -/
theorem layout_falls_back_to_error_page_witness :
    TemplateFuncs.layout worldLayouts demoEngine loaderLayouts "nope".toList "home".toList [] =
      .ok ("E:Missing layout: nope".toList,
        [("Error".toList, .error (serverError "Missing layout: nope".toList)),
         ("LayoutTemplate".toList, .str "nope".toList),
         ("ContentTemplate".toList, .str "home".toList)]) ∧
    TemplateFuncs.layout worldLayouts demoEngine loaderLayouts "bad".toList "home".toList [] =
      .ok ("E:render failed: layouts/bad.html".toList,
        [("Error".toList, .error (serverError "render failed: layouts/bad.html".toList)),
         ("LayoutTemplate".toList, .str "bad".toList),
         ("ContentTemplate".toList, .str "home".toList)]) :=
  ⟨(layout_falls_back_to_error_page worldLayouts demoEngine loaderLayouts "nope".toList
      "home".toList [] (tmplOf "errors/500.html" "E:" none) (by decide)).1
      "E:Missing layout: nope".toList none
      [("Error".toList, .error (serverError "Missing layout: nope".toList)),
       ("LayoutTemplate".toList, .str "nope".toList),
       ("ContentTemplate".toList, .str "home".toList)]
      (Or.inr (by decide)) (by decide),
    (layout_falls_back_to_error_page worldLayouts demoEngine loaderLayouts "bad".toList
      "home".toList [] (tmplOf "errors/500.html" "E:" none) (by decide)).2
      (tmplOf "layouts/bad.html" "?" none) [] "render failed: layouts/bad.html".toList
      [("LayoutTemplate".toList, .str "bad".toList),
       ("ContentTemplate".toList, .str "home".toList)]
      "E:render failed: layouts/bad.html".toList none
      [("Error".toList, .error (serverError "render failed: layouts/bad.html".toList)),
       ("LayoutTemplate".toList, .str "bad".toList),
       ("ContentTemplate".toList, .str "home".toList)]
      (by decide) (Or.inr (by decide)) (by decide) (by decide)⟩

/-- C14, counterexample: the loader of `fsOnlyLayout` registers the layout `base` and nothing
else; for the arguments that `layout("base", "home", args)` leaves, no template of the name
space is named `home`, the lookup of `errors/500.html` returns a nil template, and `content`
panics on its `Render`. -/
theorem content_panics_without_error_page :
    (NewTemplateLoader ["/v".toList]).Refresh worldOnlyLayout 12 = .ok (loaderOnlyLayout, none) ∧
    argsBaseHome.get? "ContentTemplate".toList = some (.str "home".toList) ∧
    argsBaseHome.get? "LayoutTemplate".toList = some (.str "base".toList) ∧
    loaderOnlyLayout.find worldOnlyLayout "layouts/base.html".toList =
      some (tmplOf "layouts/base.html" "L" none) ∧
    (∀ t ∈ TemplateSet.Templates demoEngine [tmplOf "layouts/base.html" "L" none],
      t.name ≠ "home".toList) ∧
    TemplateFuncs.content worldOnlyLayout demoEngine loaderOnlyLayout argsBaseHome =
      .panic .nilDereference := by
  decide

/-- The loader of `fsLayouts` registers `errors/500.html` but no layout `nope`: both lookups of
the layout return a nil `Template`, and `content` panics at the assertion
`layout.(GoTemplate)`. -/
theorem content_panics_on_unresolved_layout :
    loaderLayouts.Template worldLayouts "layouts/nope.html".toList =
      .ok (.nil, some (.text "Template layouts/nope.html not found.".toList)) ∧
    TemplateFuncs.content worldLayouts demoEngine loaderLayouts
        [("LayoutTemplate".toList, .str "nope".toList),
         ("ContentTemplate".toList, .str "home".toList)] =
      .panic .typeAssertion := by
  decide

/-- C14, amended: let the arguments carry strings under `ContentTemplate` and
`LayoutTemplate`, let the layout resolve to a template (under `.haml` with no compile error
active, or under `.html`) and let `errors/500.html` be registered.  If the name space of the
set holds no template named exactly `args["ContentTemplate"]`, `content` returns what the
error page writes for a "Server Error" whose description names the missing template; if the
template of that name fails to render with the text `msg`, `content` returns what the error
page writes for a "Server Error" described as `msg`; and if it renders `out` without an
error, `content` returns `out`.  The call returns whenever these executions return. -/
theorem content_renders_or_falls_back (w : World) (g : Engine) (loader : TemplateLoader)
    (renderArgs : RenderArgs) (name layoutName : Str) (set : TemplateSet) (e : Tmpl)
    (hname : renderArgs.get? "ContentTemplate".toList = some (.str name))
    (hlayout : renderArgs.get? "LayoutTemplate".toList = some (.str layoutName))
    (hset : loader.templateSet = some set)
    (husable :
      (loader.compileError = none ∧
        (loader.find w ("layouts/".toList ++ layoutName ++ ".haml".toList)).isSome) ∨
      (loader.find w ("layouts/".toList ++ layoutName ++ ".html".toList)).isSome)
    (herr : loader.find w "errors/500.html".toList = some e) :
    ((∀ t ∈ set.Templates g, t.name ≠ name) → ∀ out err a,
      g.execute loader e
        (renderArgs.set "Error".toList (.error (serverError
          ("Missing template: ".toList ++ name ++ " \n Present templates: ".toList ++
            g.showLoader loader)))) = .ok (out, err, a) →
      TemplateFuncs.content w g loader renderArgs = .ok (out, a)) ∧
    (∀ tpl, lastNamed name none (set.Templates g) = some tpl →
      (tpl ∈ set.Templates g ∧ tpl.name = name) ∧
      (∀ written msg a1 out err a,
        g.execute loader tpl renderArgs = .ok (written, some msg, a1) →
        g.execute loader e (a1.set "Error".toList (.error (serverError msg))) =
          .ok (out, err, a) →
        TemplateFuncs.content w g loader renderArgs = .ok (out, a)) ∧
      (∀ out a, g.execute loader tpl renderArgs = .ok (out, none, a) →
        TemplateFuncs.content w g loader renderArgs = .ok (out, a))) := by
  have hresolved : ∃ l : Tmpl × Option GoError,
      ((loader.Template w ("layouts/".toList ++ layoutName ++ ".haml".toList)).bind
        fun (layout, err) =>
          (if err ≠ none then
              loader.Template w ("layouts/".toList ++ layoutName ++ ".html".toList)
            else .ok (layout, err))) = .ok (.goTemplate (some l.1), l.2) := by
    cases hce : loader.compileError with
    | some ce =>
      rcases husable with h | h
      · rw [hce] at h
        exact absurd h.1 (by simp)
      · obtain ⟨l, hl⟩ := Option.isSome_iff_exists.mp h
        refine ⟨(l, some (.revel ce)), ?_⟩
        rw [template_degraded w loader set _ ce hset hce]
        simp only [Res.bind, ne_eq, not_false_eq_true, if_true, reduceCtorEq]
        rw [template_degraded w loader set _ ce hset hce, hl]
    | none =>
      cases hh : loader.find w ("layouts/".toList ++ layoutName ++ ".haml".toList) with
      | some l =>
        refine ⟨(l, none), ?_⟩
        rw [template_found w loader _ l hce hh]
        simp [Res.bind]
      | none =>
        rcases husable with h | h
        · rw [hh] at h
          exact absurd h.2 (by simp)
        · obtain ⟨l, hl⟩ := Option.isSome_iff_exists.mp h
          refine ⟨(l, none), ?_⟩
          rw [template_missing w loader set _ hset hce hh]
          simp only [Res.bind, ne_eq, not_false_eq_true, if_true, reduceCtorEq]
          rw [template_found w loader _ l hce hl]
  obtain ⟨l, hl⟩ := hresolved
  have hcontent : TemplateFuncs.content w g loader renderArgs =
      match lastNamed name none (set.Templates g) with
      | none =>
        renderErrorPage w g loader
          ("Missing template: ".toList ++ name ++ " \n Present templates: ".toList ++
            g.showLoader loader)
          renderArgs
      | some tpl =>
        (g.execute loader tpl renderArgs).bind fun (out, err, renderArgs) =>
          match err with
          | some e => renderErrorPage w g loader e renderArgs
          | none => .ok (out, renderArgs) := by
    unfold TemplateFuncs.content
    simp only [hname, hlayout]
    cases hA : loader.Template w ("layouts/".toList ++ layoutName ++ ".haml".toList) with
    | ok p =>
      rw [hA] at hl
      simp only [Res.bind] at hl
      simp only [Res.bind, hl, hset]
    | panic q => rw [hA] at hl; simp [Res.bind] at hl
    | fatal => rw [hA] at hl; simp [Res.bind] at hl
    | outOfFuel => rw [hA] at hl; simp [Res.bind] at hl
  rw [hcontent]
  constructor
  · intro hnone out err a hexec
    rw [lastNamed_of_absent name none _ hnone]
    exact renderErrorPage_found w g loader _ out _ a e err herr hexec
  · intro tpl hsome
    rw [hsome]
    refine ⟨?_, ?_, ?_⟩
    · rcases lastNamed_mem name none _ tpl hsome with h | h
      · exact h
      · cases h
    · intro written msg a1 out err a hexec hexec2
      simp only [hexec, Res.bind]
      exact renderErrorPage_found w g loader _ out _ a e err herr hexec2
    · intro out a hexec
      simp only [hexec, Res.bind]

/-- C14, witness: over the loader of `fsLayouts` and the arguments left by `layout("base",
"home", args)`, `content` returns the render `H` of the template `home`; with `body`, which
`layouts/base.html` declares with `define`, it returns the render `B`; with `nohome` for the
content template it returns the error page naming `nohome`. -/
theorem content_renders_or_falls_back_witness :
    TemplateFuncs.content worldLayouts demoEngine loaderLayouts argsBaseHome =
      .ok ("H".toList, argsBaseHome) ∧
    TemplateFuncs.content worldLayouts demoEngine loaderLayouts
        [("LayoutTemplate".toList, .str "base".toList),
         ("ContentTemplate".toList, .str "body".toList)] =
      .ok ("B".toList,
        [("LayoutTemplate".toList, .str "base".toList),
         ("ContentTemplate".toList, .str "body".toList)]) ∧
    TemplateFuncs.content worldLayouts demoEngine loaderLayouts
        [("LayoutTemplate".toList, .str "base".toList),
         ("ContentTemplate".toList, .str "nohome".toList)] =
      .ok ("E:Missing template: nohome \n Present templates: loader".toList,
        [("Error".toList,
            .error (serverError "Missing template: nohome \n Present templates: loader".toList)),
         ("LayoutTemplate".toList, .str "base".toList),
         ("ContentTemplate".toList, .str "nohome".toList)]) :=
  ⟨((content_renders_or_falls_back worldLayouts demoEngine loaderLayouts argsBaseHome
      "home".toList "base".toList
      [tmplOf "layouts/base.html" "L" none, tmplOf "layouts/bad.html" "?" none,
       tmplOf "home" "H" none, tmplOf "errors/500.html" "E:" none]
      (tmplOf "errors/500.html" "E:" none) (by decide)
      (by decide) rfl (Or.inr (by decide)) (by decide)).2
      (tmplOf "home" "H" none) (by decide)).2.2 "H".toList argsBaseHome (by decide),
    ((content_renders_or_falls_back worldLayouts demoEngine loaderLayouts
      [("LayoutTemplate".toList, .str "base".toList),
       ("ContentTemplate".toList, .str "body".toList)]
      "body".toList "base".toList
      [tmplOf "layouts/base.html" "L" none, tmplOf "layouts/bad.html" "?" none,
       tmplOf "home" "H" none, tmplOf "errors/500.html" "E:" none]
      (tmplOf "errors/500.html" "E:" none) (by decide)
      (by decide) rfl (Or.inr (by decide)) (by decide)).2
      { tmplOf "layouts/base.html" "L" none with name := "body".toList, text := "B".toList }
      (by decide)).2.2 "B".toList
      [("LayoutTemplate".toList, .str "base".toList),
       ("ContentTemplate".toList, .str "body".toList)] (by decide),
    (content_renders_or_falls_back worldLayouts demoEngine loaderLayouts
      [("LayoutTemplate".toList, .str "base".toList),
       ("ContentTemplate".toList, .str "nohome".toList)]
      "nohome".toList "base".toList
      [tmplOf "layouts/base.html" "L" none, tmplOf "layouts/bad.html" "?" none,
       tmplOf "home" "H" none, tmplOf "errors/500.html" "E:" none]
      (tmplOf "errors/500.html" "E:" none) (by decide)
      (by decide) rfl (Or.inr (by decide)) (by decide)).1 (by decide)
      "E:Missing template: nohome \n Present templates: loader".toList none
      [("Error".toList,
          .error (serverError "Missing template: nohome \n Present templates: loader".toList)),
       ("LayoutTemplate".toList, .str "base".toList),
       ("ContentTemplate".toList, .str "nohome".toList)] (by decide)⟩

theorem replaceAllAux_skip (old new pre s : Str) :
    replaceAllAux old new pre.length (pre ++ s) = replaceAllAux old new 0 s := by
  induction pre with
  | nil => rfl
  | cons c pre ih => simpa [replaceAllAux] using ih

theorem replaceAllAux_token (old new s : Str) (c : Char) (old' : Str) (hold : old = c :: old') :
    replaceAllAux old new 0 (old ++ s) = new ++ replaceAllAux old new 0 s := by
  subst hold
  have hp : (c :: old').isPrefixOf (c :: (old' ++ s)) = true := by
    rw [List.isPrefixOf_iff_prefix]
    exact ⟨s, rfl⟩
  rw [List.cons_append, replaceAllAux, if_pos hp]
  simp only [List.length_cons, Nat.add_sub_cancel]
  rw [replaceAllAux_skip]

theorem replaceAllAux_plain (old new a s : Str) (c : Char) (old' : Str) (hold : old = c :: old')
    (ha : ∀ x ∈ a, x ≠ c) :
    replaceAllAux old new 0 (a ++ s) = a ++ replaceAllAux old new 0 s := by
  subst hold
  induction a with
  | nil => rfl
  | cons x a ih =>
    have hx : x ≠ c := ha x (by simp)
    have hp : (c :: old').isPrefixOf (x :: (a ++ s)) = false := by
      simp [List.isPrefixOf, Ne.symm hx]
    rw [List.cons_append, replaceAllAux, if_neg (by simp [hp])]
    rw [ih (fun y hy => ha y (by simp [hy]))]
    rfl

theorem noPair_cons (a b c : Char) (t : Str) (h : noPair a b (c :: t) = true) :
    (c = a → t.head? ≠ some b) ∧ noPair a b t = true := by
  simp only [noPair, Bool.and_eq_true, Bool.not_eq_true', Bool.and_eq_false_iff] at h
  refine ⟨fun hc hb => ?_, h.2⟩
  rcases h.1 with h1 | h1
  · simp [hc] at h1
  · simp [hb] at h1

theorem noPair_append (a b : Char) (x y : Str) (h : noPair a b (x ++ y) = true) :
    noPair a b x = true ∧ noPair a b y = true := by
  induction x with
  | nil => exact ⟨rfl, h⟩
  | cons c x ih =>
    have hc := noPair_cons a b c (x ++ y) h
    have ih := ih hc.2
    refine ⟨?_, ih.2⟩
    simp only [noPair, Bool.and_eq_true, Bool.not_eq_true', Bool.and_eq_false_iff]
    refine ⟨?_, ih.1⟩
    by_cases hca : c = a
    · right
      have := hc.1 hca
      cases x with
      | nil => simp
      | cons d x => simpa using this
    · left
      simpa using hca

/-- A text without two adjacent underscores holds no occurrence of a token that begins with two
underscores and a digit, unless the text ends with an underscore and is followed by an
underscore and that digit. -/
theorem replaceAllAux_text (old new a s : Str) (d : Char) (old' : Str)
    (hold : old = '_' :: '_' :: d :: old')
    (ha : noPair '_' '_' a = true) (hs : ∀ r, s ≠ '_' :: d :: r) :
    replaceAllAux old new 0 (a ++ s) = a ++ replaceAllAux old new 0 s := by
  subst hold
  induction a with
  | nil => rfl
  | cons x a ih =>
    have hx := noPair_cons '_' '_' x a ha
    have hp : ('_' :: '_' :: d :: old').isPrefixOf (x :: (a ++ s)) = false := by
      by_cases hxu : x = '_'
      · subst hxu
        have hh := hx.1 rfl
        cases a with
        | nil =>
          cases s with
          | nil => simp [List.isPrefixOf]
          | cons y s =>
            by_cases hy : y = '_'
            · subst hy
              cases s with
              | nil => simp [List.isPrefixOf]
              | cons z s =>
                have hz : z ≠ d := fun h => hs s (by rw [h])
                simp [List.isPrefixOf, Ne.symm hz]
            · simp [List.isPrefixOf, Ne.symm hy]
        | cons y a =>
          have hy : y ≠ '_' := by simpa using hh
          simp [List.isPrefixOf, Ne.symm hy]
      · simp [List.isPrefixOf, Ne.symm hxu]
    rw [List.cons_append, replaceAllAux, if_neg (by simp [hp])]
    rw [ih hx.2]
    rfl

/-- The first replacement leaves a closing sentinel alone when what follows it does not
complete its last underscores to an opening sentinel. -/
theorem replaceAllAux_open_at_close (new r : Str)
    (h1 : "7777__".toList.isPrefixOf r = false) (h2 : "_7777__".toList.isPrefixOf r = false) :
    replaceAllAux "__7777__".toList new 0 ("__9999__".toList ++ r) =
      "__9999__".toList ++ replaceAllAux "__7777__".toList new 0 r := by
  simp only [String.toList] at *
  simp [replaceAllAux, List.isPrefixOf, h1, h2]

theorem straddle_free (t next : Str) (ht : noPair '_' '_' t = true)
    (hnext : next = [] ∨ (∃ r, next = '"' :: r) ∨
      ((∃ r, next = "__7777__".toList ++ r) ∧ straddles.contains t = false)) :
    "7777__".toList.isPrefixOf (t ++ next) = false ∧
      "_7777__".toList.isPrefixOf (t ++ next) = false := by
  simp only [String.toList] at *
  rcases hnext with rfl | ⟨r, rfl⟩ | ⟨⟨r, rfl⟩, hs⟩
  · rcases t with _ | ⟨a, _ | ⟨b, _ | ⟨c, _ | ⟨d, _ | ⟨e, _ | ⟨f, _ | ⟨g, t⟩⟩⟩⟩⟩⟩⟩ <;>
      simp [List.isPrefixOf, noPair] at ht ⊢ <;>
      (try constructor) <;> intros <;> subst_vars <;> simp_all <;>
      (intro h; first | exact ht h.symm | exact hs h.symm | exact ht.1 h.symm)
  · rcases t with _ | ⟨a, _ | ⟨b, _ | ⟨c, _ | ⟨d, _ | ⟨e, _ | ⟨f, _ | ⟨g, t⟩⟩⟩⟩⟩⟩⟩ <;>
      simp [List.isPrefixOf, noPair] at ht ⊢ <;>
      (try constructor) <;> intros <;> subst_vars <;> simp_all <;>
      (intro h; first | exact ht h.symm | exact hs h.symm | exact ht.1 h.symm)
  · rcases t with _ | ⟨a, _ | ⟨b, _ | ⟨c, _ | ⟨d, _ | ⟨e, _ | ⟨f, _ | ⟨g, t⟩⟩⟩⟩⟩⟩⟩ <;>
      simp [List.isPrefixOf, noPair, straddles] at ht hs ⊢ <;>
      (try constructor) <;> intros <;> subst_vars <;> simp_all <;>
      (intro h; first | exact ht h.symm | exact hs h.symm | exact ht.1 h.symm)

/-- One `strings.Replace` over the interpolations of a literal, up to its closing quote: the
token `old` begins with two underscores and the character `d`; `hO` and `hC` say what the
replacement makes of the opening and closing marks. -/
theorem replaceAllAux_interps (old new o o' c c' : Str) (d : Char) (old' : Str)
    (hold : old = '_' :: '_' :: d :: old')
    (hO : ∀ x, replaceAllAux old new 0 (o ++ x) = o' ++ replaceAllAux old new 0 x)
    (hC : ∀ t next, noPair '_' '_' t = true →
      (next = [] ∨ (∃ r, next = '"' :: r) ∨
        ((∃ r, next = o ++ r) ∧ straddles.contains t = false)) →
      replaceAllAux old new 0 (c ++ (t ++ next)) = c' ++ replaceAllAux old new 0 (t ++ next))
    (hCs : ∀ x r, c ++ x ≠ '_' :: d :: r) (hOs : ∀ x r, o ++ x ≠ '_' :: d :: r)
    (interps : List (Str × Str)) (s : Str)
    (hcalm : ∀ p ∈ interps, noPair '_' '_' p.1 = true ∧ noPair '_' '_' p.2 = true)
    (hstr : noStraddle interps = true) (hs : ∃ r, s = '"' :: r) :
    replaceAllAux old new 0 (renderInterps o c interps ++ s) =
      renderInterps o' c' interps ++ replaceAllAux old new 0 s := by
  induction interps with
  | nil => rfl
  | cons p rest ih =>
    have hp := hcalm p (by simp)
    have hrest : noStraddle rest = true := by
      simp only [noStraddle, Bool.and_eq_true] at hstr
      exact hstr.2
    have hnext : renderInterps o c rest ++ s = [] ∨ (∃ r, renderInterps o c rest ++ s = '"' :: r) ∨
        ((∃ r, renderInterps o c rest ++ s = o ++ r) ∧ straddles.contains p.2 = false) := by
      cases rest with
      | nil => exact Or.inr (Or.inl hs)
      | cons q rest =>
        refine Or.inr (Or.inr ⟨⟨_, by simp only [renderInterps, List.append_assoc]; rfl⟩, ?_⟩)
        have h := hstr
        simp only [noStraddle, List.isEmpty_cons, Bool.false_or, Bool.and_eq_true,
          Bool.not_eq_true'] at h
        exact h.1
    have hnext7 : ∀ r, renderInterps o c rest ++ s ≠ '_' :: d :: r := by
      rcases hnext with h | ⟨r, h⟩ | ⟨⟨r, h⟩, _⟩
      · rw [h]; intro r hr; cases hr
      · rw [h]; intro r' hr; cases hr
      · rw [h]; exact hOs r
    simp only [renderInterps, List.append_assoc]
    rw [hO, replaceAllAux_text old new p.1 _ d old' hold hp.1 (hCs _),
      hC p.2 _ hp.2 hnext, replaceAllAux_text old new p.2 _ d old' hold hp.2 hnext7,
      ih (fun q hq => hcalm q (by simp [hq])) hrest]

theorem replaceAllAux_char (old new s : Str) (x c : Char) (old' : Str) (hold : old = c :: old')
    (hx : x ≠ c) : replaceAllAux old new 0 (x :: s) = x :: replaceAllAux old new 0 s :=
  replaceAllAux_plain old new [x] s c old' hold (by simpa using hx)

/-- One `strings.Replace` over a literal. -/
theorem replaceAllAux_quoted (old new o o' c c' : Str) (d : Char) (old' : Str)
    (hold : old = '_' :: '_' :: d :: old')
    (hO : ∀ x, replaceAllAux old new 0 (o ++ x) = o' ++ replaceAllAux old new 0 x)
    (hC : ∀ t next, noPair '_' '_' t = true →
      (next = [] ∨ (∃ r, next = '"' :: r) ∨
        ((∃ r, next = o ++ r) ∧ straddles.contains t = false)) →
      replaceAllAux old new 0 (c ++ (t ++ next)) = c' ++ replaceAllAux old new 0 (t ++ next))
    (hCs : ∀ x r, c ++ x ≠ '_' :: d :: r) (hOs : ∀ x r, o ++ x ≠ '_' :: d :: r)
    (q : Quoted) (s : Str) (hq : q.Calm) :
    replaceAllAux old new 0 (q.render o c ++ s) =
      q.render o' c' ++ replaceAllAux old new 0 s := by
  have hnext : ∀ r, renderInterps o c q.interps ++ ('"' :: s) ≠ '_' :: d :: r := by
    cases q.interps with
    | nil => intro r hr; cases hr
    | cons p rest =>
      simp only [renderInterps, List.append_assoc]
      exact hOs _
  simp only [Quoted.render, List.cons_append, List.append_assoc, List.nil_append]
  rw [replaceAllAux_char old new _ '"' '_' _ hold (by decide),
    replaceAllAux_text old new q.head _ d old' hold hq.1 hnext,
    replaceAllAux_interps old new o o' c c' d old' hold hO hC hCs hOs q.interps _ hq.2.1 hq.2.2
      ⟨s, rfl⟩,
    replaceAllAux_char old new _ '"' '_' _ hold (by decide)]

/-- One `strings.Replace` over the literals of a source and the texts after them. -/
theorem replaceAllAux_literals (old new o o' c c' : Str) (d : Char) (old' : Str)
    (hold : old = '_' :: '_' :: d :: old')
    (hO : ∀ x, replaceAllAux old new 0 (o ++ x) = o' ++ replaceAllAux old new 0 x)
    (hC : ∀ t next, noPair '_' '_' t = true →
      (next = [] ∨ (∃ r, next = '"' :: r) ∨
        ((∃ r, next = o ++ r) ∧ straddles.contains t = false)) →
      replaceAllAux old new 0 (c ++ (t ++ next)) = c' ++ replaceAllAux old new 0 (t ++ next))
    (hCs : ∀ x r, c ++ x ≠ '_' :: d :: r) (hOs : ∀ x r, o ++ x ≠ '_' :: d :: r)
    (lits : List (Quoted × Str))
    (hl : ∀ p ∈ lits, p.1.Calm ∧ noPair '_' '_' p.2 = true) :
    (∀ r, renderLiterals o c lits ≠ '_' :: d :: r) ∧
    replaceAllAux old new 0 (renderLiterals o c lits) = renderLiterals o' c' lits := by
  induction lits with
  | nil =>
    refine ⟨?_, rfl⟩
    intro r hr
    cases hr
  | cons p rest ih =>
    have hp := hl p (by simp)
    have ih := ih (fun q hq => hl q (by simp [hq]))
    constructor
    · intro r hr
      simp only [renderLiterals, Quoted.render, List.cons_append] at hr
      cases hr
    · simp only [renderLiterals]
      rw [replaceAllAux_quoted old new o o' c c' d old' hold hO hC hCs hOs p.1 _ hp.1,
        replaceAllAux_text old new p.2 _ d old' hold hp.2 ih.1, ih.2]

/-- One `strings.Replace` over a source. -/
theorem replaceAll_source (old new o o' c c' : Str) (d : Char) (old' : Str)
    (hold : old = '_' :: '_' :: d :: old')
    (hO : ∀ x, replaceAllAux old new 0 (o ++ x) = o' ++ replaceAllAux old new 0 x)
    (hC : ∀ t next, noPair '_' '_' t = true →
      (next = [] ∨ (∃ r, next = '"' :: r) ∨
        ((∃ r, next = o ++ r) ∧ straddles.contains t = false)) →
      replaceAllAux old new 0 (c ++ (t ++ next)) = c' ++ replaceAllAux old new 0 (t ++ next))
    (hCs : ∀ x r, c ++ x ≠ '_' :: d :: r) (hOs : ∀ x r, o ++ x ≠ '_' :: d :: r)
    (src : HamlSource) (hsrc : src.Calm) :
    replaceAll old new (src.render o c) = src.render o' c' := by
  have h := replaceAllAux_literals old new o o' c c' d old' hold hO hC hCs hOs src.literals
    hsrc.2
  unfold replaceAll HamlSource.render
  rw [replaceAllAux_text old new src.lead _ d old' hold hsrc.1 h.1, h.2]

/-- The three replacements that follow the rendering turn the protected text of a calm source
into its restored text. -/
theorem restoreSentinels_protected (src : HamlSource) (hsrc : src.Calm) :
    restoreSentinels src.protectedText = src.restoredText := by
  unfold restoreSentinels HamlSource.protectedText HamlSource.restoredText
  rw [replaceAll_source "__7777__".toList "\x7b\x7b".toList "__7777__".toList "\x7b\x7b".toList
      "__9999__".toList "__9999__".toList '7' "777__".toList rfl
      (fun x => replaceAllAux_token _ _ x '_' "_7777__".toList rfl)
      (fun t next ht hnext =>
        replaceAllAux_open_at_close _ _ (straddle_free t next ht hnext).1
          (straddle_free t next ht hnext).2)
      (fun x r hr => by injection hr with _ hr; injection hr with hr _; exact absurd hr (by decide))
      (fun x r hr => by injection hr with _ hr; injection hr with hr _; exact absurd hr (by decide))
      src hsrc,
    replaceAll_source "__9999__".toList "\x7d\x7d".toList "\x7b\x7b".toList "\x7b\x7b".toList
      "__9999__".toList "\x7d\x7d".toList '9' "999__".toList rfl
      (fun x => replaceAllAux_plain _ _ _ x '_' "_9999__".toList rfl (by decide))
      (fun t next _ _ => replaceAllAux_token _ _ _ '_' "_9999__".toList rfl)
      (fun x r hr => by injection hr with _ hr; injection hr with hr _; exact absurd hr (by decide))
      (fun x r hr => by injection hr with hr _; exact absurd hr (by decide))
      src hsrc,
    replaceAll_source "__888__".toList ",".toList "\x7b\x7b".toList "\x7b\x7b".toList
      "\x7d\x7d".toList "\x7d\x7d".toList '8' "88__".toList rfl
      (fun x => replaceAllAux_plain _ _ _ x '_' "_888__".toList rfl (by decide))
      (fun t next _ _ => replaceAllAux_plain _ _ _ _ '_' "_888__".toList rfl (by decide))
      (fun x r hr => by injection hr with hr _; exact absurd hr (by decide))
      (fun x r hr => by injection hr with hr _; exact absurd hr (by decide))
      src hsrc]

theorem replaceMatches_skip (m : Str → Option (Str × Nat)) (pre s : Str) :
    replaceMatches m pre.length (pre ++ s) = replaceMatches m 0 s := by
  induction pre with
  | nil => rfl
  | cons c pre ih => simpa [replaceMatches] using ih

theorem replaceMatches_plain (m : Str → Option (Str × Nat)) (a s : Str)
    (h : ∀ x ∈ a, ∀ t, m (x :: t) = none) :
    replaceMatches m 0 (a ++ s) = a ++ replaceMatches m 0 s := by
  induction a with
  | nil => rfl
  | cons x a ih =>
    rw [List.cons_append, replaceMatches, h x (by simp)]
    simp only [List.cons_append, List.cons.injEq, true_and]
    exact ih (fun y hy => h y (by simp [hy]))

theorem replaceMatches_match (m : Str → Option (Str × Nat)) (c : Char) (mt s r : Str)
    (h : m (c :: (mt ++ s)) = some (r, mt.length + 1)) :
    replaceMatches m 0 (c :: (mt ++ s)) = r ++ replaceMatches m 0 s := by
  rw [replaceMatches, h]
  simp only [Nat.add_sub_cancel]
  rw [replaceMatches_skip]

theorem lazyStar_skip {α : Type} (ok : Char → Bool) (k : Str → Option α) (a s : Str)
    (h : ∀ x ∈ a, ok x = true ∧ ∀ t, k (x :: t) = none) :
    lazyStar ok k (a ++ s) = lazyStar ok k s := by
  induction a with
  | nil => rfl
  | cons x a ih =>
    have hx := h x (by simp)
    rw [List.cons_append, lazyStar, hx.2]
    simp only [hx.1, if_true]
    exact ih (fun y hy => h y (by simp [hy]))

theorem lazyStar_hit {α : Type} (ok : Char → Bool) (k : Str → Option α) (c : Char) (t : Str)
    (r : α) (h : k (c :: t) = some r) : lazyStar ok k (c :: t) = some r := by
  rw [lazyStar, h]

/-- The pattern `"(.*?)"` matches a literal whose body holds no double quote and no line
feed, up to its closing quote. -/
theorem matchQuoted_literal (body rest : Str) (hq : '"' ∉ body) (hn : '\n' ∉ body) :
    matchQuoted ('"' :: (body ++ '"' :: rest)) = some ('"' :: (body ++ ['"']), rest) := by
  unfold matchQuoted
  simp only
  rw [lazyStar_skip, lazyStar_hit]
  · simp only [Option.some.injEq, Prod.mk.injEq, and_true]
    have hlen : ('"' :: (body ++ '"' :: rest)).length - rest.length =
        ('"' :: (body ++ ['"'])).length := by
      simp only [List.length_cons, List.length_append, List.length_nil]
      omega
    have happ : '"' :: (body ++ '"' :: rest) = ('"' :: (body ++ ['"'])) ++ rest := by simp
    rw [hlen, happ, List.take_left']
    rfl
  · intro x hx
    have hxq : x ≠ '"' := fun h => hq (h ▸ hx)
    have hxn : x ≠ '\n' := fun h => hn (h ▸ hx)
    refine ⟨by simpa [anyChar] using hxn, fun t => ?_⟩
    split
    · rename_i heq
      injection heq with h1 _
      exact absurd h1 hxq
    · rfl

/-- The pattern `"(.*?)"` does not match at a character that is not a double quote. -/
theorem matchQuoted_none (x : Char) (t : Str) (hx : x ≠ '"') : matchQuoted (x :: t) = none := by
  unfold matchQuoted
  split
  · rename_i heq
    injection heq with h1 _
    exact absurd h1 hx
  · rfl

/-- The pattern `#{(.*?)}` matches an interpolation of a text without a closing brace or a line
feed, up to the first closing brace. -/
theorem matchInterpolation_interp (X rest : Str) (hb : '\x7d' ∉ X) (hn : '\n' ∉ X) :
    matchInterpolation ('#' :: '\x7b' :: (X ++ '\x7d' :: rest)) = some (X, rest) := by
  unfold matchInterpolation literal
  have hp : "#\x7b".toList.isPrefixOf ('#' :: '\x7b' :: (X ++ '\x7d' :: rest)) = true := by
    rw [List.isPrefixOf_iff_prefix]
    exact ⟨_, rfl⟩
  rw [if_pos hp]
  have hdrop : List.drop "#\x7b".toList.length ('#' :: '\x7b' :: (X ++ '\x7d' :: rest)) =
      X ++ '\x7d' :: rest := rfl
  rw [hdrop]
  dsimp only
  rw [lazyStar_skip, lazyStar_hit]
  · simp only [Option.some.injEq, Prod.mk.injEq, and_true]
    have hlen : (X ++ '\x7d' :: rest).length - ('\x7d' :: rest).length = X.length := by
      simp only [List.length_cons, List.length_append]
      omega
    rw [hlen, List.take_left']
    rfl
  · intro x hx
    have hxb : x ≠ '\x7d' := fun h => hb (h ▸ hx)
    have hxn : x ≠ '\n' := fun h => hn (h ▸ hx)
    refine ⟨by simpa [anyChar] using hxn, fun t => ?_⟩
    split
    · rename_i heq
      injection heq with h1 _
      exact absurd h1 hxb
    · rfl

/-- The pattern `#{(.*?)}` does not match where the text does not begin with `#{`. -/
theorem matchInterpolation_none (s : Str) (h : ∀ r, s ≠ '#' :: '\x7b' :: r) :
    matchInterpolation s = none := by
  unfold matchInterpolation literal
  rw [if_neg]
  intro hp
  rw [List.isPrefixOf_iff_prefix] at hp
  obtain ⟨r, hr⟩ := hp
  exact h r hr.symm

/-- A text without `#{` that is not followed by an opening brace holds no match of a pattern
that begins with `#{`. -/
theorem replaceMatches_text (m : Str → Option (Str × Nat))
    (hm : ∀ u, (∀ r, u ≠ '#' :: '\x7b' :: r) → m u = none) (a s : Str)
    (ha : noPair '#' '\x7b' a = true) (hs : ∀ r, s ≠ '\x7b' :: r) :
    replaceMatches m 0 (a ++ s) = a ++ replaceMatches m 0 s := by
  induction a with
  | nil => rfl
  | cons x a ih =>
    have hx := noPair_cons '#' '\x7b' x a ha
    have hnone : m (x :: (a ++ s)) = none := by
      apply hm
      intro r hr
      injection hr with h1 h2
      have hh := hx.1 h1
      cases a with
      | nil => exact hs _ h2
      | cons y a =>
        injection h2 with h3 _
        exact hh (by simp [h3])
    rw [List.cons_append, replaceMatches, hnone]
    simp only [List.cons_append, List.cons.injEq, true_and]
    exact ih hx.2

/-- The replacement of the interpolations over the interpolations of a well cut literal, up to
its closing quote. -/
theorem replaceMatches_interps (m : Str → Option (Str × Nat)) (o c : Str)
    (hnone : ∀ u, (∀ r, u ≠ '#' :: '\x7b' :: r) → m u = none)
    (hint : ∀ X rest, '\x7d' ∉ X → '\n' ∉ X →
      m ('#' :: '\x7b' :: (X ++ '\x7d' :: rest)) = some (o ++ (X ++ c), X.length + 3))
    (interps : List (Str × Str)) (s : Str)
    (hcut : ∀ p ∈ interps,
      ('"' ∉ p.1 ∧ '\n' ∉ p.1 ∧ '\x7d' ∉ p.1) ∧
      ('"' ∉ p.2 ∧ '\n' ∉ p.2 ∧ noPair '#' '\x7b' p.2 = true)) :
    replaceMatches m 0 (renderInterps "#\x7b".toList "\x7d".toList interps ++ '"' :: s) =
      renderInterps o c interps ++ replaceMatches m 0 ('"' :: s) := by
  induction interps with
  | nil => rfl
  | cons p rest ih =>
    have hp := hcut p (by simp)
    have hnext : ∀ r, renderInterps "#\x7b".toList "\x7d".toList rest ++ '"' :: s ≠
        '\x7b' :: r := by
      cases rest with
      | nil => intro r hr; cases hr
      | cons q rest => intro r hr; cases hr
    have hshape : renderInterps "#\x7b".toList "\x7d".toList (p :: rest) ++ '"' :: s =
        '#' :: (('\x7b' :: (p.1 ++ ['\x7d'])) ++
          (p.2 ++ (renderInterps "#\x7b".toList "\x7d".toList rest ++ '"' :: s))) := by
      simp [renderInterps]
    have hm : m ('#' :: (('\x7b' :: (p.1 ++ ['\x7d'])) ++
          (p.2 ++ (renderInterps "#\x7b".toList "\x7d".toList rest ++ '"' :: s)))) =
        some (o ++ (p.1 ++ c), ('\x7b' :: (p.1 ++ ['\x7d'])).length + 1) := by
      have h := hint p.1 (p.2 ++ (renderInterps "#\x7b".toList "\x7d".toList rest ++ '"' :: s))
        hp.1.2.2 hp.1.2.1
      simpa using h
    rw [hshape, replaceMatches_match m '#' _ _ _ hm,
      replaceMatches_text m hnone p.2 _ hp.2.2.2 hnext, ih (fun q hq => hcut q (by simp [hq]))]
    simp [renderInterps]

/-- The replacement of the interpolations over a well cut literal. -/
theorem replaceMatches_quoted (m : Str → Option (Str × Nat)) (o c : Str)
    (hnone : ∀ u, (∀ r, u ≠ '#' :: '\x7b' :: r) → m u = none)
    (hint : ∀ X rest, '\x7d' ∉ X → '\n' ∉ X →
      m ('#' :: '\x7b' :: (X ++ '\x7d' :: rest)) = some (o ++ (X ++ c), X.length + 3))
    (q : Quoted) (hq : q.WellCut) :
    replaceMatches m 0 (q.render "#\x7b".toList "\x7d".toList) = q.render o c := by
  have hnextq : ∀ r, renderInterps "#\x7b".toList "\x7d".toList q.interps ++ '"' :: [] ≠
      '\x7b' :: r := by
    cases q.interps with
    | nil => intro r hr; cases hr
    | cons p rest => intro r hr; cases hr
  have hquote : ∀ s, replaceMatches m 0 ('"' :: s) = '"' :: replaceMatches m 0 s := fun s =>
    replaceMatches_plain m ['"'] s (fun x hx t => hnone _ (fun r hr => by
      rw [List.mem_singleton] at hx
      subst hx
      cases hr))
  unfold Quoted.render
  rw [hquote, replaceMatches_text m hnone q.head _ hq.1.2.2 hnextq,
    replaceMatches_interps m o c hnone hint q.interps [] hq.2, hquote]
  rfl

/-- The first rewriting replaces the interpolations of a well cut literal by sentinels. -/
theorem protectInterpolations_quoted (q : Quoted) (hq : q.WellCut) :
    protectInterpolations (q.render "#\x7b".toList "\x7d".toList) =
      q.render "__7777__".toList "__9999__".toList := by
  unfold protectInterpolations
  apply replaceMatches_quoted _ _ _ _ _ q hq
  · intro u hu
    simp only [matchInterpolation_none u hu, Option.map_none']
  · intro X rest hb hn
    simp only [matchInterpolation_interp X rest hb hn, Option.map_some', Option.some.injEq,
      Prod.mk.injEq, List.append_assoc, true_and, List.length_cons, List.length_append]
    omega

/-- The body of a well cut literal holds no double quote and no line feed. -/
theorem wellCut_body (q : Quoted) (hq : q.WellCut) :
    '"' ∉ q.head ++ renderInterps "#\x7b".toList "\x7d".toList q.interps ∧
    '\n' ∉ q.head ++ renderInterps "#\x7b".toList "\x7d".toList q.interps := by
  have hi : ∀ interps : List (Str × Str),
      (∀ p ∈ interps,
        ('"' ∉ p.1 ∧ '\n' ∉ p.1 ∧ '\x7d' ∉ p.1) ∧
        ('"' ∉ p.2 ∧ '\n' ∉ p.2 ∧ noPair '#' '\x7b' p.2 = true)) →
      '"' ∉ renderInterps "#\x7b".toList "\x7d".toList interps ∧
      '\n' ∉ renderInterps "#\x7b".toList "\x7d".toList interps := by
    intro interps
    induction interps with
    | nil => intro _; exact ⟨by simp [renderInterps], by simp [renderInterps]⟩
    | cons p rest ih =>
      intro h
      have hp := h p (by simp)
      have ih := ih (fun q hq => h q (by simp [hq]))
      simp only [renderInterps, List.mem_append, not_or]
      exact ⟨⟨by decide, hp.1.1, by decide, hp.2.1, ih.1⟩,
        ⟨by decide, hp.1.2.1, by decide, hp.2.2.1, ih.2⟩⟩
  have h := hi q.interps hq.2
  simp only [List.mem_append, not_or]
  exact ⟨⟨hq.1.1, h.1⟩, ⟨hq.1.2.1, h.2⟩⟩

/-- The first rewriting of a well cut source replaces the interpolations inside its literals by
sentinels and leaves everything else as it is. -/
theorem protectQuoted_source (src : HamlSource) (hsrc : src.WellCut) :
    protectQuoted src.sourceText = src.protectedText := by
  have hlit : ∀ lits : List (Quoted × Str), (∀ p ∈ lits, p.1.WellCut ∧ '"' ∉ p.2) →
      replaceMatches
          (fun s => (matchQuoted s).map
            (fun (m, rest) => (protectInterpolations m, s.length - rest.length)))
          0 (renderLiterals "#\x7b".toList "\x7d".toList lits) =
        renderLiterals "__7777__".toList "__9999__".toList lits := by
    intro lits
    induction lits with
    | nil => intro _; rfl
    | cons p rest ih =>
      intro h
      have hp := h p (by simp)
      have hb := wellCut_body p.1 hp.1
      have hshape : renderLiterals "#\x7b".toList "\x7d".toList (p :: rest) =
          '"' :: (((p.1.head ++ renderInterps "#\x7b".toList "\x7d".toList p.1.interps) ++
            ['"']) ++ (p.2 ++ renderLiterals "#\x7b".toList "\x7d".toList rest)) := by
        simp [renderLiterals, Quoted.render]
      have hm : (fun s => (matchQuoted s).map
            (fun (m, rest) => (protectInterpolations m, s.length - rest.length)))
          ('"' :: (((p.1.head ++ renderInterps "#\x7b".toList "\x7d".toList p.1.interps) ++
            ['"']) ++ (p.2 ++ renderLiterals "#\x7b".toList "\x7d".toList rest))) =
          some (p.1.render "__7777__".toList "__9999__".toList,
            ((p.1.head ++ renderInterps "#\x7b".toList "\x7d".toList p.1.interps) ++
              ['"']).length + 1) := by
        have h1 := matchQuoted_literal
          (p.1.head ++ renderInterps "#\x7b".toList "\x7d".toList p.1.interps)
          (p.2 ++ renderLiterals "#\x7b".toList "\x7d".toList rest) hb.1 hb.2
        have h2 := protectInterpolations_quoted p.1 hp.1
        simp only [Quoted.render, List.append_assoc] at h2
        simp only [List.append_assoc, List.singleton_append] at h1 ⊢
        rw [h1]
        simp only [Option.map_some', h2, Quoted.render, Option.some.injEq, Prod.mk.injEq,
          true_and, List.length_cons, List.length_append, List.length_nil]
        omega
      rw [hshape, replaceMatches_match _ '"' _ _ _ hm,
        replaceMatches_plain _ p.2 _ (fun x hx t => by
          have hxq : x ≠ '"' := fun h => hp.2 (h ▸ hx)
          simp only [matchQuoted_none x t hxq, Option.map_none']),
        ih (fun q hq => h q (by simp [hq]))]
      rfl
  unfold protectQuoted HamlSource.sourceText HamlSource.protectedText HamlSource.render
  rw [replaceMatches_plain _ src.lead _ (fun x hx t => by
      have hxq : x ≠ '"' := fun h => hsrc.1 (h ▸ hx)
      simp only [matchQuoted_none x t hxq, Option.map_none']),
    hlit src.literals hsrc.2]

/-- The pieces of `strings.Split(name, sep)`: the last piece holds no separator, and it is the
whole name when it is the only piece and what follows the last separator otherwise. -/
theorem splitChar_last (sep : Char) (name : Str) :
    ∃ init last, splitChar sep name = init ++ [last] ∧ sep ∉ last ∧
      ((init = [] ∧ name = last) ∨ (init ≠ [] ∧ ∃ pre, name = pre ++ sep :: last)) := by
  induction name with
  | nil => exact ⟨[], [], rfl, by simp, Or.inl ⟨rfl, rfl⟩⟩
  | cons c t ih =>
    obtain ⟨init, last, hsplit, hlast, hcase⟩ := ih
    by_cases hc : c = sep
    · refine ⟨[] :: init, last, by simp [splitChar, hc, hsplit], hlast, Or.inr ⟨by simp, ?_⟩⟩
      rcases hcase with ⟨_, h⟩ | ⟨_, pre, h⟩
      · exact ⟨[], by simp [hc, h]⟩
      · exact ⟨c :: pre, by simp [h]⟩
    · cases init with
      | nil =>
        rcases hcase with ⟨_, h⟩ | ⟨h, _⟩
        · refine ⟨[], c :: last, by simp [splitChar, hc, hsplit], ?_, Or.inl ⟨rfl, by rw [h]⟩⟩
          simp only [List.mem_cons, not_or]
          exact ⟨fun h => hc h.symm, hlast⟩
        · exact absurd rfl h
      | cons i0 init =>
        rcases hcase with ⟨h, _⟩ | ⟨_, pre, h⟩
        · cases h
        · exact ⟨(c :: i0) :: init, last, by simp [splitChar, hc, hsplit], hlast,
            Or.inr ⟨by simp, c :: pre, by simp [h]⟩⟩

/-- What follows the last separator of a text is determined by the text. -/
theorem last_piece_unique (sep : Char) (p1 l1 p2 l2 : Str) (h1 : sep ∉ l1) (h2 : sep ∉ l2)
    (h : p1 ++ sep :: l1 = p2 ++ sep :: l2) : l1 = l2 := by
  rcases List.append_eq_append_iff.mp h with ⟨a, rfl, ha⟩ | ⟨a, rfl, ha⟩
  · cases a with
    | nil => simpa using ha
    | cons x a =>
      injection ha with hx ha
      exact absurd (by rw [ha]; simp) h1
  · cases a with
    | nil => simpa using ha.symm
    | cons x a =>
      injection ha with hx ha
      exact absurd (by rw [ha]; simp) h2

/-- The test of `addTemplate` holds exactly for the names that end in `.haml`. -/
theorem isHaml_iff (name : Str) : isHaml name = true ↔ ".haml".toList <:+ name := by
  obtain ⟨init, last, hsplit, hlast, hcase⟩ := splitChar_last '.' name
  have hgl : (init ++ [last]).getLast? = some last := by
    rw [List.getLast?_append]
    rfl
  unfold isHaml
  simp only [hsplit, decide_eq_true_eq, List.length_append, List.length_singleton, hgl,
    Option.some.injEq]
  constructor
  · rintro ⟨hlen, rfl⟩
    rcases hcase with ⟨h, _⟩ | ⟨_, pre, h⟩
    · subst h
      simp at hlen
    · exact ⟨pre, h.symm⟩
  · rintro ⟨x, hx⟩
    have hx' : x ++ '.' :: "haml".toList = name := hx
    rcases hcase with ⟨_, h⟩ | ⟨hne, pre, h⟩
    · exfalso
      apply hlast
      rw [← h, ← hx']
      simp
    · have hl := last_piece_unique '.' pre last x "haml".toList hlast (by decide)
        (h.symm.trans hx'.symm)
      refine ⟨?_, hl⟩
      cases init with
      | nil => exact absurd rfl hne
      | cons i0 init => simp

/-- A source without two adjacent underscores has none in any of its pieces. -/
theorem calm_of_source (src : HamlSource) (h : noPair '_' '_' src.sourceText = true)
    (hstr : ∀ p ∈ src.literals, noStraddle p.1.interps = true) : src.Calm := by
  have hi : ∀ (interps : List (Str × Str)) (s : Str),
      noPair '_' '_' (renderInterps "#\x7b".toList "\x7d".toList interps ++ s) = true →
      ∀ p ∈ interps, noPair '_' '_' p.1 = true ∧ noPair '_' '_' p.2 = true := by
    intro interps s
    induction interps with
    | nil => intro _ p hp; cases hp
    | cons q rest ih =>
      intro h p hp
      simp only [renderInterps, List.append_assoc] at h
      have h1 := (noPair_append _ _ _ _ h).2
      have h2 := noPair_append _ _ _ _ h1
      have h3 := (noPair_append _ _ _ _ h2.2).2
      have h4 := noPair_append _ _ _ _ h3
      rcases List.mem_cons.mp hp with rfl | hp
      · exact ⟨h2.1, h4.1⟩
      · exact ih h4.2 p hp
  have hl : ∀ lits : List (Quoted × Str),
      noPair '_' '_' (renderLiterals "#\x7b".toList "\x7d".toList lits) = true →
      (∀ p ∈ lits, noStraddle p.1.interps = true) →
      ∀ p ∈ lits, p.1.Calm ∧ noPair '_' '_' p.2 = true := by
    intro lits
    induction lits with
    | nil => intro _ _ p hp; cases hp
    | cons q rest ih =>
      intro h hs p hp
      simp only [renderLiterals, Quoted.render, List.cons_append, List.append_assoc] at h
      have h1 := (noPair_cons _ _ _ _ h).2
      have h2 := noPair_append _ _ _ _ h1
      have h3 := (noPair_append _ _ _ _ h2.2).2
      have h4 := noPair_append _ _ ['"'] _ h3
      have h5 := noPair_append _ _ _ _ h4.2
      rcases List.mem_cons.mp hp with rfl | hp
      · exact ⟨⟨h2.1, hi _ _ h2.2, hs _ (by simp)⟩, h5.1⟩
      · exact ih h5.2 (fun r hr => hs r (by simp [hr])) p hp
  unfold HamlSource.sourceText HamlSource.render at h
  have h0 := noPair_append _ _ _ _ h
  exact ⟨h0.1, hl src.literals h0.2 hstr⟩

/-- C15, counterexample: the haml line `"#{x}7777#{y}"` holds no underscore, hence none of the
sentinel tokens. The protect step rewrites its two interpolations as claimed, but in the
protected text the end of the first closing sentinel, the text `7777` and the start of the
second opening sentinel read `__7777__`: the restore step gives `"{{x__9999{{7777__y}}"`, not
`"{{x}}7777{{y}}"`. -/
theorem restore_breaks_on_straddle :
    hamlStraddle.sourceText = "\"#\x7bx\x7d7777#\x7by\x7d\"".toList ∧
    '_' ∉ hamlStraddle.sourceText ∧
    hamlStraddle.WellCut ∧
    protectQuoted hamlStraddle.sourceText = hamlStraddle.protectedText ∧
    hamlStraddle.protectedText = "\"__7777__x__9999__7777__7777__y__9999__\"".toList ∧
    hamlStraddle.restoredText = "\"\x7b\x7bx\x7d\x7d7777\x7b\x7by\x7d\x7d\"".toList ∧
    restoreSentinels hamlStraddle.protectedText =
      "\"\x7b\x7bx__9999\x7b\x7b7777__y\x7d\x7d\"".toList ∧
    restoreSentinels hamlStraddle.protectedText ≠ hamlStraddle.restoredText := by
  decide

/-- C15, amended: the test of `addTemplate` that guards the preprocessing holds exactly for the
names that end in `.haml`. For a haml source cut at its double-quoted literals as the patterns
see it, the protect step writes each interpolation `#{X}` of a literal as `__7777__X__9999__`
and leaves the rest of the text, the interpolations outside the literals included, as it is.
If moreover the source holds no two adjacent underscores and no interpolation is followed by
`7777`, `_7777`, `7777_` or `_7777_` and another interpolation, the restore step applied to
the protected text gives the source with each of those interpolations written `{{X}}`. -/
theorem haml_protect_restore (src : HamlSource) (hcut : src.WellCut)
    (hdu : noPair '_' '_' src.sourceText = true)
    (hstr : ∀ p ∈ src.literals, noStraddle p.1.interps = true) :
    (∀ name, isHaml name = true ↔ ".haml".toList <:+ name) ∧
    protectQuoted src.sourceText = src.protectedText ∧
    restoreSentinels src.protectedText = src.restoredText :=
  ⟨isHaml_iff, protectQuoted_source src hcut,
    restoreSentinels_protected src (calm_of_source src hdu hstr)⟩

/-- C15, witness: the haml line `%a{:href => "/u/#{user_id}/x,y"} #{z}`. -/
theorem haml_protect_restore_witness :
    (isHaml "layouts/base.haml".toList = true ↔
      ".haml".toList <:+ "layouts/base.haml".toList) ∧
    protectQuoted "%a\x7b:href => \"/u/#\x7buser_id\x7d/x,y\"\x7d #\x7bz\x7d".toList =
      "%a\x7b:href => \"/u/__7777__user_id__9999__/x,y\"\x7d #\x7bz\x7d".toList ∧
    restoreSentinels
        "%a\x7b:href => \"/u/__7777__user_id__9999__/x,y\"\x7d #\x7bz\x7d".toList =
      "%a\x7b:href => \"/u/\x7b\x7buser_id\x7d\x7d/x,y\"\x7d #\x7bz\x7d".toList :=
  have h := haml_protect_restore hamlAttribute (by decide) (by decide) (by decide)
  ⟨h.1 _, h.2.1, h.2.2⟩

/-- C16, counterexample: with three overrides the second one is not used; the plural form of
two items is the default "s". -/
theorem pluralize_three_overrides :
    TemplateFuncs.pluralize (.int 2) ["y".toList, "ies".toList, "x".toList] = .ok "s".toList ∧
    TemplateFuncs.pluralize (.slice 0) ["y".toList, "ies".toList, "x".toList] =
      .ok "s".toList := by
  decide

/-- C16, amended: for every list of overrides, `pluralize` returns the singular form for the
`int` 1 and for a slice of length 1 and the plural form for every other `int` and every other
slice, where the singular form is the first override, "" when there is none, and the plural
form is the second override when exactly two overrides are given, "s" otherwise. -/
theorem pluralize_forms (pluralOverrides : List Str) :
    TemplateFuncs.pluralize (.int 1) pluralOverrides = .ok (pluralOverrides.getD 0 []) ∧
    TemplateFuncs.pluralize (.slice 1) pluralOverrides = .ok (pluralOverrides.getD 0 []) ∧
    (∀ n : Int, n ≠ 1 →
      TemplateFuncs.pluralize (.int n) pluralOverrides =
        .ok (if pluralOverrides.length = 2 then pluralOverrides.getD 1 [] else ['s'])) ∧
    (∀ len : Nat, len ≠ 1 →
      TemplateFuncs.pluralize (.slice len) pluralOverrides =
        .ok (if pluralOverrides.length = 2 then pluralOverrides.getD 1 [] else ['s'])) := by
  have hs : (if 1 ≤ pluralOverrides.length then pluralOverrides.getD 0 [] else []) =
      pluralOverrides.getD 0 [] := by
    cases pluralOverrides <;> simp
  have hp : (if 1 ≤ pluralOverrides.length ∧ pluralOverrides.length = 2 then
      pluralOverrides.getD 1 [] else ['s']) =
      (if pluralOverrides.length = 2 then pluralOverrides.getD 1 [] else ['s']) := by
    by_cases h2 : pluralOverrides.length = 2
    · simp [h2]
    · simp [h2]
  refine ⟨?_, ?_, ?_, ?_⟩
  · simp only [TemplateFuncs.pluralize, hs]; simp
  · simp only [TemplateFuncs.pluralize, hs]; simp
  · intro n hn
    simp only [TemplateFuncs.pluralize, hp]
    simp [hn]
  · intro len hlen
    simp only [TemplateFuncs.pluralize, hp]
    simp [hlen]

/-- C16, witness: the defaults, one override and two overrides. -/
theorem pluralize_forms_witness :
    TemplateFuncs.pluralize (.int 1) ["y".toList, "ies".toList] = .ok "y".toList ∧
    TemplateFuncs.pluralize (.slice 1) [] = .ok [] ∧
    TemplateFuncs.pluralize (.int 0) ["y".toList, "ies".toList] = .ok "ies".toList ∧
    TemplateFuncs.pluralize (.slice 3) ["y".toList] = .ok "s".toList :=
  have h2 := pluralize_forms ["y".toList, "ies".toList]
  ⟨h2.1, (pluralize_forms []).2.1, h2.2.2.1 0 (by decide),
    (pluralize_forms ["y".toList]).2.2.2 3 (by decide)⟩

theorem matchLineMarker_bounds (s : Str) (n : Nat) (h : matchLineMarker s = some n) :
    3 ≤ n ∧ n ≤ s.length := by
  cases s with
  | nil => simp [matchLineMarker] at h
  | cons c rest =>
    simp only [matchLineMarker] at h
    split at h
    · split at h
      · rename_i hc hd
        injection h with h
        subst h
        have h1 : 0 < (rest.takeWhile Char.isDigit).length := List.length_pos.mpr hd.1
        have h2 : (rest.takeWhile Char.isDigit).length < rest.length := by
          by_contra hge
          rw [List.drop_of_length_le (by omega)] at hd
          simp at hd
        simp only [List.length_cons]
        omega
      · cases h
    · cases h

theorem findLineMarker_bounds (s : Str) (off i0 i1 : Nat)
    (h : findLineMarker s off = some (i0, i1)) :
    off ≤ i0 ∧ i0 + 3 ≤ i1 ∧ i1 ≤ off + s.length := by
  induction s generalizing off with
  | nil => simp [findLineMarker] at h
  | cons c t ih =>
    rw [findLineMarker] at h
    cases hm : matchLineMarker (c :: t) with
    | some n =>
      rw [hm] at h
      simp only [Option.some.injEq, Prod.mk.injEq] at h
      have hb := matchLineMarker_bounds _ _ hm
      omega
    | none =>
      rw [hm] at h
      have := ih (off + 1) h
      simp only [List.length_cons]
      omega

/-- The function `parseTemplateError` returns for every message but those that end with their
first `:<digits>:` occurrence, and for these it panics. -/
theorem parseTemplateError_returns_or_ends (msg : Str) :
    (∃ r, parseTemplateError msg = .ok r) ∨
    ((∃ i0, findLineMarker msg 0 = some (i0, msg.length)) ∧
      parseTemplateError msg = .panic .sliceBounds) := by
  unfold parseTemplateError
  cases hf : findLineMarker msg 0 with
  | none => exact Or.inl ⟨_, rfl⟩
  | some p =>
    obtain ⟨i0, i1⟩ := p
    have hb := findLineMarker_bounds msg 0 i0 i1 hf
    have h1 : slice msg (i0 + 1) (i1 - 1) = some ((msg.take (i1 - 1)).drop (i0 + 1)) := by
      unfold slice
      rw [if_pos]
      omega
    have h2 : slice msg 0 i0 = some ((msg.take i0).drop 0) := by
      unfold slice
      rw [if_pos]
      omega
    simp only [h1, h2]
    by_cases hend : i1 + 1 ≤ msg.length
    · left
      simp only [sliceFrom, if_pos hend]
      exact ⟨_, rfl⟩
    · right
      have hi : i1 = msg.length := by omega
      subst hi
      refine ⟨⟨i0, rfl⟩, ?_⟩
      simp only [sliceFrom, if_neg hend]

/-- The description starts one byte after the marker: when the marker is followed by a
character of two bytes, here the encoding `c3 a9`, the description starts with the second
byte of that character. -/
theorem parseTemplateError_cuts_bytes :
    parseTemplateError ['x', ':', '1', '2', ':', '\xc3', '\xa9', ' ', 't'] =
      .ok ("x".toList, 12, ['\xa9', ' ', 't']) := by
  decide

/-- C17: the message `x:12:` ends with the first `:<digits>:` occurrence, which is found at
offsets 1 to 5; the slice `description[i[1]+1:]` starts beyond the end of the message and
`parseTemplateError` panics. -/
theorem parseTemplateError_panics_at_end :
    findLineMarker "x:12:".toList 0 = some (1, 5) ∧
    "x:12:".toList.length = 5 ∧
    sliceFrom "x:12:".toList (5 + 1) = none ∧
    parseTemplateError "x:12:".toList = .panic .sliceBounds := by
  decide

/-- A message without a `:<digits>:` occurrence is returned whole as description, with an
empty name and line 0. -/
theorem parseTemplateError_without_marker (msg : Str) (h : findLineMarker msg 0 = none) :
    parseTemplateError msg = .ok ([], 0, msg) := by
  simp [parseTemplateError, h]

end Revel
